import Mathlib

/-!
# compose_crypto_klines: the bar-aggregation engine of `main.go`

A shallow embedding of the record parser (`parseKline`, `parseInt64`,
`parseFloat64`) and of the bucket aggregator (the scanning loop of `main`,
`saveKline`, `cleanKline`), followed by theorems about them.

Modelling conventions.

* `int64` values are integers; every arithmetic operation of the source is
  followed by `wrap64`, the two's-complement reduction Go performs.
* `float64` values are IEEE-754 binary64 bit patterns (`F64`).  Comparison
  and addition are defined on the bit pattern (round to nearest, ties to
  even).  All NaNs behave alike in the program, the model produces one of them.
* A Go `string` is a Lean `String`; the separators, digits, signs and white
  space the program looks at are ASCII, so working on characters or on bytes
  gives the same pieces.
* The input of a pass is the list of its lines.  The `bufio.Scanner` of line
  110 hands them to the loop one by one and stops at the first line of 65536
  bytes or more, which its buffer cannot hold.
* `strconv.ParseInt` is modelled in full.  Of `strconv.ParseFloat` the syntax
  check and the shape of its errors are modelled (`strconv.ParseFloat`); the
  numeric conversion is a parameter.  The parser and the aggregator take the
  function from texts to `float64` values as an argument, so that what is
  proved of them holds for every such function.
* The output file is the list of accumulators handed to `fmt.Fprintf`, in
  the order written.
* `numOfRecords` (a Go `int`) is a natural number: it counts lines of the
  input, which never reach `2^63`.
-/

namespace ComposeKlines

/-! ## Machine integers -/

/-- Two's-complement reduction of an integer to the `int64` range. -/
def wrap64 (x : Int) : Int := (x + 2 ^ 63) % 2 ^ 64 - 2 ^ 63

/-- The values an `int64` variable can hold. -/
def IsInt64 (x : Int) : Prop := -(2 ^ 63) ≤ x ∧ x < 2 ^ 63

instance (x : Int) : Decidable (IsInt64 x) := by unfold IsInt64; infer_instance

/-! ## IEEE-754 binary64 -/

/-- A `float64`, given by its 64-bit pattern (sign, 11 exponent bits, 52
fraction bits).  Bits above the 64th are ignored by every operation. -/
structure F64 where
  bits : Nat
deriving DecidableEq

namespace F64

/-- The sign bit. -/
def sign (x : F64) : Bool := x.bits / 2 ^ 63 % 2 == 1

/-- The biased exponent. -/
def expo (x : F64) : Nat := x.bits / 2 ^ 52 % 2048

/-- The fraction bits. -/
def frac (x : F64) : Nat := x.bits % 2 ^ 52

/-- Exponent and fraction together: the magnitude, as an unsigned number. -/
def mag (x : F64) : Nat := x.bits % 2 ^ 63

def isNaN (x : F64) : Bool := x.expo == 2047 && x.frac != 0

def isInf (x : F64) : Bool := x.expo == 2047 && x.frac == 0

/-- Sign-magnitude reading of the bit pattern: on non-NaN values the IEEE
order is the order of these integers (both zeros are sent to `0`). -/
def key (x : F64) : Int := if x.sign then -(x.mag : Int) else (x.mag : Int)

/-- Go's `x < y` on `float64`: false as soon as one side is NaN. -/
def lt (x y : F64) : Bool := !x.isNaN && !y.isNaN && decide (x.key < y.key)

/-- Go's `x > y` on `float64`. -/
def gt (x y : F64) : Bool := lt y x

/-- Go's `x <= y` on `float64`. -/
def le (x y : F64) : Bool := !x.isNaN && !y.isNaN && decide (x.key ≤ y.key)

/-- Go's `x == y` on `float64`. -/
def eq (x y : F64) : Bool := !x.isNaN && !y.isNaN && decide (x.key = y.key)

/-- The constant `0` (positive zero). -/
def zero : F64 := ⟨0⟩

def negZero : F64 := ⟨2 ^ 63⟩

/-- A quiet NaN. -/
def nan : F64 := ⟨2047 * 2 ^ 52 + 2 ^ 51⟩

def inf (neg : Bool) : F64 := ⟨(if neg then 2 ^ 63 else 0) + 2047 * 2 ^ 52⟩

/-- The value of a finite `float64`, as an integer multiple of `2^-1074`. -/
def toScaled (x : F64) : Int :=
  let e := x.expo
  let m := if e = 0 then x.frac else x.frac + 2 ^ 52
  let n : Int := ((m <<< (max e 1 - 1) : Nat) : Int)
  if x.sign then -n else n

/-- The position of the highest set bit of `n` (for `0 < n < 2^4096`),
found by halving steps. -/
def floorLog2 (n : Nat) : Nat :=
  ([2048, 1024, 512, 256, 128, 64, 32, 16, 8, 4, 2, 1].foldl
    (fun (p : Nat × Nat) k => if p.1 >>> k ≠ 0 then (p.1 >>> k, p.2 + k) else p) (n, 0)).2

/-- The `float64` nearest to `± m * 2^-1074` for `m > 0` (ties to even,
overflow to infinity). -/
def ofScaled (neg : Bool) (m : Nat) : F64 :=
  let s := (floorLog2 m + 1) - 53
  let q := m >>> s
  let r := m - (q <<< s)
  let half := 1 <<< (s - 1)
  let q1 := if s = 0 then q else if r > half ∨ (r = half ∧ q % 2 = 1) then q + 1 else q
  ⟨(if neg then 2 ^ 63 else 0) + min (s * 2 ^ 52 + q1) (2047 * 2 ^ 52)⟩

/-- Go's `x + y` on `float64`. -/
def add (x y : F64) : F64 :=
  if x.isNaN || y.isNaN then nan
  else if x.isInf then (if y.isInf && (x.sign != y.sign) then nan else inf x.sign)
  else if y.isInf then inf y.sign
  else
    let s := x.toScaled + y.toScaled
    if s = 0 then (if x.sign && y.sign then negZero else zero)
    else ofScaled (decide (s < 0)) s.natAbs

end F64

/-! ## The record -/

/-- The `Kline` struct (one bar, or the running aggregate). -/
structure Kline where
  OpenTime : Int
  Open : F64
  High : F64
  Low : F64
  Close : F64
  Volume : F64
  CloseTime : Int
  QuoteAssetVolume : F64
  NumOfTrades : Int
  TakerBuyBaseAssetVolume : F64
  TakerBuyQuoteAssetVolume : F64
  Ignore : F64
  numOfRecords : Nat
deriving DecidableEq

/-- The zero value `Kline{}`. -/
def Kline.empty : Kline :=
  { OpenTime := 0, Open := F64.zero, High := F64.zero, Low := F64.zero, Close := F64.zero,
    Volume := F64.zero, CloseTime := 0, QuoteAssetVolume := F64.zero, NumOfTrades := 0,
    TakerBuyBaseAssetVolume := F64.zero, TakerBuyQuoteAssetVolume := F64.zero,
    Ignore := F64.zero, numOfRecords := 0 }

/-! ## Strings and number parsing (Go standard library) -/

/-- The predicate `unicode.IsSpace`, which `strings.TrimSpace` uses. -/
def isSpace (c : Char) : Bool :=
  let n := c.toNat
  (9 ≤ n && n ≤ 13) || n == 0x20 || n == 0x85 || n == 0xA0 || n == 0x1680 ||
  (0x2000 ≤ n && n ≤ 0x200A) || n == 0x2028 || n == 0x2029 || n == 0x202F ||
  n == 0x205F || n == 0x3000

/-- The function `strings.TrimSpace`: leading and trailing white space removed. -/
def TrimSpace (s : String) : String :=
  ⟨((s.data.dropWhile isSpace).reverse.dropWhile isSpace).reverse⟩

/-- The pieces of a character list between its commas. -/
def splitComma : List Char → List (List Char)
  | [] => [[]]
  | c :: cs =>
    if c = ',' then [] :: splitComma cs
    else
      match splitComma cs with
      | [] => [[c]]
      | p :: ps => (c :: p) :: ps

/-- The call `strings.Split(line, ",")`. -/
def Split (line : String) : List String := (splitComma line.data).map String.mk

/-- The two kinds of `strconv.NumError`. -/
inductive NumError where
  | malformed
  | outOfRange
deriving DecidableEq

/-- The digit loop of `strconv.ParseUint(s, 10, 64)`, with `n` the value read
so far.  A character that is not a decimal digit is a syntax error; a value
that leaves the `uint64` range is a range error, reported at once with the
value `2^64 - 1`. -/
def ParseUintLoop : List Char → Nat → Nat × Option NumError
  | [], n => (n, none)
  | c :: cs, n =>
    if 48 ≤ c.toNat ∧ c.toNat ≤ 57 then
      let d := c.toNat - 48
      if n ≥ 1844674407370955162 then (2 ^ 64 - 1, some NumError.outOfRange)
      else
        let n10 := (n * 10) % 2 ^ 64
        let n1 := (n10 + d) % 2 ^ 64
        if n1 < n10 ∨ n1 > 2 ^ 64 - 1 then (2 ^ 64 - 1, some NumError.outOfRange)
        else ParseUintLoop cs n1
    else (0, some NumError.malformed)

/-- The call `strconv.ParseUint(s, 10, 64)`: value and error. -/
def ParseUint (s : List Char) : Nat × Option NumError :=
  if s = [] then (0, some NumError.malformed) else ParseUintLoop s 0

/-- The call `strconv.ParseInt(s, 10, 64)`: value and error. -/
def ParseInt (s : String) : Int × Option NumError :=
  match s.data with
  | [] => (0, some NumError.malformed)
  | c :: cs =>
    let neg := c = '-'
    let digits := if c = '+' ∨ c = '-' then cs else c :: cs
    let r := ParseUint digits
    if r.2 = some NumError.malformed then (0, some NumError.malformed)
    else if ¬ neg ∧ r.1 ≥ 2 ^ 63 then (2 ^ 63 - 1, some NumError.outOfRange)
    else if neg ∧ r.1 > 2 ^ 63 then (-(2 ^ 63), some NumError.outOfRange)
    else
      let n := wrap64 (r.1 : Int)
      (if neg then wrap64 (-n) else n, none)

/-! ## The syntax of `strconv.ParseFloat` (Go standard library, `atof.go`)

`ParseFloat(s, 64)` first decides whether `s` is a floating-point text
(`special`, `readFloat`, and the test that all of `s` was read), and only then
converts it.  The decision is modelled step by step.  Of the conversion the
model keeps what the program can observe through a discarded error: a range
error comes with an infinity of the sign read, and a decimal text with at
most 800 significant digits whose decimal point lies more than 310 places to
the right overflows.  The other conversions (`atof64exact`, `eiselLemire64`,
`decimal.floatBits`, `atofHex`) are a parameter `convert`.  The variables
`mantissa`, `ndMant`, `trunc` and `exp` of `readFloat` only feed the
conversion and are left out. -/

namespace strconv

/-- The function `lower`: `c | ('x' - 'X')`, the lower-case form of an ASCII
letter. -/
def lower (c : Char) : Nat := c.toNat ||| 32

/-- The function `commonPrefixLenIgnoreCase`: the length of the common
beginning of `s` and of the lower-case text `pre`, the case of `s` ignored. -/
def commonPrefixLenIgnoreCase : List Char → List Char → Nat
  | c :: s, p :: pre =>
    let c1 := if 65 ≤ c.toNat ∧ c.toNat ≤ 90 then c.toNat + 32 else c.toNat
    if c1 ≠ p.toNat then 0 else commonPrefixLenIgnoreCase s pre + 1
  | _, _ => 0

/-- The function `special`: the value of a text that starts with a possibly
signed `inf` or `infinity`, or with `nan`, and the text left after it. -/
def special (s : List Char) : Option (F64 × List Char) :=
  match s with
  | [] => none
  | c :: cs =>
    if c = '+' ∨ c = '-' ∨ c = 'i' ∨ c = 'I' then
      let t := if c = '+' ∨ c = '-' then cs else s
      let n := commonPrefixLenIgnoreCase t ['i', 'n', 'f', 'i', 'n', 'i', 't', 'y']
      let n3 := if 3 < n ∧ n < 8 then 3 else n
      if n3 = 3 ∨ n3 = 8 then some (F64.inf (decide (c = '-')), t.drop n3) else none
    else if c = 'n' ∨ c = 'N' then
      if commonPrefixLenIgnoreCase s ['n', 'a', 'n'] = 3 then some (F64.nan, s.drop 3) else none
    else none

/-- The variables of the digit loop of `readFloat`. -/
structure Digits where
  sawdot : Bool
  sawdigits : Bool
  nd : Nat
  dp : Int
  underscores : Bool

/-- The digit loop of `readFloat`: underscores, one point, digits (leading
zeros move the decimal point and are not counted); the loop stops at a second
point and at any other character.  The result is the state and the text not
read. -/
def readDigits (hex : Bool) : List Char → Digits → Digits × List Char
  | [], st => (st, [])
  | c :: cs, st =>
    if c = '_' then readDigits hex cs { st with underscores := true }
    else if c = '.' then
      if st.sawdot then (st, c :: cs)
      else readDigits hex cs { st with sawdot := true, dp := st.nd }
    else if 48 ≤ c.toNat ∧ c.toNat ≤ 57 then
      if c = '0' ∧ st.nd = 0 then
        readDigits hex cs { st with sawdigits := true, dp := st.dp - 1 }
      else readDigits hex cs { st with sawdigits := true, nd := st.nd + 1 }
    else if hex = true ∧ 97 ≤ lower c ∧ lower c ≤ 102 then
      readDigits hex cs { st with sawdigits := true, nd := st.nd + 1 }
    else (st, c :: cs)

/-- The digit loop of the exponent of `readFloat`: the exponent read so far
(no longer updated once it is `10000` or more), whether an underscore was
seen, and the text not read. -/
def readExp : List Char → Nat → Bool → Nat × Bool × List Char
  | [], e, u => (e, u, [])
  | c :: cs, e, u =>
    if c = '_' then readExp cs e true
    else if 48 ≤ c.toNat ∧ c.toNat ≤ 57 then
      readExp cs (if e < 10000 then e * 10 + (c.toNat - 48) else e) u
    else (e, u, c :: cs)

/-- The loop of `underscoreOK`, with `saw` the kind of the last character:
an underscore must stand between two digits. -/
def underscoreOKLoop (hex : Bool) : List Char → Char → Bool
  | [], saw => saw != '_'
  | c :: cs, saw =>
    if (48 ≤ c.toNat ∧ c.toNat ≤ 57) ∨ (hex = true ∧ 97 ≤ lower c ∧ lower c ≤ 102) then
      underscoreOKLoop hex cs '0'
    else if c = '_' then
      if saw ≠ '0' then false else underscoreOKLoop hex cs '_'
    else if saw = '_' then false
    else underscoreOKLoop hex cs '!'

/-- The function `underscoreOK`: after an optional sign and an optional base
mark `0b`, `0o` or `0x` (which counts as a digit), underscores only separate
digits. -/
def underscoreOK (s : List Char) : Bool :=
  let s1 :=
    match s with
    | [] => s
    | c :: cs => if c = '-' ∨ c = '+' then cs else s
  match s1 with
  | c0 :: c1 :: cs =>
    if c0 = '0' ∧ (lower c1 = 98 ∨ lower c1 = 111 ∨ lower c1 = 120) then
      underscoreOKLoop (decide (lower c1 = 120)) cs '0'
    else underscoreOKLoop false s1 '^'
  | _ => underscoreOKLoop false s1 '^'

/-- What `readFloat` found when it returns `ok`: the sign, whether the text
is hexadecimal, the number `nd` of significant digits, the position `dp` of
the decimal point after them (in bits for a hexadecimal text), and the text
not read. -/
structure FloatText where
  neg : Bool
  hex : Bool
  nd : Nat
  dp : Int
  rest : List Char
deriving DecidableEq

/-- The function `readFloat`, `none` when it returns `ok = false`. -/
def readFloat (s : List Char) : Option FloatText :=
  match s with
  | [] => none
  | c :: cs =>
    let neg := decide (c = '-')
    let s1 := if c = '+' ∨ c = '-' then cs else s
    let hex :=
      match s1 with
      | c0 :: c1 :: _ :: _ => decide (c0 = '0' ∧ lower c1 = 120)
      | _ => false
    let s2 := if hex then s1.drop 2 else s1
    let r := readDigits hex s2
      { sawdot := false, sawdigits := false, nd := 0, dp := 0, underscores := false }
    let st := r.1
    if st.sawdigits = false then none
    else
      let dp0 : Int := if st.sawdot then st.dp else st.nd
      let dp1 : Int := if hex then dp0 * 4 else dp0
      let expChar : Nat := if hex then 112 else 101
      match r.2 with
      | x :: xs =>
        if lower x = expChar then
          match xs with
          | [] => none
          | y :: ys =>
            let esign : Int := if y = '-' then -1 else 1
            let s3 := if y = '+' ∨ y = '-' then ys else xs
            match s3 with
            | [] => none
            | z :: _ =>
              if z.toNat < 48 ∨ 57 < z.toNat then none
              else
                let e := readExp s3 0 st.underscores
                if e.2.1 = true ∧ underscoreOK (s.take (s.length - e.2.2.length)) = false then none
                else some { neg := neg, hex := hex, nd := st.nd, dp := dp1 + e.1 * esign,
                            rest := e.2.2 }
        else if hex then none
        else if st.underscores = true ∧ underscoreOK (s.take (s.length - r.2.length)) = false then
          none
        else some { neg := neg, hex := hex, nd := st.nd, dp := dp1, rest := r.2 }
      | [] =>
        if hex then none
        else if st.underscores = true ∧ underscoreOK s = false then none
        else some { neg := neg, hex := hex, nd := st.nd, dp := dp1, rest := [] }

/-- The outcome of the conversion of a floating-point text: a value, or an
overflow. -/
inductive Converted where
  | value (f : F64)
  | overflow

/-- Whether `ParseFloat(s, 64)` finds no syntax error in `s`: `s` is read to
its end by `special` or, when `special` finds nothing, by `readFloat`. -/
def wellFormed (s : String) : Bool :=
  match special s.data with
  | some (_, rest) => rest.isEmpty
  | none =>
    match readFloat s.data with
    | none => false
    | some t => t.rest.isEmpty

/-- The call `strconv.ParseFloat(s, 64)`: value and error.  A text that is
not read to its end is a syntax error, with the value `0`; a range error
comes with an infinity. -/
def ParseFloat (convert : String → Converted) (s : String) : F64 × Option NumError :=
  match special s.data with
  | some (f, rest) => if rest.isEmpty then (f, none) else (F64.zero, some NumError.malformed)
  | none =>
    match readFloat s.data with
    | none => (F64.zero, some NumError.malformed)
    | some t =>
      if t.rest.isEmpty = false then (F64.zero, some NumError.malformed)
      else if t.hex = false ∧ 0 < t.nd ∧ t.nd ≤ 800 ∧ 310 < t.dp then
        (F64.inf t.neg, some NumError.outOfRange)
      else
        match convert s with
        | Converted.value f => (f, none)
        | Converted.overflow => (F64.inf t.neg, some NumError.outOfRange)

end strconv

/-- The value part of `strconv.ParseFloat(s, 64)`, which is what `parseFloat64`
keeps. -/
def ParseFloatValue (convert : String → strconv.Converted) (s : String) : F64 :=
  (strconv.ParseFloat convert s).1

/-! ## The record parser (`main.go`, lines 230-262) -/

/-- The function `parseInt64`: the error of `ParseInt` is dropped. -/
def parseInt64 (s : String) : Int := (ParseInt s).1

/-- The function `parseFloat64`: the error of `strconv.ParseFloat(s, 64)` is
dropped.  `ParseFloat` gives the value that `strconv.ParseFloat` returns. -/
def parseFloat64 (ParseFloat : String → F64) (s : String) : F64 := ParseFloat s

/-- The two errors of `parseKline`: `"empty line."` and `"wrong fields"`. -/
inductive ParseError where
  | emptyLine
  | wrongFields
deriving DecidableEq

/-- The function `parseKline`. -/
def parseKline (ParseFloat : String → F64) (line : String) : Except ParseError Kline :=
  if line.length = 0 then Except.error ParseError.emptyLine
  else
    match Split line with
    | [p0, p1, p2, p3, p4, p5, p6, p7, p8, p9, p10, p11] =>
      Except.ok
        { OpenTime := parseInt64 p0
          Open := parseFloat64 ParseFloat p1
          High := parseFloat64 ParseFloat p2
          Low := parseFloat64 ParseFloat p3
          Close := parseFloat64 ParseFloat p4
          Volume := parseFloat64 ParseFloat p5
          CloseTime := parseInt64 p6
          QuoteAssetVolume := parseFloat64 ParseFloat p7
          NumOfTrades := parseInt64 p8
          TakerBuyBaseAssetVolume := parseFloat64 ParseFloat p9
          TakerBuyQuoteAssetVolume := parseFloat64 ParseFloat p10
          Ignore := parseFloat64 ParseFloat p11
          numOfRecords := 0 }
    | _ => Except.error ParseError.wrongFields

/-- Lines 132-133 of `main`: the scanned text is trimmed, then parsed. -/
def parseScanned (ParseFloat : String → F64) (text : String) : Except ParseError Kline :=
  parseKline ParseFloat (TrimSpace text)

/-! ## The bucket aggregator (`main.go`, lines 121-228) -/

/-- The function `saveKline`, on the list of records written so far: nothing
is written for an accumulator without records. -/
def saveKline (kline : Kline) (fd : List Kline) : List Kline :=
  if kline.numOfRecords = 0 then fd else fd ++ [kline]

/-- The function `cleanKline`: every field is set to zero. -/
def cleanKline (kline : Kline) : Kline :=
  { kline with
    OpenTime := 0, Open := F64.zero, High := F64.zero, Low := F64.zero, Close := F64.zero,
    Volume := F64.zero, CloseTime := 0, QuoteAssetVolume := F64.zero, NumOfTrades := 0,
    TakerBuyBaseAssetVolume := F64.zero, TakerBuyQuoteAssetVolume := F64.zero,
    Ignore := F64.zero, numOfRecords := 0 }

/-- Line 76: `intervalInMilliSeconds := int64(interval) * 60000`. -/
def intervalMs (interval : Int) : Int := wrap64 (interval * 60000)

/-- Line 121: `baseTimestamp = 1483228800000 + startMin*60000`. -/
def baseTs (startMin : Int) : Int := wrap64 (1483228800000 + wrap64 (startMin * 60000))

/-- Line 138: the open time of the bucket of a record opened at `t`
(`/` is Go's division, truncating toward zero). -/
def bucketOpen (intervalInMilliSeconds baseTimestamp t : Int) : Int :=
  wrap64 (wrap64 (wrap64 (Int.tdiv (wrap64 (t - baseTimestamp)) intervalInMilliSeconds)
    * intervalInMilliSeconds) + baseTimestamp)

/-- Line 139: the close time of the bucket opened at `openTime`. -/
def bucketClose (intervalInMilliSeconds openTime : Int) : Int :=
  wrap64 (wrap64 (openTime + intervalInMilliSeconds) - 1)

/-- The variables of the scanning loop: the accumulator `lastKline`, the
open time `lastKlineOpenTime` of its bucket, and what was written to
`resultFd`. -/
structure LoopState where
  lastKline : Kline
  lastKlineOpenTime : Int
  resultFd : List Kline

/-- Lines 122-123: the state before the first line. -/
def LoopState.init : LoopState :=
  { lastKline := Kline.empty, lastKlineOpenTime := 0, resultFd := [] }

/-- Lines 140-147: on a change of bucket the accumulator is written, cleaned
and given the times of the new bucket. -/
def openBucket (intervalInMilliSeconds baseTimestamp : Int) (st : LoopState) (kline : Kline) :
    LoopState :=
  let openTime := bucketOpen intervalInMilliSeconds baseTimestamp kline.OpenTime
  let closeTime := bucketClose intervalInMilliSeconds openTime
  if openTime ≠ st.lastKlineOpenTime then
    { lastKline := { cleanKline st.lastKline with OpenTime := openTime, CloseTime := closeTime }
      lastKlineOpenTime := openTime
      resultFd := saveKline st.lastKline st.resultFd }
  else st

/-- Lines 149-170: the record `kline` is added to the accumulator. -/
def mergeKline (lastKline kline : Kline) : Kline :=
  let k1 : Kline :=
    if lastKline.numOfRecords = 0 then
      { lastKline with Open := kline.Open, High := kline.High, Low := kline.Low }
    else
      { lastKline with
        High := if F64.gt kline.High lastKline.High then kline.High else lastKline.High
        Low := if F64.lt kline.Low lastKline.Low then kline.Low else lastKline.Low }
  { k1 with
    Close := kline.Close
    Volume := F64.add k1.Volume kline.Volume
    QuoteAssetVolume := F64.add k1.QuoteAssetVolume kline.QuoteAssetVolume
    NumOfTrades := wrap64 (k1.NumOfTrades + kline.NumOfTrades)
    TakerBuyBaseAssetVolume := F64.add k1.TakerBuyBaseAssetVolume kline.TakerBuyBaseAssetVolume
    TakerBuyQuoteAssetVolume := F64.add k1.TakerBuyQuoteAssetVolume kline.TakerBuyQuoteAssetVolume
    Ignore := kline.Ignore
    numOfRecords := k1.numOfRecords + 1 }

/-- Lines 138-170: the body of the loop for one parsed record. -/
def processKline (intervalInMilliSeconds baseTimestamp : Int) (st : LoopState) (kline : Kline) :
    LoopState :=
  let st1 := openBucket intervalInMilliSeconds baseTimestamp st kline
  { st1 with lastKline := mergeKline st1.lastKline kline }

/-- How a pass ends: the records written to the result file, and whether the
pass stopped on the run-time panic of line 138 (integer division by zero). -/
structure Run where
  written : List Kline
  panicked : Bool
deriving DecidableEq

/-- Lines 125-174 on a stream of parsed records: the loop, then the final
`saveKline`. -/
def aggregateLoop (intervalInMilliSeconds baseTimestamp : Int) :
    List Kline → LoopState → Run
  | [], st => { written := saveKline st.lastKline st.resultFd, panicked := false }
  | kline :: rest, st =>
    if intervalInMilliSeconds = 0 then { written := st.resultFd, panicked := true }
    else aggregateLoop intervalInMilliSeconds baseTimestamp rest
      (processKline intervalInMilliSeconds baseTimestamp st kline)

/-- One pass of `main` (lines 121-174) over the valid records of the input,
for the flag value `interval` and the offset `startMin`. -/
def aggregate (interval startMin : Int) (records : List Kline) : Run :=
  aggregateLoop (intervalMs interval) (baseTs startMin) records LoopState.init

/-- The constant `bufio.MaxScanTokenSize`: the size up to which the buffer
of the `bufio.Scanner` of line 110 grows, 64 KiB. -/
def maxScanTokenSize : Nat := 65536

/-- The function `dropCR` of `bufio.ScanLines`: one carriage return at the
end of a line is not part of the token. -/
def dropCR (line : String) : String :=
  match line.data.reverse with
  | [] => line
  | c :: rest => if c = Char.ofNat 13 then ⟨rest.reverse⟩ else line

/-- Lines 125-174 on the lines of the input (the text between line feeds, a
Go string as long as its UTF-8 encoding).  `scanner.Scan()` returns false at
the end of the input, and at a line that fills the buffer without its line
feed, one of `maxScanTokenSize` bytes or more: the loop then breaks and the
rest of the input is not read.  A line that does not parse is logged and
skipped. -/
def scanLoop (ParseFloat : String → F64) (intervalInMilliSeconds baseTimestamp : Int) :
    List String → LoopState → Run
  | [], st => { written := saveKline st.lastKline st.resultFd, panicked := false }
  | text :: rest, st =>
    if maxScanTokenSize ≤ text.utf8ByteSize then
      { written := saveKline st.lastKline st.resultFd, panicked := false }
    else
      match parseScanned ParseFloat (dropCR text) with
      | Except.error _ => scanLoop ParseFloat intervalInMilliSeconds baseTimestamp rest st
      | Except.ok kline =>
        if intervalInMilliSeconds = 0 then { written := st.resultFd, panicked := true }
        else scanLoop ParseFloat intervalInMilliSeconds baseTimestamp rest
          (processKline intervalInMilliSeconds baseTimestamp st kline)

/-- One pass of `main` (lines 121-174) over the lines of the input. -/
def composePass (ParseFloat : String → F64) (interval startMin : Int) (lines : List String) :
    Run :=
  scanLoop ParseFloat (intervalMs interval) (baseTs startMin) lines LoopState.init

/-! ## Specification-side notions -/

/-- The texts that the calls of `scanner.Text()` return during a pass: the
lines before the first line of `maxScanTokenSize` bytes or more, each without
its final carriage return. -/
def scanTokens (lines : List String) : List String :=
  (lines.takeWhile fun line => decide (line.utf8ByteSize < maxScanTokenSize)).map dropCR

/-- The valid records of an input: the lines read by the scanner that
`parseKline` accepts after trimming, in order. -/
def validRecords (ParseFloat : String → F64) (lines : List String) : List Kline :=
  (scanTokens lines).filterMap fun text =>
    match parseScanned ParseFloat text with
    | Except.ok kline => some kline
    | Except.error _ => none

/-- The records of all the lines of an input that `parseKline` accepts after
trimming, whether the scanner reads them or not. -/
def acceptedRecords (ParseFloat : String → F64) (lines : List String) : List Kline :=
  (lines.map dropCR).filterMap fun text =>
    match parseScanned ParseFloat text with
    | Except.ok kline => some kline
    | Except.error _ => none

/-- The stream cut into maximal runs of consecutive records having the same
bucket open time: the records of one run are those assigned to one bucket. -/
def bucketRuns (intervalInMilliSeconds baseTimestamp : Int) : List Kline → List (List Kline)
  | [] => []
  | k :: ks =>
    match bucketRuns intervalInMilliSeconds baseTimestamp ks with
    | [] => [[k]]
    | [] :: gs => [k] :: gs
    | (r :: g) :: gs =>
      if bucketOpen intervalInMilliSeconds baseTimestamp k.OpenTime
          = bucketOpen intervalInMilliSeconds baseTimestamp r.OpenTime
      then (k :: r :: g) :: gs
      else [k] :: (r :: g) :: gs

/-- The accumulator after the records of `g` were added to `acc`, in order. -/
def mergeRun (acc : Kline) (g : List Kline) : Kline := g.foldl mergeKline acc

/-- The accumulator just opened for the bucket of a record opened at `t`. -/
def freshBucket (intervalInMilliSeconds baseTimestamp t : Int) : Kline :=
  { Kline.empty with
    OpenTime := bucketOpen intervalInMilliSeconds baseTimestamp t
    CloseTime := bucketClose intervalInMilliSeconds
      (bucketOpen intervalInMilliSeconds baseTimestamp t) }

/-- The aggregate of a run whose bucket was opened by its first record. -/
def emitRun (intervalInMilliSeconds baseTimestamp : Int) (g : List Kline) : Kline :=
  match g with
  | [] => Kline.empty
  | r :: _ => mergeRun (freshBucket intervalInMilliSeconds baseTimestamp r.OpenTime) g

/-- The sum of `float64` values in arrival order, starting from zero. -/
def sumF64 (xs : List F64) : F64 := xs.foldl F64.add F64.zero

/-! ## Auxiliary definitions used in the statements and proofs -/

/-- What is written from the state `st` on, given the runs of the records
still to come: the accumulator completed by the first run when that run
continues its bucket, else the accumulator and then the first run; then one
aggregate per further run. -/
def writtenFrom (p b : Int) (st : LoopState) : List (List Kline) → List Kline
  | [] => saveKline st.lastKline []
  | [] :: gs => saveKline st.lastKline [] ++ gs.map (emitRun p b)
  | (r :: g) :: gs =>
    (if bucketOpen p b r.OpenTime = st.lastKlineOpenTime
      then [mergeRun st.lastKline (r :: g)]
      else saveKline st.lastKline [] ++ [emitRun p b (r :: g)]) ++ gs.map (emitRun p b)

/-- The record `parseKline` builds from twelve pieces. -/
def klineOfPieces (ParseFloat : String → F64) (p0 p1 p2 p3 p4 p5 p6 p7 p8 p9 p10 p11 : String) :
    Kline :=
  { OpenTime := parseInt64 p0
    Open := parseFloat64 ParseFloat p1
    High := parseFloat64 ParseFloat p2
    Low := parseFloat64 ParseFloat p3
    Close := parseFloat64 ParseFloat p4
    Volume := parseFloat64 ParseFloat p5
    CloseTime := parseInt64 p6
    QuoteAssetVolume := parseFloat64 ParseFloat p7
    NumOfTrades := parseInt64 p8
    TakerBuyBaseAssetVolume := parseFloat64 ParseFloat p9
    TakerBuyQuoteAssetVolume := parseFloat64 ParseFloat p10
    Ignore := parseFloat64 ParseFloat p11
    numOfRecords := 0 }

/-- The product `(x / p) * p` of line 138, with Go's truncating division. -/
def truncTo (p x : Int) : Int := Int.tdiv x p * p

/-- The bucket open time of the first record of a run. -/
def runKey (p b : Int) (g : List Kline) : Int := bucketOpen p b (g.headD Kline.empty).OpenTime

/-- A one-minute bar opened at `0` with O/H/L/C = 1/2/0.5/1.5, volume 10 and
3 trades: the record of the line `0,1,2,0.5,1.5,10,59999,0,3,0,0,0`. -/
def barAtZero : Kline :=
  { OpenTime := 0, Open := ⟨0x3FF0000000000000⟩, High := ⟨0x4000000000000000⟩,
    Low := ⟨0x3FE0000000000000⟩, Close := ⟨0x3FF8000000000000⟩,
    Volume := ⟨0x4024000000000000⟩, CloseTime := 59999, QuoteAssetVolume := F64.zero,
    NumOfTrades := 3, TakerBuyBaseAssetVolume := F64.zero,
    TakerBuyQuoteAssetVolume := F64.zero, Ignore := F64.zero, numOfRecords := 0 }

/-- Three one-minute bars from `2017-01-01 00:00 UTC` on, with
O/H/L/C = 1/2/0.5/1.5, 1.5/3/1/2 and 2/2.5/1.75/2.25, volume 10 and 3, 4 and
5 trades. -/
def sampleBars : List Kline :=
  [ { barAtZero with OpenTime := 1483228800000, CloseTime := 1483228859999 },
    { barAtZero with
      OpenTime := 1483228860000, Open := ⟨0x3FF8000000000000⟩, High := ⟨0x4008000000000000⟩,
      Low := ⟨0x3FF0000000000000⟩, Close := ⟨0x4000000000000000⟩,
      CloseTime := 1483228919999, NumOfTrades := 4 },
    { barAtZero with
      OpenTime := 1483228920000, Open := ⟨0x4000000000000000⟩, High := ⟨0x4004000000000000⟩,
      Low := ⟨0x3FFC000000000000⟩, Close := ⟨0x4002000000000000⟩,
      CloseTime := 1483228979999, NumOfTrades := 5 } ]

/-- The first record written for `sampleBars` with `interval = 2` and
`startMin = 0`: the first two bars merged. -/
def sampleFirstBucket : Kline :=
  { OpenTime := 1483228800000, Open := ⟨0x3FF0000000000000⟩, High := ⟨0x4008000000000000⟩,
    Low := ⟨0x3FE0000000000000⟩, Close := ⟨0x4000000000000000⟩,
    Volume := ⟨0x4034000000000000⟩, CloseTime := 1483228919999, QuoteAssetVolume := F64.zero,
    NumOfTrades := 7, TakerBuyBaseAssetVolume := F64.zero,
    TakerBuyQuoteAssetVolume := F64.zero, Ignore := F64.zero, numOfRecords := 2 }

/-- The second record written for `sampleBars` with `interval = 2` and
`startMin = 0`: the third bar alone. -/
def sampleSecondBucket : Kline :=
  { OpenTime := 1483228920000, Open := ⟨0x4000000000000000⟩, High := ⟨0x4004000000000000⟩,
    Low := ⟨0x3FFC000000000000⟩, Close := ⟨0x4002000000000000⟩,
    Volume := ⟨0x4024000000000000⟩, CloseTime := 1483229039999, QuoteAssetVolume := F64.zero,
    NumOfTrades := 5, TakerBuyBaseAssetVolume := F64.zero,
    TakerBuyQuoteAssetVolume := F64.zero, Ignore := F64.zero, numOfRecords := 1 }

/-- Two bars in non-decreasing order of open time: one opened at `-2^63`,
the least `int64`, and one opened at `2017-01-01 00:00 UTC`. -/
def overflowBars : List Kline :=
  [ { barAtZero with OpenTime := -(2 ^ 63), CloseTime := -(2 ^ 63) + 59999 },
    { barAtZero with OpenTime := 1483228800000, CloseTime := 1483228859999 } ]

/-- Two consecutive one-minute bars from `2017-01-01 00:00 UTC` on. -/
def twoBars : List Kline :=
  [ { barAtZero with OpenTime := 1483228800000, CloseTime := 1483228859999 },
    { barAtZero with OpenTime := 1483228860000, CloseTime := 1483228919999 } ]

/-! ## Formatting (`fmt.Fprintf`) and the text of the result file -/

/-- The decimal digit `d` as a character. -/
def digitChar (d : Nat) : Char :=
  match d with
  | 0 => '0'
  | 1 => '1'
  | 2 => '2'
  | 3 => '3'
  | 4 => '4'
  | 5 => '5'
  | 6 => '6'
  | 7 => '7'
  | 8 => '8'
  | _ => '9'

/-- The decimal digits of `n`, most significant first; `fuel` bounds their
number. -/
def decDigits : Nat → Nat → List Char
  | 0, _ => []
  | fuel + 1, n =>
    if n < 10 then [digitChar n] else decDigits fuel (n / 10) ++ [digitChar (n % 10)]

/-- The decimal numeral of a natural number. -/
def formatNat (n : Nat) : List Char := decDigits (n + 1) n

/-- The verb `%d` on an `int64`: a minus sign for a negative value, then the
decimal numeral of the magnitude. -/
def formatInt (n : Int) : List Char :=
  if n < 0 then '-' :: formatNat n.natAbs else formatNat n.natAbs

/-- The eight decimal digits of `v < 10^8`, with leading zeros. -/
def pad8 (v : Nat) : List Char :=
  [digitChar (v / 10000000 % 10), digitChar (v / 1000000 % 10), digitChar (v / 100000 % 10),
    digitChar (v / 10000 % 10), digitChar (v / 1000 % 10), digitChar (v / 100 % 10),
    digitChar (v / 10 % 10), digitChar (v % 10)]

/-- The verb `%.8f` on a `float64`: `NaN`, `+Inf`, `-Inf`, or the sign, the
integer part, a point and eight decimals of the exact value rounded to the
nearest multiple of `10^-8` (ties to even). -/
def formatFloat8 (x : F64) : List Char :=
  if x.isNaN then ['N', 'a', 'N']
  else if x.isInf then (if x.sign then ['-', 'I', 'n', 'f'] else ['+', 'I', 'n', 'f'])
  else
    let num := x.toScaled.natAbs * 100000000
    let q := num >>> 1074
    let r := num - (q <<< 1074)
    let half := 1 <<< 1073
    let rounded := if r > half ∨ (r = half ∧ q % 2 = 1) then q + 1 else q
    (if x.sign then ['-'] else [])
      ++ formatNat (rounded / 100000000) ++ '.' :: pad8 (rounded % 100000000)

/-- The function `convertIgnore`. -/
def convertIgnore (ignore : F64) : List Char :=
  if F64.eq ignore F64.zero then ['0'] else formatFloat8 ignore

/-- The twelve arguments of the `Fprintf` call of `saveKline`, each rendered
by its verb, in the order of the call. -/
def formatFields (kline : Kline) : List (List Char) :=
  [formatInt kline.OpenTime, formatFloat8 kline.Open, formatFloat8 kline.High,
    formatFloat8 kline.Low, formatFloat8 kline.Close, formatFloat8 kline.Volume,
    formatInt kline.CloseTime, formatFloat8 kline.QuoteAssetVolume,
    formatInt kline.NumOfTrades, formatFloat8 kline.TakerBuyBaseAssetVolume,
    formatFloat8 kline.TakerBuyQuoteAssetVolume, convertIgnore kline.Ignore]

/-- Pieces joined by commas, as the format string of line 191 joins its verbs. -/
def joinComma : List (List Char) → List Char
  | [] => []
  | [f] => f
  | f :: g :: fs => f ++ ',' :: joinComma (g :: fs)

/-- The text of one record without its final newline. -/
def klineText (kline : Kline) : String := ⟨joinComma (formatFields kline)⟩

/-- The text that the `Fprintf` call of `saveKline` (lines 191-204) writes:
the twelve fields joined by commas, then a newline. -/
def klineLine (kline : Kline) : String := ⟨joinComma (formatFields kline) ++ [Char.ofNat 10]⟩

/-- The function `saveKline`, on the text of the result file. -/
def saveKlineText (kline : Kline) (fd : String) : String :=
  if kline.numOfRecords = 0 then fd else fd ++ klineLine kline

/-- The text of the result file after the records `written` were written. -/
def fileText (written : List Kline) : String :=
  written.foldl (fun fd kline => fd ++ klineLine kline) ""

/-- A bar is well formed when `low <= open <= high` and `low <= close <= high`
hold for Go's `<=` on `float64`. -/
def ohlcOrdered (k : Kline) : Prop :=
  F64.le k.Low k.Open = true ∧ F64.le k.Open k.High = true ∧
  F64.le k.Low k.Close = true ∧ F64.le k.Close k.High = true

instance (k : Kline) : Decidable (ohlcOrdered k) := by unfold ohlcOrdered; infer_instance

/-- A bar of the scenario of section 8 of the specification: the open time
`t`, the prices `o`, `h`, `l`, `c` and the volume 10; the fields the scenario
does not fix are those of `other`. -/
def scenarioBar (t : Int) (o h l c : F64) (other : Kline) : Kline :=
  { other with
    OpenTime := t, Open := o, High := h, Low := l, Close := c, Volume := ⟨0x4024000000000000⟩ }

/-- The three bars of the scenario, one minute apart from the time `start`
on, with O/H/L/C = 1/2/0.5/1.5, 1.5/3/1/2 and 2/2.5/1.8/2.2 (the `float64`
values nearest to these decimals). -/
def scenarioBars (start : Int) (x1 x2 x3 : Kline) : List Kline :=
  [ scenarioBar start ⟨0x3FF0000000000000⟩ ⟨0x4000000000000000⟩ ⟨0x3FE0000000000000⟩
      ⟨0x3FF8000000000000⟩ x1,
    scenarioBar (start + 60000) ⟨0x3FF8000000000000⟩ ⟨0x4008000000000000⟩
      ⟨0x3FF0000000000000⟩ ⟨0x4000000000000000⟩ x2,
    scenarioBar (start + 120000) ⟨0x4000000000000000⟩ ⟨0x4004000000000000⟩
      ⟨0x3FFCCCCCCCCCCCCD⟩ ⟨0x400199999999999A⟩ x3 ]

/-- A character that is neither a comma nor white space: the characters of
a rendered field. -/
def fieldChar (c : Char) : Bool := c != ',' && !isSpace c

/-- A decimal digit character. -/
def isDecDigit (c : Char) : Bool := decide (48 ≤ c.toNat) && decide (c.toNat ≤ 57)

/-- A line of 70000 spaces: longer than the buffer of the scanner may grow. -/
def overlongLine : String := ⟨List.replicate 70000 ' '⟩

/-- Three bars in non-decreasing order of open time: one opened at `-2^63`,
one at `2017-01-01 00:00 UTC` and one at `9223372036854000000`, which closes
at 2 where the other two close at 1.5. -/
def wrappedBars : List Kline :=
  [ { barAtZero with OpenTime := -(2 ^ 63), CloseTime := -(2 ^ 63) + 59999 },
    { barAtZero with OpenTime := 1483228800000, CloseTime := 1483228859999 },
    { barAtZero with
      OpenTime := 9223372036854000000, Close := ⟨0x4000000000000000⟩,
      CloseTime := 9223372036854059999 } ]

/-- The records of a stream that fall in the bucket opened at `openTime`, in
order: the input records assigned to that bucket. -/
def recordsOfBucket (interval startMin : Int) (records : List Kline) (openTime : Int) :
    List Kline :=
  records.filter fun r =>
    decide (bucketOpen (intervalMs interval) (baseTs startMin) r.OpenTime = openTime)

/-! ## Lemmas: machine integers -/

theorem wrap64_isInt64 (x : Int) : IsInt64 (wrap64 x) := by
  unfold IsInt64 wrap64; omega

theorem wrap64_of_isInt64 {x : Int} (h : IsInt64 x) : wrap64 x = x := by
  unfold IsInt64 at h; unfold wrap64; omega

theorem wrap64_add_wrap64 (a b : Int) : wrap64 (wrap64 a + b) = wrap64 (a + b) := by
  unfold wrap64; omega

/-! ## Lemmas: the loop and the runs -/

theorem saveKline_eq (k : Kline) (fd : List Kline) : saveKline k fd = fd ++ saveKline k [] := by
  unfold saveKline; split <;> simp

theorem mergeKline_numOfRecords (a k : Kline) :
    (mergeKline a k).numOfRecords = a.numOfRecords + 1 := by
  unfold mergeKline; split <;> rfl

theorem mergeKline_OpenTime (a k : Kline) : (mergeKline a k).OpenTime = a.OpenTime := by
  unfold mergeKline; split <;> rfl

theorem mergeKline_CloseTime (a k : Kline) : (mergeKline a k).CloseTime = a.CloseTime := by
  unfold mergeKline; split <;> rfl

theorem mergeRun_numOfRecords (g : List Kline) (a : Kline) :
    (mergeRun a g).numOfRecords = a.numOfRecords + g.length := by
  induction g generalizing a with
  | nil => simp [mergeRun]
  | cons k ks ih =>
    have := ih (mergeKline a k)
    simp only [mergeRun, List.foldl_cons, List.length_cons] at this ⊢
    rw [this, mergeKline_numOfRecords]; omega

theorem mergeRun_OpenTime (g : List Kline) (a : Kline) : (mergeRun a g).OpenTime = a.OpenTime := by
  induction g generalizing a with
  | nil => simp [mergeRun]
  | cons k ks ih =>
    have := ih (mergeKline a k)
    simp only [mergeRun, List.foldl_cons] at this ⊢
    rw [this, mergeKline_OpenTime]

theorem mergeRun_CloseTime (g : List Kline) (a : Kline) :
    (mergeRun a g).CloseTime = a.CloseTime := by
  induction g generalizing a with
  | nil => simp [mergeRun]
  | cons k ks ih =>
    have := ih (mergeKline a k)
    simp only [mergeRun, List.foldl_cons] at this ⊢
    rw [this, mergeKline_CloseTime]

theorem saveKline_mergeRun_cons (a k : Kline) (g : List Kline) :
    saveKline (mergeRun a (k :: g)) [] = [mergeRun a (k :: g)] := by
  have h := mergeRun_numOfRecords (k :: g) a
  unfold saveKline
  rw [if_neg]
  · rfl
  · rw [h]; simp

theorem bucketRuns_cons_nil (p b : Int) (k : Kline) {ks : List Kline}
    (h : bucketRuns p b ks = []) : bucketRuns p b (k :: ks) = [[k]] := by
  simp only [bucketRuns, h]

theorem bucketRuns_cons_same (p b : Int) (k : Kline) {ks : List Kline} {r : Kline}
    {g : List Kline} {gs : List (List Kline)} (h : bucketRuns p b ks = (r :: g) :: gs)
    (hkr : bucketOpen p b k.OpenTime = bucketOpen p b r.OpenTime) :
    bucketRuns p b (k :: ks) = (k :: r :: g) :: gs := by
  simp only [bucketRuns, h, if_pos hkr]

theorem bucketRuns_cons_diff (p b : Int) (k : Kline) {ks : List Kline} {r : Kline}
    {g : List Kline} {gs : List (List Kline)} (h : bucketRuns p b ks = (r :: g) :: gs)
    (hkr : ¬ bucketOpen p b k.OpenTime = bucketOpen p b r.OpenTime) :
    bucketRuns p b (k :: ks) = [k] :: (r :: g) :: gs := by
  simp only [bucketRuns, h, if_neg hkr]

theorem bucketRuns_ne_nil (p b : Int) (l : List Kline) : ∀ g ∈ bucketRuns p b l, g ≠ [] := by
  induction l with
  | nil => simp [bucketRuns]
  | cons k ks ih =>
    cases hr : bucketRuns p b ks with
    | nil => rw [bucketRuns_cons_nil p b k hr]; simp
    | cons g gs =>
      cases g with
      | nil => exact absurd rfl (ih [] (by rw [hr]; simp))
      | cons r g =>
        rw [hr] at ih
        by_cases hkr : bucketOpen p b k.OpenTime = bucketOpen p b r.OpenTime
        · rw [bucketRuns_cons_same p b k hr hkr]
          intro x hx
          rcases List.mem_cons.1 hx with h | h
          · rw [h]; simp
          · exact ih x (List.mem_cons_of_mem _ h)
        · rw [bucketRuns_cons_diff p b k hr hkr]
          intro x hx
          rcases List.mem_cons.1 hx with h | h
          · rw [h]; simp
          · exact ih x h

theorem processKline_lastKlineOpenTime (p b : Int) (st : LoopState) (k : Kline) :
    (processKline p b st k).lastKlineOpenTime = bucketOpen p b k.OpenTime := by
  unfold processKline openBucket
  by_cases hk : bucketOpen p b k.OpenTime = st.lastKlineOpenTime
  · simp [hk]
  · simp [hk]

theorem processKline_same (p b : Int) (st : LoopState) (k : Kline)
    (hk : bucketOpen p b k.OpenTime = st.lastKlineOpenTime) :
    (processKline p b st k).lastKline = mergeKline st.lastKline k ∧
    (processKline p b st k).resultFd = st.resultFd := by
  unfold processKline openBucket
  simp [hk]

theorem processKline_diff (p b : Int) (st : LoopState) (k : Kline)
    (hk : ¬ bucketOpen p b k.OpenTime = st.lastKlineOpenTime) :
    (processKline p b st k).lastKline = mergeKline (freshBucket p b k.OpenTime) k ∧
    (processKline p b st k).resultFd = st.resultFd ++ saveKline st.lastKline [] := by
  unfold processKline openBucket
  simp only [ne_eq, hk, not_false_eq_true, if_true]
  exact ⟨rfl, saveKline_eq _ _⟩

theorem saveKline_mergeKline (a k : Kline) : saveKline (mergeKline a k) [] = [mergeKline a k] :=
  saveKline_mergeRun_cons a k []

/-- What the loop writes, from any state, when the interval is not zero. -/
theorem aggregateLoop_written (p b : Int) (hp : p ≠ 0) (l : List Kline) (st : LoopState) :
    (aggregateLoop p b l st).written = st.resultFd ++ writtenFrom p b st (bucketRuns p b l) := by
  induction l generalizing st with
  | nil => simp only [aggregateLoop, bucketRuns, writtenFrom]; exact saveKline_eq _ _
  | cons k ks ih =>
    have hstep : (aggregateLoop p b (k :: ks) st).written
        = (aggregateLoop p b ks (processKline p b st k)).written := by
      simp only [aggregateLoop, if_neg hp]
    rw [hstep, ih]
    have hlast := processKline_lastKlineOpenTime p b st k
    have hacc : (processKline p b st k).resultFd
          ++ saveKline (processKline p b st k).lastKline []
        = st.resultFd ++ (if bucketOpen p b k.OpenTime = st.lastKlineOpenTime
            then [mergeRun st.lastKline [k]]
            else saveKline st.lastKline [] ++ [emitRun p b [k]]) := by
      by_cases hk : bucketOpen p b k.OpenTime = st.lastKlineOpenTime
      · obtain ⟨h1, h2⟩ := processKline_same p b st k hk
        rw [h1, h2, if_pos hk, saveKline_mergeKline]; rfl
      · obtain ⟨h1, h2⟩ := processKline_diff p b st k hk
        rw [h1, h2, if_neg hk, saveKline_mergeKline, List.append_assoc]; rfl
    have hcont : ∀ (r : Kline) (g : List Kline),
        bucketOpen p b k.OpenTime = bucketOpen p b r.OpenTime →
        (processKline p b st k).resultFd
          ++ [mergeRun (processKline p b st k).lastKline (r :: g)]
        = st.resultFd ++ (if bucketOpen p b k.OpenTime = st.lastKlineOpenTime
            then [mergeRun st.lastKline (k :: r :: g)]
            else saveKline st.lastKline [] ++ [emitRun p b (k :: r :: g)]) := by
      intro r g _
      by_cases hk : bucketOpen p b k.OpenTime = st.lastKlineOpenTime
      · obtain ⟨h1, h2⟩ := processKline_same p b st k hk
        rw [h1, h2, if_pos hk]; rfl
      · obtain ⟨h1, h2⟩ := processKline_diff p b st k hk
        rw [h1, h2, if_neg hk, List.append_assoc]; rfl
    cases hr : bucketRuns p b ks with
    | nil =>
      rw [bucketRuns_cons_nil p b k hr]
      simp only [writtenFrom, List.map_nil, List.append_nil]
      exact hacc
    | cons g gs =>
      cases g with
      | nil => exact absurd rfl (bucketRuns_ne_nil p b ks [] (by rw [hr]; simp))
      | cons r g =>
        by_cases hkr : bucketOpen p b k.OpenTime = bucketOpen p b r.OpenTime
        · rw [bucketRuns_cons_same p b k hr hkr]
          simp only [writtenFrom]
          rw [hlast, if_pos hkr.symm, ← List.append_assoc, hcont r g hkr, List.append_assoc]
        · rw [bucketRuns_cons_diff p b k hr hkr]
          simp only [writtenFrom]
          rw [hlast, if_neg (fun h => hkr h.symm), ← List.append_assoc, ← List.append_assoc,
            hacc]
          simp only [List.map_cons, List.append_assoc, List.singleton_append]

/-- What a pass writes when the interval is not zero: one aggregate per run;
the accumulator of the first run is the initial one when the bucket of the
first record opens at `0`, the value `lastKlineOpenTime` starts with. -/
theorem aggregate_written (interval startMin : Int) (hp : intervalMs interval ≠ 0)
    (l : List Kline) :
    (aggregate interval startMin l).written =
      match bucketRuns (intervalMs interval) (baseTs startMin) l with
      | [] => []
      | g :: gs =>
        (if bucketOpen (intervalMs interval) (baseTs startMin) (g.headD Kline.empty).OpenTime = 0
          then mergeRun Kline.empty g
          else emitRun (intervalMs interval) (baseTs startMin) g)
        :: gs.map (emitRun (intervalMs interval) (baseTs startMin)) := by
  unfold aggregate
  rw [aggregateLoop_written _ _ hp]
  have hne := bucketRuns_ne_nil (intervalMs interval) (baseTs startMin) l
  cases hr : bucketRuns (intervalMs interval) (baseTs startMin) l with
  | nil => simp [writtenFrom, LoopState.init, saveKline, Kline.empty]
  | cons g gs =>
    cases g with
    | nil => exact absurd rfl (hne [] (by rw [hr]; simp))
    | cons r g =>
      simp only [writtenFrom, LoopState.init, List.nil_append, List.headD_cons]
      by_cases h0 : bucketOpen (intervalMs interval) (baseTs startMin) r.OpenTime = 0
      · simp [h0]
      · simp [h0, saveKline, Kline.empty]

/-- A pass with interval zero stops at the first valid record, before
anything is written. -/
theorem aggregate_written_zero (interval startMin : Int) (hp : intervalMs interval = 0)
    (l : List Kline) : (aggregate interval startMin l).written = [] := by
  unfold aggregate
  cases l with
  | nil => simp [aggregateLoop, LoopState.init, saveKline, Kline.empty]
  | cons k ks => simp [aggregateLoop, hp, LoopState.init]

/-! ## Lemmas: comparison of `float64` values -/

theorem F64.lt_irrefl (x : F64) : F64.lt x x = false := by
  simp [F64.lt]

theorem F64.lt_trans {x y z : F64} (h1 : F64.lt x y = true) (h2 : F64.lt y z = true) :
    F64.lt x z = true := by
  simp only [F64.lt, Bool.and_eq_true, Bool.not_eq_true', decide_eq_true_eq] at h1 h2 ⊢
  exact ⟨⟨h1.1.1, h2.1.2⟩, Int.lt_trans h1.2 h2.2⟩

theorem F64.le_of_not_lt {x y : F64} (hx : x.isNaN = false) (hy : y.isNaN = false)
    (h : F64.lt y x = false) : F64.le x y = true := by
  simp only [F64.lt, F64.le, hx, hy, Bool.not_false, Bool.true_and, decide_eq_false_iff_not,
    decide_eq_true_eq] at h ⊢
  omega

/-! ## Lemmas: the fields of a merged run -/

theorem mergeKline_Close (a k : Kline) : (mergeKline a k).Close = k.Close := by
  unfold mergeKline; split <;> rfl

theorem mergeKline_Ignore (a k : Kline) : (mergeKline a k).Ignore = k.Ignore := by
  unfold mergeKline; split <;> rfl

theorem mergeKline_Open (a k : Kline) :
    (mergeKline a k).Open = if a.numOfRecords = 0 then k.Open else a.Open := by
  unfold mergeKline; split <;> rfl

theorem mergeKline_High (a k : Kline) :
    (mergeKline a k).High = if a.numOfRecords = 0 then k.High
      else if F64.gt k.High a.High then k.High else a.High := by
  unfold mergeKline; split <;> rfl

theorem mergeKline_Low (a k : Kline) :
    (mergeKline a k).Low = if a.numOfRecords = 0 then k.Low
      else if F64.lt k.Low a.Low then k.Low else a.Low := by
  unfold mergeKline; split <;> rfl

theorem mergeKline_Volume (a k : Kline) :
    (mergeKline a k).Volume = F64.add a.Volume k.Volume := by
  unfold mergeKline; split <;> rfl

theorem mergeKline_QuoteAssetVolume (a k : Kline) :
    (mergeKline a k).QuoteAssetVolume = F64.add a.QuoteAssetVolume k.QuoteAssetVolume := by
  unfold mergeKline; split <;> rfl

theorem mergeKline_NumOfTrades (a k : Kline) :
    (mergeKline a k).NumOfTrades = wrap64 (a.NumOfTrades + k.NumOfTrades) := by
  unfold mergeKline; split <;> rfl

theorem mergeKline_TakerBuyBaseAssetVolume (a k : Kline) :
    (mergeKline a k).TakerBuyBaseAssetVolume
      = F64.add a.TakerBuyBaseAssetVolume k.TakerBuyBaseAssetVolume := by
  unfold mergeKline; split <;> rfl

theorem mergeKline_TakerBuyQuoteAssetVolume (a k : Kline) :
    (mergeKline a k).TakerBuyQuoteAssetVolume
      = F64.add a.TakerBuyQuoteAssetVolume k.TakerBuyQuoteAssetVolume := by
  unfold mergeKline; split <;> rfl

theorem mergeRun_cons (a k : Kline) (g : List Kline) :
    mergeRun a (k :: g) = mergeRun (mergeKline a k) g := rfl

theorem mergeRun_Close (g : List Kline) (a : Kline) (hg : g ≠ []) :
    (mergeRun a g).Close = (g.getLast hg).Close ∧ (mergeRun a g).Ignore = (g.getLast hg).Ignore := by
  induction g generalizing a with
  | nil => exact absurd rfl hg
  | cons k ks ih =>
    cases ks with
    | nil => exact ⟨mergeKline_Close a k, mergeKline_Ignore a k⟩
    | cons k2 ks2 =>
      rw [mergeRun_cons, List.getLast_cons (List.cons_ne_nil k2 ks2)]
      exact ih (mergeKline a k) (List.cons_ne_nil k2 ks2)

theorem mergeRun_Open_of_pos (g : List Kline) (a : Kline) (ha : a.numOfRecords ≠ 0) :
    (mergeRun a g).Open = a.Open := by
  induction g generalizing a with
  | nil => rfl
  | cons k ks ih =>
    rw [mergeRun_cons, ih (mergeKline a k) (by rw [mergeKline_numOfRecords]; omega),
      mergeKline_Open, if_neg ha]

theorem mergeRun_Open (a first : Kline) (rest : List Kline) (ha : a.numOfRecords = 0) :
    (mergeRun a (first :: rest)).Open = first.Open := by
  rw [mergeRun_cons, mergeRun_Open_of_pos rest _ (by rw [mergeKline_numOfRecords]; omega),
    mergeKline_Open, if_pos ha]

theorem mergeRun_High_of_pos (g : List Kline) (a : Kline) (seen : List F64)
    (ha : a.numOfRecords ≠ 0) (hmem : a.High ∈ seen)
    (hmax : ∀ x ∈ seen, F64.gt x a.High = false) :
    (mergeRun a g).High ∈ seen ++ g.map Kline.High ∧
      ∀ x ∈ seen ++ g.map Kline.High, F64.gt x (mergeRun a g).High = false := by
  induction g generalizing a seen with
  | nil => simpa [mergeRun] using ⟨hmem, hmax⟩
  | cons k ks ih =>
    have hn : (mergeKline a k).numOfRecords ≠ 0 := by rw [mergeKline_numOfRecords]; omega
    have hH : (mergeKline a k).High = if F64.gt k.High a.High then k.High else a.High := by
      rw [mergeKline_High, if_neg ha]
    have key := ih (mergeKline a k) (seen ++ [k.High]) hn
      (by
        rw [hH]; split
        · simp
        · exact List.mem_append_left _ hmem)
      (by
        intro x hx
        rw [hH]
        rcases List.mem_append.1 hx with hx | hx
        · by_cases hgt : F64.gt k.High a.High = true
          · rw [if_pos hgt]
            cases hxk : F64.gt x k.High with
            | false => rfl
            | true =>
              have : F64.gt x a.High = true := F64.lt_trans (x := a.High) hgt hxk
              rw [hmax x hx] at this; exact absurd this (by simp)
          · rw [if_neg hgt]; exact hmax x hx
        · have hxk : x = k.High := by simpa using hx
          subst hxk
          by_cases hgt : F64.gt k.High a.High = true
          · rw [if_pos hgt]; exact F64.lt_irrefl _
          · rw [if_neg hgt]; simpa using hgt)
    rw [mergeRun_cons]
    simpa [List.map_cons, List.append_assoc] using key

theorem mergeRun_Low_of_pos (g : List Kline) (a : Kline) (seen : List F64)
    (ha : a.numOfRecords ≠ 0) (hmem : a.Low ∈ seen)
    (hmin : ∀ x ∈ seen, F64.lt x a.Low = false) :
    (mergeRun a g).Low ∈ seen ++ g.map Kline.Low ∧
      ∀ x ∈ seen ++ g.map Kline.Low, F64.lt x (mergeRun a g).Low = false := by
  induction g generalizing a seen with
  | nil => simpa [mergeRun] using ⟨hmem, hmin⟩
  | cons k ks ih =>
    have hn : (mergeKline a k).numOfRecords ≠ 0 := by rw [mergeKline_numOfRecords]; omega
    have hL : (mergeKline a k).Low = if F64.lt k.Low a.Low then k.Low else a.Low := by
      rw [mergeKline_Low, if_neg ha]
    have key := ih (mergeKline a k) (seen ++ [k.Low]) hn
      (by
        rw [hL]; split
        · simp
        · exact List.mem_append_left _ hmem)
      (by
        intro x hx
        rw [hL]
        rcases List.mem_append.1 hx with hx | hx
        · by_cases hlt : F64.lt k.Low a.Low = true
          · rw [if_pos hlt]
            cases hxk : F64.lt x k.Low with
            | false => rfl
            | true =>
              have : F64.lt x a.Low = true := F64.lt_trans hxk hlt
              rw [hmin x hx] at this; exact absurd this (by simp)
          · rw [if_neg hlt]; exact hmin x hx
        · have hxk : x = k.Low := by simpa using hx
          subst hxk
          by_cases hlt : F64.lt k.Low a.Low = true
          · rw [if_pos hlt]; exact F64.lt_irrefl _
          · rw [if_neg hlt]; simpa using hlt)
    rw [mergeRun_cons]
    simpa [List.map_cons, List.append_assoc] using key

theorem mergeRun_High (a first : Kline) (rest : List Kline) (ha : a.numOfRecords = 0) :
    (mergeRun a (first :: rest)).High ∈ (first :: rest).map Kline.High ∧
      ∀ r ∈ first :: rest, F64.gt r.High (mergeRun a (first :: rest)).High = false := by
  have hH : (mergeKline a first).High = first.High := by rw [mergeKline_High, if_pos ha]
  have key := mergeRun_High_of_pos rest (mergeKline a first) [first.High]
    (by rw [mergeKline_numOfRecords]; omega) (by rw [hH]; simp)
    (by intro x hx; rw [hH]; have : x = first.High := by simpa using hx
        subst this; exact F64.lt_irrefl _)
  rw [mergeRun_cons]
  refine ⟨by simpa using key.1, ?_⟩
  intro r hr
  exact key.2 r.High (by
    rcases List.mem_cons.1 hr with h | h
    · subst h; simp
    · exact List.mem_append_right _ (List.mem_map_of_mem _ h))

theorem mergeRun_Low (a first : Kline) (rest : List Kline) (ha : a.numOfRecords = 0) :
    (mergeRun a (first :: rest)).Low ∈ (first :: rest).map Kline.Low ∧
      ∀ r ∈ first :: rest, F64.lt r.Low (mergeRun a (first :: rest)).Low = false := by
  have hL : (mergeKline a first).Low = first.Low := by rw [mergeKline_Low, if_pos ha]
  have key := mergeRun_Low_of_pos rest (mergeKline a first) [first.Low]
    (by rw [mergeKline_numOfRecords]; omega) (by rw [hL]; simp)
    (by intro x hx; rw [hL]; have : x = first.Low := by simpa using hx
        subst this; exact F64.lt_irrefl _)
  rw [mergeRun_cons]
  refine ⟨by simpa using key.1, ?_⟩
  intro r hr
  exact key.2 r.Low (by
    rcases List.mem_cons.1 hr with h | h
    · subst h; simp
    · exact List.mem_append_right _ (List.mem_map_of_mem _ h))

theorem mergeRun_Volume (g : List Kline) (a : Kline) :
    (mergeRun a g).Volume = (g.map Kline.Volume).foldl F64.add a.Volume := by
  induction g generalizing a with
  | nil => rfl
  | cons k ks ih => rw [mergeRun_cons, ih, mergeKline_Volume]; rfl

theorem mergeRun_QuoteAssetVolume (g : List Kline) (a : Kline) :
    (mergeRun a g).QuoteAssetVolume
      = (g.map Kline.QuoteAssetVolume).foldl F64.add a.QuoteAssetVolume := by
  induction g generalizing a with
  | nil => rfl
  | cons k ks ih => rw [mergeRun_cons, ih, mergeKline_QuoteAssetVolume]; rfl

theorem mergeRun_TakerBuyBaseAssetVolume (g : List Kline) (a : Kline) :
    (mergeRun a g).TakerBuyBaseAssetVolume
      = (g.map Kline.TakerBuyBaseAssetVolume).foldl F64.add a.TakerBuyBaseAssetVolume := by
  induction g generalizing a with
  | nil => rfl
  | cons k ks ih => rw [mergeRun_cons, ih, mergeKline_TakerBuyBaseAssetVolume]; rfl

theorem mergeRun_TakerBuyQuoteAssetVolume (g : List Kline) (a : Kline) :
    (mergeRun a g).TakerBuyQuoteAssetVolume
      = (g.map Kline.TakerBuyQuoteAssetVolume).foldl F64.add a.TakerBuyQuoteAssetVolume := by
  induction g generalizing a with
  | nil => rfl
  | cons k ks ih => rw [mergeRun_cons, ih, mergeKline_TakerBuyQuoteAssetVolume]; rfl

theorem mergeRun_NumOfTrades (g : List Kline) (a : Kline) :
    (mergeRun a g).NumOfTrades
      = (g.map Kline.NumOfTrades).foldl (fun x y => wrap64 (x + y)) a.NumOfTrades := by
  induction g generalizing a with
  | nil => rfl
  | cons k ks ih => rw [mergeRun_cons, ih, mergeKline_NumOfTrades]; rfl

/-- Adding `int64` values one by one with wrap-around gives the exact sum
reduced to `int64`. -/
theorem foldl_wrap64_add (xs : List Int) (a : Int) :
    wrap64 (xs.foldl (fun x y => wrap64 (x + y)) a) = wrap64 (a + xs.sum) := by
  induction xs generalizing a with
  | nil => simp
  | cons x xs ih =>
    rw [List.foldl_cons, ih, List.sum_cons, wrap64_add_wrap64, Int.add_assoc]

theorem foldl_wrap64_add_zero (xs : List Int) :
    xs.foldl (fun x y => wrap64 (x + y)) 0 = wrap64 xs.sum := by
  have h := foldl_wrap64_add xs 0
  rw [Int.zero_add] at h
  rw [← h]
  cases xs with
  | nil => rfl
  | cons x xs =>
    have : ∀ (ys : List Int) (a : Int), IsInt64 a →
        IsInt64 (ys.foldl (fun x y => wrap64 (x + y)) a) := by
      intro ys
      induction ys with
      | nil => intro a ha; exact ha
      | cons y ys ih => intro a _; exact ih _ (wrap64_isInt64 _)
    exact (wrap64_of_isInt64 (this (x :: xs) 0 (by unfold IsInt64; omega))).symm

/-! ## Lemmas: the runs -/

theorem bucketRuns_join (p b : Int) (l : List Kline) : (bucketRuns p b l).flatten = l := by
  induction l with
  | nil => rfl
  | cons k ks ih =>
    cases hr : bucketRuns p b ks with
    | nil => rw [hr] at ih; rw [bucketRuns_cons_nil p b k hr]; simp at ih ⊢; exact ih
    | cons g gs =>
      cases g with
      | nil => exact absurd rfl (bucketRuns_ne_nil p b ks [] (by rw [hr]; simp))
      | cons r g =>
        rw [hr] at ih
        by_cases hkr : bucketOpen p b k.OpenTime = bucketOpen p b r.OpenTime
        · rw [bucketRuns_cons_same p b k hr hkr]
          simp only [List.flatten_cons, List.cons_append] at ih ⊢
          rw [ih]
        · rw [bucketRuns_cons_diff p b k hr hkr]
          simp only [List.flatten_cons, List.cons_append, List.nil_append] at ih ⊢
          rw [ih]

/-- The records of a run all have the bucket of its first record. -/
theorem bucketRuns_same (p b : Int) (l : List Kline) :
    ∀ first rest, first :: rest ∈ bucketRuns p b l →
      ∀ r ∈ first :: rest, bucketOpen p b r.OpenTime = bucketOpen p b first.OpenTime := by
  induction l with
  | nil => simp [bucketRuns]
  | cons k ks ih =>
    cases hr : bucketRuns p b ks with
    | nil =>
      rw [bucketRuns_cons_nil p b k hr]
      intro first rest hmem r hrmem
      have h1 : first :: rest = [k] := by simpa using hmem
      rw [h1] at hrmem
      have h2 : r = k := by simpa using hrmem
      have h3 : first = k := by injection h1
      rw [h2, h3]
    | cons g gs =>
      cases g with
      | nil => exact absurd rfl (bucketRuns_ne_nil p b ks [] (by rw [hr]; simp))
      | cons r0 g =>
        rw [hr] at ih
        by_cases hkr : bucketOpen p b k.OpenTime = bucketOpen p b r0.OpenTime
        · rw [bucketRuns_cons_same p b k hr hkr]
          intro first rest hmem r hrmem
          rcases List.mem_cons.1 hmem with h | h
          · have hf : first = k := by injection h
            have hrest : rest = r0 :: g := by injection h
            rw [hf]
            rw [hrest] at hrmem
            rcases List.mem_cons.1 hrmem with h2 | h2
            · rw [h2, hf]
            · rw [hkr]
              exact ih r0 g (List.mem_cons_self _ _) r h2
          · exact ih first rest (List.mem_cons_of_mem _ h) r hrmem
        · rw [bucketRuns_cons_diff p b k hr hkr]
          intro first rest hmem r hrmem
          rcases List.mem_cons.1 hmem with h | h
          · have h1 : first :: rest = [k] := h
            rw [h1] at hrmem
            have h2 : r = k := by simpa using hrmem
            have h3 : first = k := by injection h1
            rw [h2, h3]
          · exact ih first rest h r hrmem

/-- Every record written by a pass is the merge of one run, in order: the
`i`-th record written comes from the `i`-th run, added to the accumulator
opened for the bucket of its first record; the one exception is a first run
whose bucket opens at `0`, which is added to the initial accumulator. -/
theorem written_run (interval startMin : Int) (l : List Kline) (i : Nat) (e : Kline)
    (h : (aggregate interval startMin l).written[i]? = some e) :
    ∃ first rest acc,
      (bucketRuns (intervalMs interval) (baseTs startMin) l)[i]? = some (first :: rest) ∧
      e = mergeRun acc (first :: rest) ∧
      (acc = freshBucket (intervalMs interval) (baseTs startMin) first.OpenTime ∨
        (i = 0 ∧ bucketOpen (intervalMs interval) (baseTs startMin) first.OpenTime = 0 ∧
          acc = Kline.empty)) := by
  by_cases hp : intervalMs interval = 0
  · rw [aggregate_written_zero interval startMin hp] at h
    simp at h
  · rw [aggregate_written interval startMin hp] at h
    have hne := bucketRuns_ne_nil (intervalMs interval) (baseTs startMin) l
    cases hr : bucketRuns (intervalMs interval) (baseTs startMin) l with
    | nil => rw [hr] at h; simp at h
    | cons g gs =>
      rw [hr] at h hne
      cases i with
      | zero =>
        cases g with
        | nil => exact absurd rfl (hne [] (by simp))
        | cons first rest =>
          simp only [List.headD_cons, List.getElem?_cons_zero, Option.some.injEq] at h
          by_cases h0 : bucketOpen (intervalMs interval) (baseTs startMin) first.OpenTime = 0
          · rw [if_pos h0] at h
            exact ⟨first, rest, Kline.empty, by simp, h.symm, Or.inr ⟨rfl, h0, rfl⟩⟩
          · rw [if_neg h0] at h
            exact ⟨first, rest, _, by simp, h.symm, Or.inl rfl⟩
      | succ j =>
        simp only [List.getElem?_cons_succ, List.getElem?_map, Option.map_eq_some'] at h
        obtain ⟨g2, hg2, he⟩ := h
        cases g2 with
        | nil => exact absurd rfl (hne [] (List.mem_cons_of_mem _ (List.getElem?_mem hg2)))
        | cons first rest =>
          exact ⟨first, rest, _, by simpa using hg2, he.symm, Or.inl rfl⟩

theorem written_run_blank {interval startMin : Int} {first : Kline} {i : Nat} {acc : Kline}
    (h : acc = freshBucket (intervalMs interval) (baseTs startMin) first.OpenTime ∨
      (i = 0 ∧ bucketOpen (intervalMs interval) (baseTs startMin) first.OpenTime = 0 ∧
        acc = Kline.empty)) :
    acc.numOfRecords = 0 ∧ acc.Volume = F64.zero ∧ acc.QuoteAssetVolume = F64.zero ∧
      acc.NumOfTrades = 0 ∧ acc.TakerBuyBaseAssetVolume = F64.zero ∧
      acc.TakerBuyQuoteAssetVolume = F64.zero ∧
      acc.OpenTime = bucketOpen (intervalMs interval) (baseTs startMin) first.OpenTime := by
  rcases h with h | ⟨_, h0, h⟩
  · subst h; exact ⟨rfl, rfl, rfl, rfl, rfl, rfl, rfl⟩
  · subst h; exact ⟨rfl, rfl, rfl, rfl, rfl, rfl, h0.symm⟩

/-! ## Lemmas: lines and records -/

theorem dropWhile_isSpace_append_cr (x : List Char) :
    ((x ++ [Char.ofNat 13]).dropWhile isSpace).reverse.dropWhile isSpace
      = ((x.dropWhile isSpace).reverse).dropWhile isSpace := by
  rw [List.dropWhile_append]
  by_cases hx : (x.dropWhile isSpace).isEmpty = true
  · rw [if_pos hx]
    have : x.dropWhile isSpace = [] := by simpa using hx
    rw [this]
    decide
  · rw [if_neg hx, List.reverse_append]
    rfl

/-- The carriage return that `bufio.ScanLines` removes would be trimmed anyway. -/
theorem TrimSpace_dropCR (line : String) : TrimSpace (dropCR line) = TrimSpace line := by
  unfold dropCR
  cases hr : line.data.reverse with
  | nil => rfl
  | cons c rest =>
    by_cases hc : c = Char.ofNat 13
    · simp only [if_pos hc]
      have hd : line.data = rest.reverse ++ [Char.ofNat 13] := by
        have := congrArg List.reverse hr
        rw [List.reverse_reverse] at this
        rw [this, hc, List.reverse_cons]
      unfold TrimSpace
      rw [hd, dropWhile_isSpace_append_cr]
    · simp only [if_neg hc]

theorem parseScanned_dropCR (pf : String → F64) (line : String) :
    parseScanned pf (dropCR line) = parseScanned pf line := by
  unfold parseScanned
  rw [TrimSpace_dropCR]

theorem scanTokens_cons_short (line : String) (rest : List String)
    (h : ¬ maxScanTokenSize ≤ line.utf8ByteSize) :
    scanTokens (line :: rest) = dropCR line :: scanTokens rest := by
  have hlt : line.utf8ByteSize < maxScanTokenSize := by omega
  simp [scanTokens, List.takeWhile_cons, hlt]

theorem scanTokens_cons_long (line : String) (rest : List String)
    (h : maxScanTokenSize ≤ line.utf8ByteSize) :
    scanTokens (line :: rest) = [] := by
  have hlt : ¬ line.utf8ByteSize < maxScanTokenSize := by omega
  simp [scanTokens, List.takeWhile_cons, hlt]

/-- The loop over the lines of the input is the loop over the valid records
of the lines read. -/
theorem scanLoop_eq_aggregateLoop (pf : String → F64) (p b : Int) (lines : List String)
    (st : LoopState) :
    scanLoop pf p b lines st = aggregateLoop p b (validRecords pf lines) st := by
  induction lines generalizing st with
  | nil => rfl
  | cons text rest ih =>
    by_cases hlong : maxScanTokenSize ≤ text.utf8ByteSize
    · have hv : validRecords pf (text :: rest) = [] := by
        simp [validRecords, scanTokens_cons_long text rest hlong]
      rw [hv]
      simp only [scanLoop, if_pos hlong, aggregateLoop]
    · cases hparse : parseScanned pf (dropCR text) with
      | error err =>
        have hv : validRecords pf (text :: rest) = validRecords pf rest := by
          simp [validRecords, scanTokens_cons_short text rest hlong, List.filterMap_cons, hparse]
        rw [hv, ← ih]
        simp only [scanLoop, if_neg hlong, hparse]
      | ok kline =>
        have hv : validRecords pf (text :: rest) = kline :: validRecords pf rest := by
          simp [validRecords, scanTokens_cons_short text rest hlong, List.filterMap_cons, hparse]
        rw [hv]
        simp only [scanLoop, if_neg hlong, hparse, aggregateLoop]
        split
        · rfl
        · exact ih _

theorem composePass_eq_aggregate (pf : String → F64) (interval startMin : Int)
    (lines : List String) :
    composePass pf interval startMin lines = aggregate interval startMin (validRecords pf lines) :=
  scanLoop_eq_aggregateLoop pf _ _ lines _

/-! ## Lemmas: the parser -/

theorem exists_cons_of_length {α : Type} {l : List α} {n : Nat} (h : l.length = n + 1) :
    ∃ a t, l = a :: t ∧ t.length = n := by
  cases l with
  | nil => simp at h
  | cons a t => exact ⟨a, t, rfl, by simpa using h⟩

theorem exists_twelve_of_length {α : Type} {l : List α} (h : l.length = 12) :
    ∃ p0 p1 p2 p3 p4 p5 p6 p7 p8 p9 p10 p11,
      l = [p0, p1, p2, p3, p4, p5, p6, p7, p8, p9, p10, p11] := by
  obtain ⟨p0, t0, e0, h0⟩ := exists_cons_of_length h
  obtain ⟨p1, t1, e1, h1⟩ := exists_cons_of_length h0
  obtain ⟨p2, t2, e2, h2⟩ := exists_cons_of_length h1
  obtain ⟨p3, t3, e3, h3⟩ := exists_cons_of_length h2
  obtain ⟨p4, t4, e4, h4⟩ := exists_cons_of_length h3
  obtain ⟨p5, t5, e5, h5⟩ := exists_cons_of_length h4
  obtain ⟨p6, t6, e6, h6⟩ := exists_cons_of_length h5
  obtain ⟨p7, t7, e7, h7⟩ := exists_cons_of_length h6
  obtain ⟨p8, t8, e8, h8⟩ := exists_cons_of_length h7
  obtain ⟨p9, t9, e9, h9⟩ := exists_cons_of_length h8
  obtain ⟨p10, t10, e10, h10⟩ := exists_cons_of_length h9
  obtain ⟨p11, t11, e11, h11⟩ := exists_cons_of_length h10
  have e12 : t11 = [] := List.length_eq_zero.1 h11
  subst e12 e11 e10 e9 e8 e7 e6 e5 e4 e3 e2 e1 e0
  exact ⟨p0, p1, p2, p3, p4, p5, p6, p7, p8, p9, p10, p11, rfl⟩

theorem parseKline_of_pieces (pf : String → F64) (line : String) (hne : line.length ≠ 0)
    {p0 p1 p2 p3 p4 p5 p6 p7 p8 p9 p10 p11 : String}
    (h : Split line = [p0, p1, p2, p3, p4, p5, p6, p7, p8, p9, p10, p11]) :
    parseKline pf line
      = Except.ok (klineOfPieces pf p0 p1 p2 p3 p4 p5 p6 p7 p8 p9 p10 p11) := by
  unfold parseKline
  rw [if_neg hne, h]
  rfl

theorem parseKline_wrong_fields (pf : String → F64) (line : String) (hne : line.length ≠ 0)
    (h : (Split line).length ≠ 12) : parseKline pf line = Except.error ParseError.wrongFields := by
  unfold parseKline
  rw [if_neg hne]
  split
  · rename_i heq
    rw [heq] at h
    exact absurd rfl h
  · rfl

theorem Split_length_of_empty (line : String) (h : line.length = 0) : (Split line).length = 1 := by
  have hd : line.data = [] := List.length_eq_zero.1 h
  simp [Split, hd, splitComma]

theorem ParseInt_cases (s : String) :
    ((ParseInt s).2 = some NumError.malformed ∧ (ParseInt s).1 = 0) ∨
    ((ParseInt s).2 = some NumError.outOfRange ∧
      ((ParseInt s).1 = 2 ^ 63 - 1 ∨ (ParseInt s).1 = -(2 ^ 63))) ∨
    (ParseInt s).2 = none := by
  unfold ParseInt
  cases s.data with
  | nil => exact Or.inl ⟨rfl, rfl⟩
  | cons c cs =>
    simp only []
    by_cases h1 : (ParseUint (if c = '+' ∨ c = '-' then cs else c :: cs)).2
        = some NumError.malformed
    · rw [if_pos h1]; exact Or.inl ⟨rfl, rfl⟩
    · rw [if_neg h1]
      by_cases h2 : ¬ c = '-' ∧ (ParseUint (if c = '+' ∨ c = '-' then cs else c :: cs)).1 ≥ 2 ^ 63
      · rw [if_pos h2]; exact Or.inr (Or.inl ⟨rfl, Or.inl rfl⟩)
      · rw [if_neg h2]
        by_cases h3 : c = '-' ∧ (ParseUint (if c = '+' ∨ c = '-' then cs else c :: cs)).1 > 2 ^ 63
        · rw [if_pos h3]; exact Or.inr (Or.inl ⟨rfl, Or.inr rfl⟩)
        · rw [if_neg h3]; exact Or.inr (Or.inr rfl)

theorem parseInt64_of_malformed (s : String) (h : (ParseInt s).2 = some NumError.malformed) :
    parseInt64 s = 0 := by
  unfold parseInt64
  rcases ParseInt_cases s with h1 | h1 | h1
  · exact h1.2
  · rw [h1.1] at h; cases h
  · rw [h1] at h; cases h

theorem parseInt64_of_outOfRange (s : String) (h : (ParseInt s).2 = some NumError.outOfRange) :
    parseInt64 s = 2 ^ 63 - 1 ∨ parseInt64 s = -(2 ^ 63) := by
  unfold parseInt64
  rcases ParseInt_cases s with h1 | h1 | h1
  · rw [h1.1] at h; cases h
  · exact h1.2
  · rw [h1] at h; cases h

/-! ## Lemmas: truncated division and the bucket boundary -/

theorem truncTo_neg_divisor (p x : Int) : truncTo (-p) x = truncTo p x := by
  unfold truncTo
  rw [Int.tdiv_neg, Int.neg_mul_neg]

theorem truncTo_neg_arg (p x : Int) : truncTo p (-x) = -(truncTo p x) := by
  unfold truncTo
  rw [Int.neg_tdiv, Int.neg_mul]

theorem truncTo_of_nonneg {p x : Int} (hp : 0 < p) (hx : 0 ≤ x) : truncTo p x = x / p * p := by
  unfold truncTo
  rw [Int.tdiv_eq_ediv hx (Int.le_of_lt hp)]

theorem truncTo_bounds_pos {p x : Int} (hp : 0 < p) (hx : 0 ≤ x) :
    0 ≤ truncTo p x ∧ truncTo p x ≤ x := by
  rw [truncTo_of_nonneg hp hx]
  exact ⟨Int.mul_nonneg (Int.ediv_nonneg hx (Int.le_of_lt hp)) (Int.le_of_lt hp),
    Int.ediv_mul_le x (Int.ne_of_gt hp)⟩

theorem truncTo_bounds_nonneg {p x : Int} (hp : p ≠ 0) (hx : 0 ≤ x) :
    0 ≤ truncTo p x ∧ truncTo p x ≤ x := by
  rcases Int.lt_or_gt_of_ne hp with h | h
  · rw [← truncTo_neg_divisor]
    exact truncTo_bounds_pos (by omega) hx
  · exact truncTo_bounds_pos h hx

theorem truncTo_bounds_nonpos {p x : Int} (hp : p ≠ 0) (hx : x ≤ 0) :
    x ≤ truncTo p x ∧ truncTo p x ≤ 0 := by
  have h := truncTo_bounds_nonneg hp (show 0 ≤ -x by omega)
  rw [truncTo_neg_arg] at h
  omega

theorem truncTo_mono_pos {p x y : Int} (hp : 0 < p) (hx : 0 ≤ x) (hxy : x ≤ y) :
    truncTo p x ≤ truncTo p y := by
  rw [truncTo_of_nonneg hp hx, truncTo_of_nonneg hp (Int.le_trans hx hxy)]
  exact Int.mul_le_mul_of_nonneg_right (Int.ediv_le_ediv hp hxy) (Int.le_of_lt hp)

theorem truncTo_mono_nonneg {p x y : Int} (hp : p ≠ 0) (hx : 0 ≤ x) (hxy : x ≤ y) :
    truncTo p x ≤ truncTo p y := by
  rcases Int.lt_or_gt_of_ne hp with h | h
  · rw [← truncTo_neg_divisor p x, ← truncTo_neg_divisor p y]
    exact truncTo_mono_pos (by omega) hx hxy
  · exact truncTo_mono_pos h hx hxy

/-- Truncation to a multiple of `p` is monotone. -/
theorem truncTo_mono {p x y : Int} (hp : p ≠ 0) (hxy : x ≤ y) : truncTo p x ≤ truncTo p y := by
  by_cases hx : 0 ≤ x
  · exact truncTo_mono_nonneg hp hx hxy
  · by_cases hy : 0 ≤ y
    · have h1 := truncTo_bounds_nonpos hp (show x ≤ 0 by omega)
      have h2 := truncTo_bounds_nonneg hp hy
      omega
    · have h := truncTo_mono_nonneg hp (show 0 ≤ -y by omega) (show -y ≤ -x by omega)
      rw [truncTo_neg_arg, truncTo_neg_arg] at h
      omega

theorem wrap64_eq_sub (a : Int) : ∃ k : Int, wrap64 a = a - 2 ^ 64 * k := by
  refine ⟨(a + 2 ^ 63) / 2 ^ 64, ?_⟩
  unfold wrap64
  have := Int.emod_add_ediv (a + 2 ^ 63) (2 ^ 64)
  omega

theorem wrap64_mul_wrap64 (a c : Int) : wrap64 (wrap64 a * c) = wrap64 (a * c) := by
  obtain ⟨k, hk⟩ := wrap64_eq_sub a
  rw [hk]
  unfold wrap64
  have h : (a - 2 ^ 64 * k) * c + 2 ^ 63 = (a * c + 2 ^ 63) + 2 ^ 64 * (-(k * c)) := by ring
  rw [h, Int.add_mul_emod_self_left]

/-- Line 138 without overflow: when the interval is not zero and
`t - baseTimestamp` is an `int64`, the bucket open time is `t - baseTimestamp`
truncated to a multiple of the interval, plus `baseTimestamp`. -/
theorem bucketOpen_eq_truncTo {p b t : Int} (hp : p ≠ 0) (hb : IsInt64 b) (ht : IsInt64 t)
    (hx : IsInt64 (t - b)) : bucketOpen p b t = truncTo p (t - b) + b := by
  unfold bucketOpen
  rw [wrap64_of_isInt64 hx, wrap64_mul_wrap64]
  show wrap64 (wrap64 (truncTo p (t - b)) + b) = truncTo p (t - b) + b
  unfold IsInt64 at hb ht hx
  have h : IsInt64 (truncTo p (t - b)) ∧ IsInt64 (truncTo p (t - b) + b) := by
    unfold IsInt64
    by_cases h0 : 0 ≤ t - b
    · have h := truncTo_bounds_nonneg hp h0
      omega
    · have h := truncTo_bounds_nonpos hp (show t - b ≤ 0 by omega)
      omega
  rw [wrap64_of_isInt64 h.1, wrap64_of_isInt64 h.2]

/-- Without overflow the bucket open time is monotone in the record time. -/
theorem bucketOpen_mono {p b t1 t2 : Int} (hp : p ≠ 0) (hb : IsInt64 b)
    (ht1 : IsInt64 t1) (hx1 : IsInt64 (t1 - b)) (ht2 : IsInt64 t2) (hx2 : IsInt64 (t2 - b))
    (h : t1 ≤ t2) : bucketOpen p b t1 ≤ bucketOpen p b t2 := by
  rw [bucketOpen_eq_truncTo hp hb ht1 hx1, bucketOpen_eq_truncTo hp hb ht2 hx2]
  have := truncTo_mono hp (show t1 - b ≤ t2 - b by omega)
  omega

/-- Line 138 for a record at or after the base time, with a positive
interval: the floor formula. -/
theorem bucketOpen_eq_floor {p b t : Int} (hp : 0 < p) (hb : 0 ≤ b) (ht : IsInt64 t)
    (hbt : b ≤ t) : bucketOpen p b t = (t - b) / p * p + b := by
  have hx : IsInt64 (t - b) := by unfold IsInt64 at ht ⊢; omega
  have hb : IsInt64 b := by unfold IsInt64 at ht ⊢; omega
  rw [bucketOpen_eq_truncTo (Int.ne_of_gt hp) hb ht hx, truncTo_of_nonneg hp (by omega)]

/-! ## Lemmas: the runs of a stream in bucket order -/

theorem mem_of_mem_bucketRuns {p b : Int} {l g : List Kline} (hg : g ∈ bucketRuns p b l)
    {x : Kline} (hx : x ∈ g) : x ∈ l := by
  rw [← bucketRuns_join p b l]
  exact List.mem_flatten.2 ⟨g, hg, hx⟩

theorem runKey_eq_of_mem {p b : Int} {l g : List Kline} (hg : g ∈ bucketRuns p b l) :
    ∃ x ∈ l, runKey p b g = bucketOpen p b x.OpenTime := by
  cases g with
  | nil => exact absurd rfl (bucketRuns_ne_nil p b l [] hg)
  | cons r g => exact ⟨r, mem_of_mem_bucketRuns hg (List.mem_cons_self _ _), rfl⟩

theorem runKey_of_mem_run {p b : Int} {l g : List Kline} (hg : g ∈ bucketRuns p b l)
    {x : Kline} (hx : x ∈ g) : bucketOpen p b x.OpenTime = runKey p b g := by
  cases g with
  | nil => simp at hx
  | cons r g => exact bucketRuns_same p b l r g hg x hx

/-- When the bucket open times of a stream never decrease, those of its
runs strictly increase. -/
theorem bucketRuns_keys_strict (p b : Int) (l : List Kline)
    (hmono : l.Pairwise (fun x y => bucketOpen p b x.OpenTime ≤ bucketOpen p b y.OpenTime)) :
    (bucketRuns p b l).Pairwise (fun g h => runKey p b g < runKey p b h) := by
  induction l with
  | nil => simp [bucketRuns]
  | cons k ks ih =>
    obtain ⟨hk, hks⟩ := List.pairwise_cons.1 hmono
    have ih := ih hks
    cases hr : bucketRuns p b ks with
    | nil => rw [bucketRuns_cons_nil p b k hr]; simp
    | cons g gs =>
      cases g with
      | nil => exact absurd rfl (bucketRuns_ne_nil p b ks [] (by rw [hr]; simp))
      | cons r g =>
        rw [hr] at ih
        obtain ⟨hhead, htail⟩ := List.pairwise_cons.1 ih
        have hrmem : r ∈ ks :=
          mem_of_mem_bucketRuns (show r :: g ∈ bucketRuns p b ks by rw [hr]; simp)
            (List.mem_cons_self _ _)
        by_cases hkr : bucketOpen p b k.OpenTime = bucketOpen p b r.OpenTime
        · rw [bucketRuns_cons_same p b k hr hkr]
          refine List.pairwise_cons.2 ⟨?_, htail⟩
          intro h hh
          have := hhead h hh
          unfold runKey at this ⊢
          simp only [List.headD_cons] at this ⊢
          rw [hkr]; exact this
        · rw [bucketRuns_cons_diff p b k hr hkr]
          have hlt : bucketOpen p b k.OpenTime < bucketOpen p b r.OpenTime := by
            have := hk r hrmem
            omega
          refine List.pairwise_cons.2 ⟨?_, ih⟩
          intro h hh
          rcases List.mem_cons.1 hh with h1 | h1
          · rw [h1]; exact hlt
          · have := hhead h h1
            unfold runKey at this ⊢
            simp only [List.headD_cons] at this ⊢
            omega

/-- In a list of runs with pairwise different bucket open times, the
records of the whole stream that fall in the bucket of a run are the
records of that run. -/
theorem countP_flatten_runs (key : Kline → Int) (hk : List Kline → Int)
    (gs : List (List Kline)) (hhom : ∀ g ∈ gs, ∀ x ∈ g, key x = hk g)
    (hdist : gs.Pairwise (fun g h => hk g ≠ hk h)) :
    ∀ g ∈ gs, gs.flatten.countP (fun x => decide (key x = hk g)) = g.length := by
  induction gs with
  | nil => simp
  | cons g0 rest ih =>
    obtain ⟨hhead, htail⟩ := List.pairwise_cons.1 hdist
    have ih := ih (fun g hg => hhom g (List.mem_cons_of_mem _ hg)) htail
    intro g hg
    rw [List.flatten_cons, List.countP_append]
    by_cases hg0 : hk g = hk g0
    · have hrest : rest.flatten.countP (fun x => decide (key x = hk g)) = 0 := by
        rw [List.countP_eq_zero]
        intro x hx
        obtain ⟨h, hh, hxh⟩ := List.mem_flatten.1 hx
        have := hhom h (List.mem_cons_of_mem _ hh) x hxh
        have := hhead h hh
        simp only [decide_eq_true_eq]
        omega
      have hgeq : g = g0 := by
        rcases List.mem_cons.1 hg with h | h
        · exact h
        · exact absurd hg0.symm (hhead g h)
      have hfirst : g0.countP (fun x => decide (key x = hk g)) = g0.length := by
        rw [List.countP_eq_length]
        intro x hx
        have := hhom g0 (List.mem_cons_self _ _) x hx
        simp only [decide_eq_true_eq]
        omega
      rw [hrest, hfirst, hgeq]; rfl
    · have hgrest : g ∈ rest := by
        rcases List.mem_cons.1 hg with h | h
        · rw [h] at hg0; exact absurd rfl hg0
        · exact h
      have hfirst : g0.countP (fun x => decide (key x = hk g)) = 0 := by
        rw [List.countP_eq_zero]
        intro x hx
        have := hhom g0 (List.mem_cons_self _ _) x hx
        simp only [decide_eq_true_eq]
        omega
      rw [hfirst, ih g hgrest, Nat.zero_add]

/-- The open time of a record written is the bucket open time of its run. -/
theorem written_run_OpenTime {interval startMin : Int} {l : List Kline} {i : Nat} {e : Kline}
    (h : (aggregate interval startMin l).written[i]? = some e) :
    ∃ run, (bucketRuns (intervalMs interval) (baseTs startMin) l)[i]? = some run ∧
      e.OpenTime = runKey (intervalMs interval) (baseTs startMin) run ∧
      e.numOfRecords = run.length := by
  obtain ⟨first, rest, acc, hrun, he, hacc⟩ := written_run interval startMin l i e h
  obtain ⟨hn, _, _, _, _, _, hot⟩ := written_run_blank hacc
  refine ⟨first :: rest, hrun, ?_, ?_⟩
  · rw [he, mergeRun_OpenTime, hot]; rfl
  · rw [he, mergeRun_numOfRecords, hn, Nat.zero_add]

/-- When the interval is not zero, every run is written. -/
theorem written_length (interval startMin : Int) (hp : intervalMs interval ≠ 0)
    (l : List Kline) :
    (aggregate interval startMin l).written.length
      = (bucketRuns (intervalMs interval) (baseTs startMin) l).length := by
  rw [aggregate_written interval startMin hp]
  cases bucketRuns (intervalMs interval) (baseTs startMin) l with
  | nil => rfl
  | cons g gs => simp

theorem written_OpenTime_eq (interval startMin : Int) (hp : intervalMs interval ≠ 0)
    (l : List Kline) :
    (aggregate interval startMin l).written.map Kline.OpenTime
      = (bucketRuns (intervalMs interval) (baseTs startMin) l).map
          (runKey (intervalMs interval) (baseTs startMin)) := by
  apply List.ext_getElem?
  intro i
  rw [List.getElem?_map, List.getElem?_map]
  cases hw : (aggregate interval startMin l).written[i]? with
  | none =>
    have hlen := written_length interval startMin hp l
    have h1 := List.getElem?_eq_none_iff.1 hw
    have h2 : (bucketRuns (intervalMs interval) (baseTs startMin) l)[i]? = none :=
      List.getElem?_eq_none_iff.2 (by omega)
    rw [h2]; rfl
  | some e =>
    obtain ⟨run, hrun, hot, _⟩ := written_run_OpenTime hw
    rw [hrun]
    simp [hot]

/-! ## Lemmas: gap-free streams -/

theorem ediv_step {p x : Int} (hp : 0 < p) (hstep : 60000 ≤ p) :
    (x + 60000) / p = x / p ∨ (x + 60000) / p = x / p + 1 := by
  have h1 := Int.ediv_le_ediv hp (show x ≤ x + 60000 by omega)
  have h2 := Int.ediv_le_ediv hp (show x + 60000 ≤ x + 1 * p by omega)
  rw [Int.add_mul_ediv_right x 1 (Int.ne_of_gt hp)] at h2
  omega

/-- One minute later, a record is in the same bucket or in the next one. -/
theorem bucketOpen_step {p b t : Int} (hp : 0 < p) (hstep : 60000 ≤ p) (hb : 0 ≤ b)
    (hbt : b ≤ t) (ht : IsInt64 t) (ht2 : IsInt64 (t + 60000)) :
    bucketOpen p b (t + 60000) = bucketOpen p b t ∨
    bucketOpen p b (t + 60000) = bucketOpen p b t + p := by
  rw [bucketOpen_eq_floor hp hb ht hbt, bucketOpen_eq_floor hp hb ht2 (by omega)]
  have hx : t + 60000 - b = (t - b) + 60000 := by omega
  rw [hx]
  rcases ediv_step (x := t - b) hp hstep with h | h
  · left; rw [h]
  · right; rw [h, Int.add_mul, Int.one_mul]; omega

theorem bucketRuns_head {p b : Int} {l : List Kline} {r : Kline} {g : List Kline}
    {gs : List (List Kline)} (h : bucketRuns p b l = (r :: g) :: gs) : l.head? = some r := by
  have := bucketRuns_join p b l
  rw [h] at this
  rw [← this]
  rfl

/-- When consecutive records are in the same bucket or in buckets `p`
apart, consecutive runs are in buckets `p` apart. -/
theorem bucketRuns_keys_step (p b : Int) (l : List Kline)
    (hchain : l.Chain' (fun x y => bucketOpen p b y.OpenTime = bucketOpen p b x.OpenTime ∨
      bucketOpen p b y.OpenTime = bucketOpen p b x.OpenTime + p)) :
    (bucketRuns p b l).Chain' (fun g h => runKey p b h = runKey p b g + p) := by
  induction l with
  | nil => simp [bucketRuns]
  | cons k ks ih =>
    obtain ⟨hk, hks⟩ := List.chain'_cons'.1 hchain
    have ih := ih hks
    cases hr : bucketRuns p b ks with
    | nil => rw [bucketRuns_cons_nil p b k hr]; simp
    | cons g gs =>
      cases g with
      | nil => exact absurd rfl (bucketRuns_ne_nil p b ks [] (by rw [hr]; simp))
      | cons r g =>
        rw [hr] at ih
        obtain ⟨hhead, htail⟩ := List.chain'_cons'.1 ih
        have hstep := hk r (by rw [bucketRuns_head hr]; rfl)
        by_cases hkr : bucketOpen p b k.OpenTime = bucketOpen p b r.OpenTime
        · rw [bucketRuns_cons_same p b k hr hkr]
          refine List.chain'_cons'.2 ⟨?_, htail⟩
          intro h hh
          have := hhead h hh
          unfold runKey at this ⊢
          simp only [List.headD_cons] at this ⊢
          rw [hkr]; exact this
        · rw [bucketRuns_cons_diff p b k hr hkr]
          refine List.chain'_cons'.2 ⟨?_, ih⟩
          intro h hh
          have hh2 : h = r :: g := by simpa using hh.symm
          rw [hh2]
          unfold runKey
          simp only [List.headD_cons]
          rcases hstep with h1 | h1
          · exact absurd h1.symm hkr
          · exact h1

theorem chain_getElem {α : Type} {R : α → α → Prop} (l : List α) (hl : l.Chain' R) (i : Nat)
    (a c : α) (h1 : l[i]? = some a) (h2 : l[i + 1]? = some c) : R a c := by
  induction l generalizing i with
  | nil => simp at h1
  | cons x xs ih =>
    obtain ⟨hx, hxs⟩ := List.chain'_cons'.1 hl
    cases i with
    | zero =>
      simp only [List.getElem?_cons_zero, Option.some.injEq] at h1
      simp only [Nat.zero_add, List.getElem?_cons_succ] at h2
      rw [← h1]
      apply hx
      cases xs with
      | nil => simp at h2
      | cons y ys => simpa using h2
    | succ j =>
      simp only [List.getElem?_cons_succ] at h1 h2
      exact ih hxs j h1 h2

/-- In a stream that starts at or after `b` and advances by one minute per
record, every record is at or after `b`. -/
theorem gapFree_ge (b : Int) (l : List Kline)
    (hstart : ∀ r ∈ l.head?, b ≤ r.OpenTime)
    (hgap : l.Chain' (fun x y => y.OpenTime = x.OpenTime + 60000)) :
    ∀ r ∈ l, b ≤ r.OpenTime := by
  induction l with
  | nil => simp
  | cons k ks ih =>
    obtain ⟨hk, hks⟩ := List.chain'_cons'.1 hgap
    have hkb : b ≤ k.OpenTime := hstart k rfl
    intro r hr
    rcases List.mem_cons.1 hr with h | h
    · rw [h]; exact hkb
    · refine ih ?_ hks r h
      intro y hy
      have := hk y hy
      omega

/-- The times of a record written: its open time is the bucket open time of
every record of its run, and its close time is the bucket close time of line
139, except for a first record written for the bucket opened at `0`, whose
close time stays `0`. -/
theorem emitted_times (interval startMin : Int) (records : List Kline) (i : Nat) (e : Kline)
    (h : (aggregate interval startMin records).written[i]? = some e) :
    ∃ first rest,
      (bucketRuns (intervalMs interval) (baseTs startMin) records)[i]? = some (first :: rest) ∧
      (∀ r ∈ first :: rest,
        bucketOpen (intervalMs interval) (baseTs startMin) r.OpenTime = e.OpenTime) ∧
      (e.CloseTime = bucketClose (intervalMs interval) e.OpenTime ∨
        (i = 0 ∧ e.OpenTime = 0 ∧ e.CloseTime = 0)) := by
  obtain ⟨first, rest, acc, hrun, he, hacc⟩ := written_run interval startMin records i e h
  have hsame := bucketRuns_same (intervalMs interval) (baseTs startMin) records first rest
    (List.getElem?_mem hrun)
  refine ⟨first, rest, hrun, ?_, ?_⟩
  · intro r hr
    rw [hsame r hr, he, mergeRun_OpenTime, (written_run_blank hacc).2.2.2.2.2.2]
  · rw [he, mergeRun_OpenTime, mergeRun_CloseTime]
    rcases hacc with hacc | ⟨hi, _, hacc⟩
    · left; rw [hacc]; rfl
    · right; rw [hacc]; exact ⟨hi, rfl, rfl⟩

/-- In a list of runs with pairwise different bucket open times, the
records of the whole stream that fall in the bucket of a run are exactly the
records of that run, in order. -/
theorem filter_flatten_runs (key : Kline → Int) (hk : List Kline → Int)
    (gs : List (List Kline)) (hhom : ∀ g ∈ gs, ∀ x ∈ g, key x = hk g)
    (hdist : gs.Pairwise (fun g h => hk g ≠ hk h)) :
    ∀ g ∈ gs, gs.flatten.filter (fun x => decide (key x = hk g)) = g := by
  induction gs with
  | nil => simp
  | cons g0 rest ih =>
    obtain ⟨hhead, htail⟩ := List.pairwise_cons.1 hdist
    have ih := ih (fun g hg => hhom g (List.mem_cons_of_mem _ hg)) htail
    intro g hg
    rw [List.flatten_cons, List.filter_append]
    by_cases hg0 : hk g = hk g0
    · have hrest : rest.flatten.filter (fun x => decide (key x = hk g)) = [] := by
        rw [List.filter_eq_nil_iff]
        intro x hx
        obtain ⟨h, hh, hxh⟩ := List.mem_flatten.1 hx
        have := hhom h (List.mem_cons_of_mem _ hh) x hxh
        have := hhead h hh
        simp only [decide_eq_true_eq]
        omega
      have hgeq : g = g0 := by
        rcases List.mem_cons.1 hg with h | h
        · exact h
        · exact absurd hg0.symm (hhead g h)
      have hfirst : g0.filter (fun x => decide (key x = hk g)) = g0 := by
        rw [List.filter_eq_self]
        intro x hx
        have := hhom g0 (List.mem_cons_self _ _) x hx
        simp only [decide_eq_true_eq]
        omega
      rw [hrest, hfirst, hgeq, List.append_nil]
    · have hgrest : g ∈ rest := by
        rcases List.mem_cons.1 hg with h | h
        · rw [h] at hg0; exact absurd rfl hg0
        · exact h
      have hfirst : g0.filter (fun x => decide (key x = hk g)) = [] := by
        rw [List.filter_eq_nil_iff]
        intro x hx
        have := hhom g0 (List.mem_cons_self _ _) x hx
        simp only [decide_eq_true_eq]
        omega
      rw [hfirst, ih g hgrest, List.nil_append]

/-- For a stream in non-decreasing `open_time` order, without overflow in
line 138, the run of a bucket is the list of all the records of the stream
that fall in that bucket. -/
theorem run_eq_filter (interval startMin : Int) (records : List Kline)
    (hp : intervalMs interval ≠ 0)
    (hrange : ∀ r ∈ records, IsInt64 r.OpenTime ∧ IsInt64 (r.OpenTime - baseTs startMin))
    (hsorted : records.Pairwise (fun r1 r2 => r1.OpenTime ≤ r2.OpenTime))
    (run : List Kline) (hrun : run ∈ bucketRuns (intervalMs interval) (baseTs startMin) records) :
    records.filter (fun r => decide (bucketOpen (intervalMs interval) (baseTs startMin) r.OpenTime
      = runKey (intervalMs interval) (baseTs startMin) run)) = run := by
  have hb : IsInt64 (baseTs startMin) := wrap64_isInt64 _
  have hmono : records.Pairwise (fun x y =>
      bucketOpen (intervalMs interval) (baseTs startMin) x.OpenTime
        ≤ bucketOpen (intervalMs interval) (baseTs startMin) y.OpenTime) := by
    refine List.Pairwise.imp_of_mem ?_ hsorted
    intro x y hx hy hxy
    exact bucketOpen_mono hp hb (hrange x hx).1 (hrange x hx).2 (hrange y hy).1 (hrange y hy).2 hxy
  have hstrict := bucketRuns_keys_strict (intervalMs interval) (baseTs startMin) records hmono
  have h := filter_flatten_runs
    (fun r => bucketOpen (intervalMs interval) (baseTs startMin) r.OpenTime)
    (runKey (intervalMs interval) (baseTs startMin))
    (bucketRuns (intervalMs interval) (baseTs startMin) records)
    (fun g hg x hx => runKey_of_mem_run hg hx)
    (hstrict.imp (fun h => Int.ne_of_lt h)) run hrun
  rw [bucketRuns_join] at h
  exact h

/-! ## The claims -/

/-- C1 (the code departs from the claim): with `interval = 30` and
`startMin = 0`, a stream whose first record is opened at `0` falls in the
bucket opened at `0`, the value `lastKlineOpenTime` starts with, so line 140
does not open the bucket: the record is written with `CloseTime = 0`, while
the bucket boundary computation gives the close time `1799999`. -/
theorem first_bucket_at_zero_keeps_close_time_zero :
    (aggregate 30 0 [barAtZero]).written.map (fun k => (k.OpenTime, k.CloseTime, k.numOfRecords))
        = [(0, 0, 1)] ∧
      bucketOpen (intervalMs 30) (baseTs 0) barAtZero.OpenTime = 0 ∧
      bucketClose (intervalMs 30) (bucketOpen (intervalMs 30) (baseTs 0) barAtZero.OpenTime)
        = 1799999 := by
  decide

/-- The `i`-th record written by a pass is built from the `i`-th run of the
stream, all of whose records have its open time as bucket: its open is the
open of the first record of the run, its close and ignore are those of the
last record, its high is a high of the run that no high of the run exceeds
and its low a low of the run that no low of the run is below (for Go's `>`
and `<`); when no high (low) of the run is NaN this is the greatest high
(least low) for Go's `<=`. -/
theorem run_ohlc (interval startMin : Int) (records : List Kline) (i : Nat) (e : Kline)
    (h : (aggregate interval startMin records).written[i]? = some e) :
    ∃ first rest,
      (bucketRuns (intervalMs interval) (baseTs startMin) records)[i]? = some (first :: rest) ∧
      (∀ r ∈ first :: rest,
        bucketOpen (intervalMs interval) (baseTs startMin) r.OpenTime = e.OpenTime) ∧
      e.Open = first.Open ∧
      e.Close = ((first :: rest).getLast (List.cons_ne_nil first rest)).Close ∧
      e.Ignore = ((first :: rest).getLast (List.cons_ne_nil first rest)).Ignore ∧
      e.High ∈ (first :: rest).map Kline.High ∧
      (∀ r ∈ first :: rest, F64.gt r.High e.High = false) ∧
      e.Low ∈ (first :: rest).map Kline.Low ∧
      (∀ r ∈ first :: rest, F64.lt r.Low e.Low = false) ∧
      ((∀ r ∈ first :: rest, r.High.isNaN = false) →
        ∀ r ∈ first :: rest, F64.le r.High e.High = true) ∧
      ((∀ r ∈ first :: rest, r.Low.isNaN = false) →
        ∀ r ∈ first :: rest, F64.le e.Low r.Low = true) := by
  obtain ⟨first, rest, acc, hrun, he, hacc⟩ := written_run interval startMin records i e h
  obtain ⟨hn, _, _, _, _, _, hot⟩ := written_run_blank hacc
  have hsame := bucketRuns_same (intervalMs interval) (baseTs startMin) records first rest
    (List.getElem?_mem hrun)
  have hH := mergeRun_High acc first rest hn
  have hL := mergeRun_Low acc first rest hn
  have hC := mergeRun_Close (first :: rest) acc (List.cons_ne_nil first rest)
  rw [← he] at hH hL hC
  refine ⟨first, rest, hrun, ?_, ?_, hC.1, hC.2, hH.1, hH.2, hL.1, hL.2, ?_, ?_⟩
  · intro r hr
    rw [hsame r hr, he, mergeRun_OpenTime, hot]
  · rw [he]; exact mergeRun_Open acc first rest hn
  · intro hnan r hr
    obtain ⟨m, hm, hme⟩ := List.mem_map.1 hH.1
    exact F64.le_of_not_lt (hnan r hr) (by rw [← hme]; exact hnan m hm) (hH.2 r hr)
  · intro hnan r hr
    obtain ⟨m, hm, hme⟩ := List.mem_map.1 hL.1
    exact F64.le_of_not_lt (by rw [← hme]; exact hnan m hm) (hnan r hr) (hL.2 r hr)

/-- The `i`-th record written by a pass carries the sums over the records
of the `i`-th run only: volume, quote volume and the two taker volumes are
the `float64` sums in arrival order starting from zero, and the trade count
is the sum of the trade counts reduced to `int64`. -/
theorem run_sums (interval startMin : Int) (records : List Kline) (i : Nat) (e : Kline)
    (h : (aggregate interval startMin records).written[i]? = some e) :
    ∃ run,
      (bucketRuns (intervalMs interval) (baseTs startMin) records)[i]? = some run ∧
      e.Volume = sumF64 (run.map Kline.Volume) ∧
      e.QuoteAssetVolume = sumF64 (run.map Kline.QuoteAssetVolume) ∧
      e.NumOfTrades = wrap64 (run.map Kline.NumOfTrades).sum ∧
      e.NumOfTrades = (run.map Kline.NumOfTrades).foldl (fun x y => wrap64 (x + y)) 0 ∧
      e.TakerBuyBaseAssetVolume = sumF64 (run.map Kline.TakerBuyBaseAssetVolume) ∧
      e.TakerBuyQuoteAssetVolume = sumF64 (run.map Kline.TakerBuyQuoteAssetVolume) := by
  obtain ⟨first, rest, acc, hrun, he, hacc⟩ := written_run interval startMin records i e h
  obtain ⟨_, hv, hq, hn, hb, htq, _⟩ := written_run_blank hacc
  refine ⟨first :: rest, hrun, ?_, ?_, ?_, ?_, ?_, ?_⟩
  · rw [he, mergeRun_Volume, hv]; rfl
  · rw [he, mergeRun_QuoteAssetVolume, hq]; rfl
  · rw [he, mergeRun_NumOfTrades, hn, foldl_wrap64_add_zero]
  · rw [he, mergeRun_NumOfTrades, hn]
  · rw [he, mergeRun_TakerBuyBaseAssetVolume, hb]; rfl
  · rw [he, mergeRun_TakerBuyQuoteAssetVolume, htq]; rfl

/-- C7: `saveKline` writes nothing for an accumulator with
`numOfRecords = 0`; the `i`-th record written by a pass over scanned lines
counts the records of the `i`-th run of the valid records, which has at
least one record; a pass over lines none of which parses writes nothing. -/
theorem no_empty_emission :
    (∀ (kline : Kline) (fd : List Kline), kline.numOfRecords = 0 → saveKline kline fd = fd) ∧
    (∀ (pf : String → F64) (interval startMin : Int) (lines : List String) (i : Nat) (e : Kline),
      (composePass pf interval startMin lines).written[i]? = some e →
      ∃ run, (bucketRuns (intervalMs interval) (baseTs startMin) (validRecords pf lines))[i]?
          = some run ∧ e.numOfRecords = run.length ∧ 0 < e.numOfRecords) ∧
    (∀ (pf : String → F64) (interval startMin : Int) (lines : List String),
      (∀ text ∈ lines, ∃ err, parseScanned pf text = Except.error err) →
      (composePass pf interval startMin lines).written = []) := by
  refine ⟨?_, ?_, ?_⟩
  · intro kline fd h
    simp [saveKline, h]
  · intro pf interval startMin lines i e h
    rw [composePass_eq_aggregate] at h
    obtain ⟨first, rest, acc, hrun, he, hacc⟩ :=
      written_run interval startMin (validRecords pf lines) i e h
    obtain ⟨hn, _⟩ := written_run_blank hacc
    have hlen : e.numOfRecords = (first :: rest).length := by
      rw [he, mergeRun_numOfRecords, hn, Nat.zero_add]
    exact ⟨first :: rest, hrun, hlen, by rw [hlen]; simp⟩
  · intro pf interval startMin lines hbad
    have hv : validRecords pf lines = [] := by
      unfold validRecords
      rw [List.filterMap_eq_nil_iff]
      intro text ht
      obtain ⟨line, hline, hd⟩ := List.mem_map.1 ht
      obtain ⟨err, herr⟩ := hbad line ((List.takeWhile_prefix _).sublist.subset hline)
      rw [← hd, parseScanned_dropCR, herr]
    rw [composePass_eq_aggregate, hv]
    rfl

/-- C8: on a non-empty line `parseKline` fails with "wrong fields" exactly
when `strings.Split(line, ",")` does not give 12 pieces; on 12 pieces it
returns the record whose fields are read from the pieces in the order
open time, open, high, low, close, volume, close time, quote volume, trade
count, taker buy base volume, taker buy quote volume, ignore. -/
theorem parseKline_field_count (pf : String → F64) (line : String) (hne : line.length ≠ 0) :
    (parseKline pf line = Except.error ParseError.wrongFields ↔ (Split line).length ≠ 12) ∧
    (∀ p0 p1 p2 p3 p4 p5 p6 p7 p8 p9 p10 p11 : String,
      Split line = [p0, p1, p2, p3, p4, p5, p6, p7, p8, p9, p10, p11] →
      parseKline pf line = Except.ok
        { OpenTime := parseInt64 p0
          Open := parseFloat64 pf p1
          High := parseFloat64 pf p2
          Low := parseFloat64 pf p3
          Close := parseFloat64 pf p4
          Volume := parseFloat64 pf p5
          CloseTime := parseInt64 p6
          QuoteAssetVolume := parseFloat64 pf p7
          NumOfTrades := parseInt64 p8
          TakerBuyBaseAssetVolume := parseFloat64 pf p9
          TakerBuyQuoteAssetVolume := parseFloat64 pf p10
          Ignore := parseFloat64 pf p11
          numOfRecords := 0 }) ∧
    ((Split line).length = 12 → ∃ kline, parseKline pf line = Except.ok kline) := by
  refine ⟨⟨?_, parseKline_wrong_fields pf line hne⟩, ?_, ?_⟩
  · intro herr hlen
    obtain ⟨p0, p1, p2, p3, p4, p5, p6, p7, p8, p9, p10, p11, hs⟩ :=
      exists_twelve_of_length hlen
    rw [parseKline_of_pieces pf line hne hs] at herr
    cases herr
  · intro p0 p1 p2 p3 p4 p5 p6 p7 p8 p9 p10 p11 hs
    exact parseKline_of_pieces pf line hne hs
  · intro hlen
    obtain ⟨p0, p1, p2, p3, p4, p5, p6, p7, p8, p9, p10, p11, hs⟩ :=
      exists_twelve_of_length hlen
    exact ⟨_, parseKline_of_pieces pf line hne hs⟩

/-- C9: a scanned line that is empty once trimmed is rejected with
"empty line.", and every line made of white space only (the empty line
included) is empty once trimmed. -/
theorem blank_line_is_empty_line_error :
    (∀ (pf : String → F64) (text : String), (TrimSpace text).length = 0 →
      parseScanned pf text = Except.error ParseError.emptyLine) ∧
    (∀ text : String, (∀ c ∈ text.data, isSpace c = true) → (TrimSpace text).length = 0) := by
  constructor
  · intro pf text h
    unfold parseScanned parseKline
    rw [if_pos h]
  · intro text h
    have hd : text.data.dropWhile isSpace = [] := by
      rw [List.dropWhile_eq_nil_iff]; exact h
    simp [TrimSpace, hd, String.length]

/-- The three ways `ParseFloat` ends: a syntax error with the value `0`, for
the texts that are not well formed; a value without error; a range error
with an infinity. -/
theorem ParseFloat_cases (convert : String → strconv.Converted) (s : String) :
    (strconv.ParseFloat convert s = (F64.zero, some NumError.malformed) ∧
      strconv.wellFormed s = false) ∨
    (∃ f, strconv.ParseFloat convert s = (f, none) ∧ strconv.wellFormed s = true) ∨
    (∃ b, strconv.ParseFloat convert s = (F64.inf b, some NumError.outOfRange) ∧
      strconv.wellFormed s = true) := by
  unfold strconv.ParseFloat strconv.wellFormed
  cases strconv.special s.data with
  | some v =>
    obtain ⟨f, rest⟩ := v
    cases rest with
    | nil => exact Or.inr (Or.inl ⟨f, rfl, rfl⟩)
    | cons c cs => exact Or.inl ⟨rfl, rfl⟩
  | none =>
    cases strconv.readFloat s.data with
    | none => exact Or.inl ⟨rfl, rfl⟩
    | some t =>
      obtain ⟨neg, hex, nd, dp, rest⟩ := t
      cases rest with
      | cons c cs => exact Or.inl ⟨rfl, rfl⟩
      | nil =>
        by_cases hcond : hex = false ∧ 0 < nd ∧ nd ≤ 800 ∧ 310 < dp
        · refine Or.inr (Or.inr ⟨neg, ?_, rfl⟩)
          simp only [List.isEmpty_nil, Bool.true_eq_false, if_false, if_pos hcond]
        · cases hc : convert s with
          | value f =>
            refine Or.inr (Or.inl ⟨f, ?_, rfl⟩)
            simp only [List.isEmpty_nil, Bool.true_eq_false, if_false, if_neg hcond, hc]
          | overflow =>
            refine Or.inr (Or.inr ⟨neg, ?_, rfl⟩)
            simp only [List.isEmpty_nil, Bool.true_eq_false, if_false, if_neg hcond, hc]

theorem ParseFloat_malformed_iff (convert : String → strconv.Converted) (s : String) :
    (strconv.ParseFloat convert s).2 = some NumError.malformed ↔ strconv.wellFormed s = false := by
  rcases ParseFloat_cases convert s with ⟨h, hw⟩ | ⟨f, h, hw⟩ | ⟨b, h, hw⟩ <;> rw [h, hw] <;> simp

/-- A text with a syntax error has the value `0`. -/
theorem ParseFloat_of_malformed (convert : String → strconv.Converted) (s : String)
    (h : (strconv.ParseFloat convert s).2 = some NumError.malformed) :
    (strconv.ParseFloat convert s).1 = F64.zero := by
  rcases ParseFloat_cases convert s with ⟨h1, _⟩ | ⟨f, h1, _⟩ | ⟨b, h1, _⟩
  · rw [h1]
  · rw [h1] at h; simp at h
  · rw [h1] at h; simp at h

/-- A text with a range error has an infinity as value. -/
theorem ParseFloat_of_outOfRange (convert : String → strconv.Converted) (s : String)
    (h : (strconv.ParseFloat convert s).2 = some NumError.outOfRange) :
    (strconv.ParseFloat convert s).1 = F64.inf false ∨
      (strconv.ParseFloat convert s).1 = F64.inf true := by
  rcases ParseFloat_cases convert s with ⟨h1, _⟩ | ⟨f, h1, _⟩ | ⟨b, h1, _⟩
  · rw [h1] at h; simp at h
  · rw [h1] at h; simp at h
  · rw [h1]
    cases b
    · exact Or.inl rfl
    · exact Or.inr rfl

/-- What `parseFloat64` returns for a piece, whatever the conversion. -/
theorem parseFloat64_lenient (convert : String → strconv.Converted) (p : String) :
    parseFloat64 (ParseFloatValue convert) p = (strconv.ParseFloat convert p).1 ∧
    ((strconv.ParseFloat convert p).2 = some NumError.malformed ↔
      strconv.wellFormed p = false) ∧
    ((strconv.ParseFloat convert p).2 = some NumError.malformed →
      parseFloat64 (ParseFloatValue convert) p = F64.zero) ∧
    ((strconv.ParseFloat convert p).2 = some NumError.outOfRange →
      parseFloat64 (ParseFloatValue convert) p = F64.inf false ∨
      parseFloat64 (ParseFloatValue convert) p = F64.inf true) :=
  ⟨rfl, ParseFloat_malformed_iff convert p, ParseFloat_of_malformed convert p,
    ParseFloat_of_outOfRange convert p⟩

theorem ParseFloat_1e999 (convert : String → strconv.Converted) :
    strconv.ParseFloat convert "1e999" = (F64.inf false, some NumError.outOfRange) := by
  have hs : strconv.special ("1e999" : String).data = none := by decide
  have hr : strconv.readFloat ("1e999" : String).data
      = some { neg := false, hex := false, nd := 1, dp := 1000, rest := [] } := by decide
  unfold strconv.ParseFloat
  rw [hs]
  simp only [hr]
  rfl

/-- C10 as stated fails for the fields that are out of range.  The line
`9223372036854775808,1,2,0.5,1.5,10,59999,0,3,0,0,0` has 12 fields, its first
field does not parse as an `int64` (range error), and the record returned
has `OpenTime = 9223372036854775807`, not `0`.  The line
`0,1e999,2,0.5,1.5,10,59999,0,3,0,0,0` has 12 fields, its second field does
not parse as a `float64` (range error), and the record returned has
`Open = +Inf`, which is not `0`. -/
theorem out_of_range_field_is_not_zero :
    (Split "9223372036854775808,1,2,0.5,1.5,10,59999,0,3,0,0,0").length = 12 ∧
    ((Split "9223372036854775808,1,2,0.5,1.5,10,59999,0,3,0,0,0").head?.map
        (fun piece => (ParseInt piece).2)) = some (some NumError.outOfRange) ∧
    (∀ pf : String → F64, ∃ kline,
      parseKline pf "9223372036854775808,1,2,0.5,1.5,10,59999,0,3,0,0,0" = Except.ok kline ∧
      kline.OpenTime = 9223372036854775807 ∧ kline.OpenTime ≠ 0) ∧
    (Split "0,1e999,2,0.5,1.5,10,59999,0,3,0,0,0").length = 12 ∧
    (∀ convert : String → strconv.Converted,
      (strconv.ParseFloat convert "1e999").2 = some NumError.outOfRange ∧
      ∃ kline,
        parseKline (ParseFloatValue convert) "0,1e999,2,0.5,1.5,10,59999,0,3,0,0,0"
          = Except.ok kline ∧
        kline.Open = F64.inf false ∧ F64.eq kline.Open F64.zero = false) := by
  refine ⟨by decide, by decide, ?_, by decide, ?_⟩
  · intro pf
    have hs : Split "9223372036854775808,1,2,0.5,1.5,10,59999,0,3,0,0,0"
        = ["9223372036854775808", "1", "2", "0.5", "1.5", "10", "59999", "0", "3", "0", "0", "0"] := by
      decide
    refine ⟨_, parseKline_of_pieces pf _ (by decide) hs, ?_, ?_⟩
    · show parseInt64 "9223372036854775808" = 9223372036854775807
      decide
    · show parseInt64 "9223372036854775808" ≠ 0
      decide
  · intro convert
    have hs : Split "0,1e999,2,0.5,1.5,10,59999,0,3,0,0,0"
        = ["0", "1e999", "2", "0.5", "1.5", "10", "59999", "0", "3", "0", "0", "0"] := by
      decide
    have hv : (strconv.ParseFloat convert "1e999").1 = F64.inf false := by
      rw [ParseFloat_1e999]
    refine ⟨by rw [ParseFloat_1e999], _, parseKline_of_pieces _ _ (by decide) hs, hv, ?_⟩
    show F64.eq (strconv.ParseFloat convert "1e999").1 F64.zero = false
    rw [hv]
    decide

/-- C10, amended: a line with 12 fields always gives a record.  An integer
field (open time, close time, trade count) is `0` when its text is not a
decimal integer, and `2^63 - 1` or `-2^63` when its text is a decimal integer
outside the `int64` range.  A `float64` field is the value that
`strconv.ParseFloat` returns: it is `0` when its text has a syntax error,
which is the case exactly when the text is not read to its end as a
floating-point text, and `+Inf` or `-Inf` when its text is out of range. -/
theorem parseKline_lenient_numbers (convert : String → strconv.Converted) (line : String)
    (h12 : (Split line).length = 12) :
    ∃ kline p0 p1 p2 p3 p4 p5 p6 p7 p8 p9 p10 p11,
      parseKline (ParseFloatValue convert) line = Except.ok kline ∧
      Split line = [p0, p1, p2, p3, p4, p5, p6, p7, p8, p9, p10, p11] ∧
      ((ParseInt p0).2 = some NumError.malformed → kline.OpenTime = 0) ∧
      ((ParseInt p0).2 = some NumError.outOfRange →
        kline.OpenTime = 2 ^ 63 - 1 ∨ kline.OpenTime = -(2 ^ 63)) ∧
      ((ParseInt p6).2 = some NumError.malformed → kline.CloseTime = 0) ∧
      ((ParseInt p6).2 = some NumError.outOfRange →
        kline.CloseTime = 2 ^ 63 - 1 ∨ kline.CloseTime = -(2 ^ 63)) ∧
      ((ParseInt p8).2 = some NumError.malformed → kline.NumOfTrades = 0) ∧
      ((ParseInt p8).2 = some NumError.outOfRange →
        kline.NumOfTrades = 2 ^ 63 - 1 ∨ kline.NumOfTrades = -(2 ^ 63)) ∧
      kline.OpenTime = (ParseInt p0).1 ∧ kline.CloseTime = (ParseInt p6).1 ∧
      kline.NumOfTrades = (ParseInt p8).1 ∧
      ∀ x ∈ [(p1, kline.Open), (p2, kline.High), (p3, kline.Low), (p4, kline.Close),
          (p5, kline.Volume), (p7, kline.QuoteAssetVolume), (p9, kline.TakerBuyBaseAssetVolume),
          (p10, kline.TakerBuyQuoteAssetVolume), (p11, kline.Ignore)],
        x.2 = (strconv.ParseFloat convert x.1).1 ∧
        ((strconv.ParseFloat convert x.1).2 = some NumError.malformed ↔
          strconv.wellFormed x.1 = false) ∧
        ((strconv.ParseFloat convert x.1).2 = some NumError.malformed → x.2 = F64.zero) ∧
        ((strconv.ParseFloat convert x.1).2 = some NumError.outOfRange →
          x.2 = F64.inf false ∨ x.2 = F64.inf true) := by
  obtain ⟨p0, p1, p2, p3, p4, p5, p6, p7, p8, p9, p10, p11, hs⟩ := exists_twelve_of_length h12
  have hne : line.length ≠ 0 := by
    intro h0
    rw [Split_length_of_empty line h0] at h12
    omega
  refine ⟨_, p0, p1, p2, p3, p4, p5, p6, p7, p8, p9, p10, p11,
    parseKline_of_pieces (ParseFloatValue convert) line hne hs, hs,
    parseInt64_of_malformed p0, parseInt64_of_outOfRange p0,
    parseInt64_of_malformed p6, parseInt64_of_outOfRange p6,
    parseInt64_of_malformed p8, parseInt64_of_outOfRange p8,
    rfl, rfl, rfl, ?_⟩
  intro x hx
  simp only [List.mem_cons, List.mem_singleton, List.not_mem_nil, or_false] at hx
  rcases hx with h | h | h | h | h | h | h | h | h <;> subst h <;>
    exact parseFloat64_lenient convert _

/-- C4 as stated fails at the edge of `int64`.  With `interval = 1`,
`startMin = 0` and `t = 2^63 - 1`, the close time computed on line 139 wraps
around and lies below `t`.  With `interval = 2^59 + 1` the product of line
76 wraps to `60000`, and for `t = 1483228860000` line 138 gives `t` itself
while the floor formula with `period_ms = interval * 60000` gives
`1483228800000`. -/
theorem bucket_boundary_overflow :
    ((1 : Int) ≤ 1 ∧ (0 : Int) ≤ 0 ∧ (0 : Int) < 1 ∧ IsInt64 (2 ^ 63 - 1) ∧
      (1483228800000 + 0 * 60000 : Int) ≤ 2 ^ 63 - 1 ∧
      bucketClose (intervalMs 1) (bucketOpen (intervalMs 1) (baseTs 0) (2 ^ 63 - 1))
        < 2 ^ 63 - 1) ∧
    ((1 : Int) ≤ 2 ^ 59 + 1 ∧ (0 : Int) ≤ 0 ∧ (0 : Int) < 2 ^ 59 + 1 ∧ IsInt64 1483228860000 ∧
      (1483228800000 + 0 * 60000 : Int) ≤ 1483228860000 ∧
      bucketOpen (intervalMs (2 ^ 59 + 1)) (baseTs 0) 1483228860000 = 1483228860000 ∧
      (1483228860000 - (1483228800000 + 0 * 60000)) / ((2 ^ 59 + 1) * 60000)
          * ((2 ^ 59 + 1) * 60000) + (1483228800000 + 0 * 60000) = (1483228800000 : Int)) := by
  decide

/-- C4, amended: for `interval ≥ 1`, `0 ≤ startMin < interval` and an
`int64` time `t ≥ base_ms` whose bucket close time
`floor((t - base_ms) / period_ms) * period_ms + base_ms + period_ms - 1` is at
most `2^63 - 1`, line 138 computes the floor formula; the bucket open time
minus `base_ms` is a multiple of `period_ms`, and
`bucket_open ≤ t ≤ bucket_close = bucket_open + period_ms - 1` for the close
time of line 139. -/
theorem bucket_boundary_floor (interval startMin t : Int) (hi : 1 ≤ interval)
    (hs0 : 0 ≤ startMin) (_hs1 : startMin < interval) (ht : IsInt64 t)
    (hbt : 1483228800000 + startMin * 60000 ≤ t)
    (hclose : (t - (1483228800000 + startMin * 60000)) / (interval * 60000) * (interval * 60000)
      + (1483228800000 + startMin * 60000) + interval * 60000 - 1 ≤ 2 ^ 63 - 1) :
    bucketOpen (intervalMs interval) (baseTs startMin) t
      = (t - (1483228800000 + startMin * 60000)) / (interval * 60000) * (interval * 60000)
        + (1483228800000 + startMin * 60000) ∧
    interval * 60000 ∣ bucketOpen (intervalMs interval) (baseTs startMin) t
      - (1483228800000 + startMin * 60000) ∧
    bucketOpen (intervalMs interval) (baseTs startMin) t ≤ t ∧
    t ≤ bucketClose (intervalMs interval) (bucketOpen (intervalMs interval) (baseTs startMin) t) ∧
    bucketClose (intervalMs interval) (bucketOpen (intervalMs interval) (baseTs startMin) t)
      = bucketOpen (intervalMs interval) (baseTs startMin) t + interval * 60000 - 1 := by
  have hp : 0 < interval * 60000 := by omega
  have hq : 0 ≤ (t - (1483228800000 + startMin * 60000)) / (interval * 60000) :=
    Int.ediv_nonneg (by omega) (Int.le_of_lt hp)
  have hqp := Int.mul_nonneg hq (Int.le_of_lt hp)
  have hle := Int.ediv_mul_le (t - (1483228800000 + startMin * 60000)) (Int.ne_of_gt hp)
  have hlt := Int.lt_ediv_add_one_mul_self (t - (1483228800000 + startMin * 60000)) hp
  rw [Int.add_mul, Int.one_mul] at hlt
  have hpm : intervalMs interval = interval * 60000 := by
    unfold intervalMs; exact wrap64_of_isInt64 (by unfold IsInt64; omega)
  have hbm : baseTs startMin = 1483228800000 + startMin * 60000 := by
    unfold baseTs
    rw [wrap64_of_isInt64 (show IsInt64 (startMin * 60000) by unfold IsInt64; omega)]
    exact wrap64_of_isInt64 (by unfold IsInt64; omega)
  have hopen := bucketOpen_eq_floor hp (show 0 ≤ 1483228800000 + startMin * 60000 by omega) ht hbt
  rw [hpm, hbm, hopen]
  have hcl : bucketClose (interval * 60000)
      ((t - (1483228800000 + startMin * 60000)) / (interval * 60000) * (interval * 60000)
        + (1483228800000 + startMin * 60000))
      = (t - (1483228800000 + startMin * 60000)) / (interval * 60000) * (interval * 60000)
        + (1483228800000 + startMin * 60000) + interval * 60000 - 1 := by
    unfold bucketClose wrap64
    omega
  refine ⟨rfl, ?_, by omega, ?_, hcl⟩
  · rw [Int.add_sub_cancel]
    exact Int.dvd_mul_left _ _
  · rw [hcl]; omega

/-- C4, amended, at `interval = 30`, `startMin = 7`, `t = 1483230000000`. -/
theorem bucket_boundary_floor_witness :
    bucketOpen (intervalMs 30) (baseTs 7) 1483230000000
      = (1483230000000 - (1483228800000 + 7 * 60000)) / (30 * 60000) * (30 * 60000)
        + (1483228800000 + 7 * 60000) ∧
    (30 : Int) * 60000 ∣ bucketOpen (intervalMs 30) (baseTs 7) 1483230000000
      - (1483228800000 + 7 * 60000) ∧
    bucketOpen (intervalMs 30) (baseTs 7) 1483230000000 ≤ 1483230000000 ∧
    1483230000000 ≤ bucketClose (intervalMs 30) (bucketOpen (intervalMs 30) (baseTs 7) 1483230000000) ∧
    bucketClose (intervalMs 30) (bucketOpen (intervalMs 30) (baseTs 7) 1483230000000)
      = bucketOpen (intervalMs 30) (baseTs 7) 1483230000000 + 30 * 60000 - 1 :=
  bucket_boundary_floor 30 7 1483230000000 (by decide) (by decide) (by decide) (by decide)
    (by decide) (by decide)

/-- C5 as stated fails when `open_time - base_ms` overflows: with
`interval = 30` and `startMin = 0`, the two records opened at `-2^63` and at
`1483228800000` arrive in non-decreasing order and are written with the open
times `9223372036854000000` and `1483228800000`, which decrease
(`overflowBars`). -/
theorem emitted_order_overflow :
    overflowBars.Pairwise (fun r1 r2 => r1.OpenTime ≤ r2.OpenTime) ∧
    (aggregate 30 0 overflowBars).written.map Kline.OpenTime
      = [9223372036854000000, 1483228800000] ∧
    ¬ (9223372036854000000 : Int) ≤ 1483228800000 := by
  decide

/-- C5, amended: when, for every record, `open_time` and
`open_time - base_ms` are `int64` values (the subtraction of line 138 does
not overflow), a stream in non-decreasing `open_time` order is written with
strictly increasing open times, and a record written counts all the records
of the stream that fall in its bucket; unless the interval in milliseconds
is zero (the pass then stops on the division of line 138), every record has
its bucket among the records written. -/
theorem emitted_strictly_increasing (interval startMin : Int) (records : List Kline)
    (hrange : ∀ r ∈ records, IsInt64 r.OpenTime ∧ IsInt64 (r.OpenTime - baseTs startMin))
    (hsorted : records.Pairwise (fun r1 r2 => r1.OpenTime ≤ r2.OpenTime)) :
    ((aggregate interval startMin records).written.map Kline.OpenTime).Pairwise (· < ·) ∧
    (∀ e ∈ (aggregate interval startMin records).written,
      e.numOfRecords = records.countP (fun r =>
        decide (bucketOpen (intervalMs interval) (baseTs startMin) r.OpenTime = e.OpenTime))) ∧
    (intervalMs interval ≠ 0 →
      ∀ r ∈ records, ∃ e ∈ (aggregate interval startMin records).written,
        e.OpenTime = bucketOpen (intervalMs interval) (baseTs startMin) r.OpenTime) := by
  by_cases hp : intervalMs interval = 0
  · rw [aggregate_written_zero interval startMin hp]
    exact ⟨by simp, by simp, fun h => absurd hp h⟩
  have hb : IsInt64 (baseTs startMin) := wrap64_isInt64 _
  have hmono : records.Pairwise (fun x y =>
      bucketOpen (intervalMs interval) (baseTs startMin) x.OpenTime
        ≤ bucketOpen (intervalMs interval) (baseTs startMin) y.OpenTime) := by
    refine List.Pairwise.imp_of_mem ?_ hsorted
    intro x y hx hy hxy
    exact bucketOpen_mono hp hb (hrange x hx).1 (hrange x hx).2 (hrange y hy).1 (hrange y hy).2 hxy
  have hstrict := bucketRuns_keys_strict (intervalMs interval) (baseTs startMin) records hmono
  have hlen := written_length interval startMin hp records
  refine ⟨?_, ?_, ?_⟩
  · rw [written_OpenTime_eq interval startMin hp, List.pairwise_map]
    exact hstrict
  · intro e he
    obtain ⟨i, hi⟩ := List.mem_iff_getElem?.1 he
    obtain ⟨run, hrun, hot, hnum⟩ := written_run_OpenTime hi
    have hmem := List.getElem?_mem hrun
    have hcount := countP_flatten_runs
      (fun r => bucketOpen (intervalMs interval) (baseTs startMin) r.OpenTime)
      (runKey (intervalMs interval) (baseTs startMin))
      (bucketRuns (intervalMs interval) (baseTs startMin) records)
      (fun g hg x hx => runKey_of_mem_run hg hx)
      (hstrict.imp (fun h => Int.ne_of_lt h)) run hmem
    rw [bucketRuns_join] at hcount
    rw [hnum, hot, hcount]
  · intro _ r hr
    rw [← bucketRuns_join (intervalMs interval) (baseTs startMin) records] at hr
    obtain ⟨g, hg, hrg⟩ := List.mem_flatten.1 hr
    obtain ⟨i, hi⟩ := List.mem_iff_getElem?.1 hg
    have hilt : i < (bucketRuns (intervalMs interval) (baseTs startMin) records).length := by
      by_contra hcon
      rw [List.getElem?_eq_none_iff.2 (by omega)] at hi
      cases hi
    have hw : (aggregate interval startMin records).written[i]?
        = some ((aggregate interval startMin records).written.get ⟨i, by omega⟩) := by
      rw [List.getElem?_eq_getElem (by omega)]; rfl
    obtain ⟨run, hrun, hot, _⟩ := written_run_OpenTime hw
    rw [hi] at hrun
    injection hrun with hrun
    refine ⟨_, List.getElem?_mem hw, ?_⟩
    rw [hot, ← hrun]
    exact (runKey_of_mem_run hg hrg).symm

/-- C6 as stated fails when `period_minutes * 60000` overflows: for
`interval = 253027839544382683` the product of line 76 wraps to `32`, and
the gap-free stream of the two records opened at `1483228800000` and
`1483228860000` (offset `0`) is written as two buckets, the first closing at
`1483228800031` and the second opening at `1483228860000`. -/
theorem contiguity_overflow :
    (1 : Int) ≤ 253027839544382683 ∧ (0 : Int) ≤ 0 ∧ (0 : Int) < 253027839544382683 ∧
    (∀ r ∈ twoBars, IsInt64 r.OpenTime) ∧
    (∀ r ∈ twoBars.head?, 1483228800000 + 0 * 60000 ≤ r.OpenTime) ∧
    twoBars.map Kline.OpenTime = [1483228800000, 1483228800000 + 60000] ∧
    (aggregate 253027839544382683 0 twoBars).written.map (fun k => (k.OpenTime, k.CloseTime))
      = [(1483228800000, 1483228800031), (1483228860000, 1483228860031)] ∧
    (1483228800031 + 1 : Int) ≠ 1483228860000 := by
  decide

/-- C6, amended: for `interval ≥ 1` with `interval * 60000 < 2^63`,
`0 ≤ startMin < interval`, and a stream of records with `int64` open times
that starts at or after `base_ms` and advances by exactly `60000` from one
record to the next, two consecutive records written satisfy
`close_time + 1 = open_time` of the next. -/
theorem contiguous_buckets (interval startMin : Int) (records : List Kline)
    (hi : 1 ≤ interval) (hfit : interval * 60000 < 2 ^ 63)
    (hs0 : 0 ≤ startMin) (hs1 : startMin < interval)
    (hint : ∀ r ∈ records, IsInt64 r.OpenTime)
    (hstart : ∀ r ∈ records.head?, 1483228800000 + startMin * 60000 ≤ r.OpenTime)
    (hgap : records.Chain' (fun x y => y.OpenTime = x.OpenTime + 60000))
    (i : Nat) (e1 e2 : Kline)
    (h1 : (aggregate interval startMin records).written[i]? = some e1)
    (h2 : (aggregate interval startMin records).written[i + 1]? = some e2) :
    e1.CloseTime + 1 = e2.OpenTime := by
  have hp : 0 < interval * 60000 := by omega
  have hpm : intervalMs interval = interval * 60000 := by
    unfold intervalMs; exact wrap64_of_isInt64 (by unfold IsInt64; omega)
  have hge := gapFree_ge _ records hstart hgap
  obtain ⟨first, rest, acc, hrun, he1, hacc⟩ := written_run interval startMin records i e1 h1
  obtain ⟨run2, hrun2, hot2, _⟩ := written_run_OpenTime h2
  have hfirst : first ∈ records :=
    mem_of_mem_bucketRuns (List.getElem?_mem hrun) (List.mem_cons_self _ _)
  have hfge := hge first hfirst
  have hfint := hint first hfirst
  have hbm : baseTs startMin = 1483228800000 + startMin * 60000 := by
    unfold baseTs
    rw [wrap64_of_isInt64 (show IsInt64 (startMin * 60000) by unfold IsInt64; omega)]
    unfold IsInt64 at hfint
    exact wrap64_of_isInt64 (by unfold IsInt64; omega)
  have hb0 : 0 ≤ baseTs startMin := by rw [hbm]; omega
  have hchain : records.Chain' (fun x y =>
      bucketOpen (intervalMs interval) (baseTs startMin) y.OpenTime
        = bucketOpen (intervalMs interval) (baseTs startMin) x.OpenTime ∨
      bucketOpen (intervalMs interval) (baseTs startMin) y.OpenTime
        = bucketOpen (intervalMs interval) (baseTs startMin) x.OpenTime + intervalMs interval) := by
    refine (List.Chain'.iff_mem.1 hgap).imp ?_
    rintro x y ⟨hx, hy, hxy⟩
    rw [hxy]
    have hxge := hge x hx
    have hyint := hint y hy
    rw [hxy] at hyint
    exact bucketOpen_step (by rw [hpm]; exact hp) (by rw [hpm]; omega) hb0
      (by rw [hbm]; exact hxge) (hint x hx) hyint
  have hkeys := bucketRuns_keys_step _ _ records hchain
  have hnext := chain_getElem _ hkeys i (first :: rest) run2 hrun hrun2
  have hopen1 : runKey (intervalMs interval) (baseTs startMin) (first :: rest)
      = bucketOpen (intervalMs interval) (baseTs startMin) first.OpenTime := rfl
  have hfloor := bucketOpen_eq_floor (show 0 < intervalMs interval by rw [hpm]; exact hp) hb0
    hfint (show baseTs startMin ≤ first.OpenTime by rw [hbm]; exact hfge)
  have hq : 0 ≤ (first.OpenTime - baseTs startMin) / intervalMs interval * intervalMs interval :=
    Int.mul_nonneg (Int.ediv_nonneg (by rw [hbm]; omega) (by rw [hpm]; omega))
      (by rw [hpm]; omega)
  have hpos : bucketOpen (intervalMs interval) (baseTs startMin) first.OpenTime ≠ 0 := by
    rw [hfloor, hbm] at *; omega
  have hacc2 : acc = freshBucket (intervalMs interval) (baseTs startMin) first.OpenTime := by
    rcases hacc with h | ⟨_, h0, _⟩
    · exact h
    · exact absurd h0 hpos
  have hclose : e1.CloseTime = bucketClose (intervalMs interval)
      (bucketOpen (intervalMs interval) (baseTs startMin) first.OpenTime) := by
    rw [he1, mergeRun_CloseTime, hacc2]; rfl
  have h2int : IsInt64 e2.OpenTime := by
    rw [hot2]; exact wrap64_isInt64 _
  have h1int : IsInt64 (bucketOpen (intervalMs interval) (baseTs startMin) first.OpenTime) :=
    wrap64_isInt64 _
  rw [hclose, hot2, hnext, hopen1]
  rw [hot2, hnext, hopen1] at h2int
  unfold IsInt64 at h2int h1int
  unfold bucketClose wrap64
  omega

/-- C5, amended, on `sampleBars`. -/
theorem emitted_strictly_increasing_witness :
    (∀ r ∈ sampleBars, IsInt64 r.OpenTime ∧ IsInt64 (r.OpenTime - baseTs 0)) ∧
    sampleBars.Pairwise (fun r1 r2 => r1.OpenTime ≤ r2.OpenTime) ∧
    ((aggregate 2 0 sampleBars).written.map Kline.OpenTime).Pairwise (· < ·) ∧
    (∀ r ∈ sampleBars, ∃ e ∈ (aggregate 2 0 sampleBars).written,
      e.OpenTime = bucketOpen (intervalMs 2) (baseTs 0) r.OpenTime) :=
  ⟨by decide, by decide,
    (emitted_strictly_increasing 2 0 sampleBars (by decide) (by decide)).1,
    (emitted_strictly_increasing 2 0 sampleBars (by decide) (by decide)).2.2 (by decide)⟩

/-- C6, amended, on `sampleBars`. -/
theorem contiguous_buckets_witness :
    (aggregate 2 0 sampleBars).written[0]? = some sampleFirstBucket ∧
    (aggregate 2 0 sampleBars).written[0 + 1]? = some sampleSecondBucket ∧
    sampleFirstBucket.CloseTime + 1 = sampleSecondBucket.OpenTime :=
  ⟨by decide, by decide,
    contiguous_buckets 2 0 sampleBars (by decide) (by decide) (by decide) (by decide)
      (by decide) (by decide) (by simp [sampleBars, barAtZero]) 0 sampleFirstBucket
      sampleSecondBucket (by decide) (by decide)⟩

/-- C7 on an accumulator without records, on a pass over one blank line and
one bar, and on a pass over two lines that do not parse. -/
theorem no_empty_emission_witness :
    saveKline Kline.empty [sampleFirstBucket] = [sampleFirstBucket] ∧
    (∃ run, (bucketRuns (intervalMs 30) (baseTs 0)
        (validRecords (fun _ => F64.zero) ["", "1483228800000,1,2,0.5,1.5,10,1483228859999,0,3,0,0,0"]))[0]?
          = some run ∧
      ((composePass (fun _ => F64.zero) 30 0
        ["", "1483228800000,1,2,0.5,1.5,10,1483228859999,0,3,0,0,0"]).written.getD 0 Kline.empty
        ).numOfRecords = run.length ∧
      0 < ((composePass (fun _ => F64.zero) 30 0
        ["", "1483228800000,1,2,0.5,1.5,10,1483228859999,0,3,0,0,0"]).written.getD 0 Kline.empty
        ).numOfRecords) ∧
    (composePass (fun _ => F64.zero) 30 0 ["", "1,2,3"]).written = [] :=
  ⟨no_empty_emission.1 Kline.empty [sampleFirstBucket] rfl,
    no_empty_emission.2.1 (fun _ => F64.zero) 30 0
      ["", "1483228800000,1,2,0.5,1.5,10,1483228859999,0,3,0,0,0"] 0 _ (by decide),
    no_empty_emission.2.2 (fun _ => F64.zero) 30 0 ["", "1,2,3"] (by
      intro text ht
      rcases List.mem_cons.1 ht with h | h
      · exact ⟨ParseError.emptyLine, by rw [h]; rfl⟩
      · have h2 : text = "1,2,3" := by simpa using h
        exact ⟨ParseError.wrongFields, by rw [h2]; rfl⟩)⟩

/-- C8 on the line `1,2,3`. -/
theorem parseKline_field_count_witness :
    ("1,2,3" : String).length ≠ 0 ∧
    (parseKline (fun _ => F64.zero) "1,2,3" = Except.error ParseError.wrongFields ↔
      (Split "1,2,3").length ≠ 12) :=
  ⟨by decide, (parseKline_field_count (fun _ => F64.zero) "1,2,3" (by decide)).1⟩

/-- C9 on a line of two spaces and a tab. -/
theorem blank_line_is_empty_line_error_witness :
    (TrimSpace "  \t").length = 0 ∧
    parseScanned (fun _ => F64.zero) "  \t" = Except.error ParseError.emptyLine :=
  ⟨blank_line_is_empty_line_error.2 "  \t" (by decide),
    blank_line_is_empty_line_error.1 (fun _ => F64.zero) "  \t" (by decide)⟩

/-- C10, amended, on a line whose open time and whose open are not numbers:
both fields are `0` in the record. -/
theorem parseKline_lenient_numbers_witness :
    (Split "x,1.5.2,2,0.5,1.5,10,59999,0,3,0,0,0").length = 12 ∧
    (ParseInt "x").2 = some NumError.malformed ∧
    strconv.wellFormed "1.5.2" = false ∧
    ∃ kline,
      parseKline (ParseFloatValue (fun _ => strconv.Converted.value F64.zero))
        "x,1.5.2,2,0.5,1.5,10,59999,0,3,0,0,0" = Except.ok kline ∧
      kline.OpenTime = 0 ∧ kline.Open = F64.zero :=
  ⟨by decide, by decide, by decide,
    match parseKline_lenient_numbers (fun _ => strconv.Converted.value F64.zero)
      "x,1.5.2,2,0.5,1.5,10,59999,0,3,0,0,0" (by decide) with
    | ⟨kline, p0, p1, _, _, _, _, _, _, _, _, _, _, hk, hs, h0, _, _, _, _, _, _, _, _, hf⟩ =>
      have hp : p0 = "x" ∧ p1 = "1.5.2" := by
        have hd : Split "x,1.5.2,2,0.5,1.5,10,59999,0,3,0,0,0"
            = ["x", "1.5.2", "2", "0.5", "1.5", "10", "59999", "0", "3", "0", "0", "0"] := by
          decide
        rw [hd] at hs
        injection hs with h0 hs
        injection hs with h1 hs
        exact ⟨h0.symm, h1.symm⟩
      ⟨kline, hk, h0 (by rw [hp.1]; decide),
        (hf (p1, kline.Open) (List.mem_cons_self _ _)).2.2.1
          (((hf (p1, kline.Open) (List.mem_cons_self _ _)).2.1).2
            (by show strconv.wellFormed p1 = false; rw [hp.2]; decide))⟩⟩

/-! ## Lemmas: rejected lines -/

theorem splitComma_length (l : List Char) : (splitComma l).length = l.count ',' + 1 := by
  induction l with
  | nil => rfl
  | cons c cs ih =>
    by_cases hc : c = ','
    · subst hc
      simp [splitComma, ih]
    · have hcount : (c :: cs).count ',' = cs.count ',' := by
        rw [List.count_cons]
        have : (c == ',') = false := by simpa using hc
        simp [this]
      rw [hcount, ← ih]
      cases hs : splitComma cs with
      | nil => rw [hs] at ih; simp at ih
      | cons p ps =>
        have hstep : splitComma (c :: cs) = (c :: p) :: ps := by
          simp only [splitComma, if_neg hc, hs]
        rw [hstep]
        rfl

theorem count_comma_dropWhile_isSpace (l : List Char) :
    (l.dropWhile isSpace).count ',' = l.count ',' := by
  induction l with
  | nil => rfl
  | cons c cs ih =>
    by_cases hs : isSpace c = true
    · have hc : (c == ',') = false := by
        cases hcc : (c == ',') with
        | false => rfl
        | true =>
          have : c = ',' := by simpa using hcc
          rw [this] at hs
          exact absurd hs (by decide)
      rw [List.dropWhile_cons_of_pos hs, ih, List.count_cons, hc]
      simp
    · rw [List.dropWhile_cons_of_neg hs]

theorem Split_length_TrimSpace (line : String) :
    (Split (TrimSpace line)).length = (Split line).length := by
  simp only [Split, TrimSpace, List.length_map, splitComma_length, List.count_reverse,
    count_comma_dropWhile_isSpace]

theorem parseKline_ok_iff (pf : String → F64) (line : String) :
    (∃ kline, parseKline pf line = Except.ok kline) ↔ (Split line).length = 12 := by
  constructor
  · rintro ⟨kline, hk⟩
    by_contra hlen
    by_cases h0 : line.length = 0
    · unfold parseKline at hk
      rw [if_pos h0] at hk
      cases hk
    · rw [parseKline_wrong_fields pf line h0 hlen] at hk
      cases hk
  · intro hlen
    have hne : line.length ≠ 0 := by
      intro h0
      rw [Split_length_of_empty line h0] at hlen
      omega
    obtain ⟨p0, p1, p2, p3, p4, p5, p6, p7, p8, p9, p10, p11, hs⟩ := exists_twelve_of_length hlen
    exact ⟨_, parseKline_of_pieces pf line hne hs⟩

/-- A line that `parseKline` rejects is also rejected once trimmed. -/
theorem parseScanned_error_of_parseKline_error (pf : String → F64) (line : String)
    (h : ∃ err, parseKline pf line = Except.error err) :
    ∃ err, parseScanned pf line = Except.error err := by
  unfold parseScanned
  cases hp : parseKline pf (TrimSpace line) with
  | error err => exact ⟨err, rfl⟩
  | ok kline =>
    have h12 := (parseKline_ok_iff pf (TrimSpace line)).1 ⟨kline, hp⟩
    rw [Split_length_TrimSpace] at h12
    obtain ⟨k2, hk2⟩ := (parseKline_ok_iff pf line).2 h12
    obtain ⟨err, herr⟩ := h
    rw [hk2] at herr
    cases herr

theorem validRecords_insert (pf : String → F64) (before after : List String) (bad : String)
    (hshort : bad.utf8ByteSize < maxScanTokenSize)
    (h : ∃ err, parseScanned pf bad = Except.error err) :
    validRecords pf (before ++ bad :: after) = validRecords pf (before ++ after) := by
  obtain ⟨err, herr⟩ := h
  have hbad : ¬ maxScanTokenSize ≤ bad.utf8ByteSize := by omega
  induction before with
  | nil =>
    simp only [List.nil_append, validRecords, scanTokens_cons_short bad after hbad,
      List.filterMap_cons, parseScanned_dropCR, herr]
  | cons x xs ih =>
    by_cases hx : maxScanTokenSize ≤ x.utf8ByteSize
    · simp only [List.cons_append, validRecords, scanTokens_cons_long x _ hx]
    · unfold validRecords at ih
      simp only [List.cons_append, validRecords, scanTokens_cons_short x _ hx,
        List.filterMap_cons, ih]

/-- The lines after a line of `maxScanTokenSize` bytes or more are not read. -/
theorem validRecords_append_long (pf : String → F64) (before after : List String) (long : String)
    (hlong : maxScanTokenSize ≤ long.utf8ByteSize) :
    validRecords pf (before ++ long :: after) = validRecords pf before := by
  induction before with
  | nil =>
    simp only [List.nil_append, validRecords, scanTokens_cons_long long after hlong]
    rfl
  | cons x xs ih =>
    by_cases hx : maxScanTokenSize ≤ x.utf8ByteSize
    · simp only [List.cons_append, validRecords, scanTokens_cons_long x _ hx]
    · unfold validRecords at ih
      simp only [List.cons_append, validRecords, scanTokens_cons_short x _ hx,
        List.filterMap_cons, ih]

theorem utf8ByteSize_replicate_space (n : Nat) :
    (String.mk (List.replicate n ' ')).utf8ByteSize = n := by
  show String.utf8ByteSize.go (List.replicate n ' ') = n
  induction n with
  | zero => rfl
  | succ k ih =>
    rw [List.replicate_succ, String.utf8ByteSize.go, ih]
    rfl

theorem TrimSpace_replicate_space (n : Nat) :
    TrimSpace (String.mk (List.replicate n ' ')) = "" := by
  have hd : (List.replicate n ' ').dropWhile isSpace = [] := by
    rw [List.dropWhile_eq_nil_iff]
    intro c hc
    rw [(List.mem_replicate.1 hc).2]
    decide
  unfold TrimSpace
  simp only [hd]
  rfl

theorem overlongLine_long : maxScanTokenSize ≤ overlongLine.utf8ByteSize := by
  unfold overlongLine
  rw [utf8ByteSize_replicate_space]
  decide

theorem parseScanned_overlongLine (pf : String → F64) :
    parseScanned pf overlongLine = Except.error ParseError.emptyLine := by
  unfold parseScanned overlongLine
  rw [TrimSpace_replicate_space]
  rfl

/-- C11 as stated fails for a line that the scanner cannot hold: with
`interval = 1`, a line of 70000 spaces between two bars is a line that
`parseKline` rejects, as scanned and once trimmed, yet the pass over the
three lines writes one record, the pass over the two bars writes two. -/
theorem overlong_line_stops_the_pass :
    (∀ pf : String → F64, parseKline pf overlongLine = Except.error ParseError.wrongFields) ∧
    (∀ pf : String → F64, parseScanned pf overlongLine = Except.error ParseError.emptyLine) ∧
    (composePass (fun _ => F64.zero) 1 0
      ["1483228800000,1,2,0.5,1.5,10,1483228859999,0,3,0,0,0", overlongLine,
        "1483228860000,1,2,0.5,1.5,10,1483228919999,0,3,0,0,0"]).written.map Kline.OpenTime
      = [1483228800000] ∧
    (composePass (fun _ => F64.zero) 1 0
      ["1483228800000,1,2,0.5,1.5,10,1483228859999,0,3,0,0,0",
        "1483228860000,1,2,0.5,1.5,10,1483228919999,0,3,0,0,0"]).written.map Kline.OpenTime
      = [1483228800000, 1483228860000] := by
  refine ⟨?_, parseScanned_overlongLine, ?_, by decide⟩
  · intro pf
    have hne : overlongLine.length ≠ 0 := by
      show (List.replicate 70000 ' ').length ≠ 0
      rw [List.length_replicate]
      decide
    refine parseKline_wrong_fields pf overlongLine hne ?_
    have hcount : (List.replicate 70000 ' ').count ',' = 0 := by
      rw [List.count_eq_zero]
      intro hc
      exact absurd (List.mem_replicate.1 hc).2 (by decide)
    show ((splitComma (List.replicate 70000 ' ')).map String.mk).length ≠ 12
    rw [List.length_map, splitComma_length, hcount]
    decide
  · have hlist : ["1483228800000,1,2,0.5,1.5,10,1483228859999,0,3,0,0,0", overlongLine,
          "1483228860000,1,2,0.5,1.5,10,1483228919999,0,3,0,0,0"]
        = ["1483228800000,1,2,0.5,1.5,10,1483228859999,0,3,0,0,0"]
          ++ overlongLine :: ["1483228860000,1,2,0.5,1.5,10,1483228919999,0,3,0,0,0"] := rfl
    rw [composePass_eq_aggregate, hlist,
      validRecords_append_long (fun _ => F64.zero) _ _ overlongLine overlongLine_long]
    decide

/-- C11, amended: a line shorter than 65536 bytes that `parseKline` rejects,
as scanned or once trimmed, inserted anywhere in the input, changes nothing:
the pass over the input with the line ends the same way and writes the same
records as the pass over the input without it; a line with 11 fields and a
blank line are lines that `parseKline` rejects. -/
theorem rejected_line_is_skipped :
    (∀ (pf : String → F64) (interval startMin : Int) (before after : List String) (bad : String),
      bad.utf8ByteSize < maxScanTokenSize →
      ((∃ err, parseKline pf bad = Except.error err) ∨
        (∃ err, parseScanned pf bad = Except.error err)) →
      composePass pf interval startMin (before ++ bad :: after)
        = composePass pf interval startMin (before ++ after)) ∧
    (∀ (pf : String → F64) (bad : String), (Split bad).length = 11 →
      parseScanned pf bad = Except.error ParseError.emptyLine ∨
      parseScanned pf bad = Except.error ParseError.wrongFields) ∧
    (∀ pf : String → F64, parseScanned pf "" = Except.error ParseError.emptyLine) := by
  refine ⟨?_, ?_, ?_⟩
  · intro pf interval startMin before after bad hshort h
    have hs : ∃ err, parseScanned pf bad = Except.error err := by
      rcases h with h | h
      · exact parseScanned_error_of_parseKline_error pf bad h
      · exact h
    rw [composePass_eq_aggregate, composePass_eq_aggregate,
      validRecords_insert pf before after bad hshort hs]
  · intro pf bad h11
    unfold parseScanned
    by_cases h0 : (TrimSpace bad).length = 0
    · left
      unfold parseKline
      rw [if_pos h0]
    · right
      exact parseKline_wrong_fields pf _ h0 (by rw [Split_length_TrimSpace, h11]; decide)
  · intro pf
    rfl

/-- C11, amended, on a pass with a line of 11 fields between two bars. -/
theorem rejected_line_is_skipped_witness :
    ("1,2,3,4,5,6,7,8,9,10,11" : String).utf8ByteSize < maxScanTokenSize ∧
    composePass (fun _ => F64.zero) 30 0
      ["1483228800000,1,2,0.5,1.5,10,1483228859999,0,3,0,0,0", "1,2,3,4,5,6,7,8,9,10,11",
        "1483228860000,1,2,0.5,1.5,10,1483228919999,0,3,0,0,0"]
      = composePass (fun _ => F64.zero) 30 0
      ["1483228800000,1,2,0.5,1.5,10,1483228859999,0,3,0,0,0",
        "1483228860000,1,2,0.5,1.5,10,1483228919999,0,3,0,0,0"] ∧
    (parseScanned (fun _ => F64.zero) "1,2,3,4,5,6,7,8,9,10,11"
        = Except.error ParseError.emptyLine ∨
      parseScanned (fun _ => F64.zero) "1,2,3,4,5,6,7,8,9,10,11"
        = Except.error ParseError.wrongFields) :=
  ⟨by decide,
    rejected_line_is_skipped.1 (fun _ => F64.zero) 30 0
      ["1483228800000,1,2,0.5,1.5,10,1483228859999,0,3,0,0,0"]
      ["1483228860000,1,2,0.5,1.5,10,1483228919999,0,3,0,0,0"] "1,2,3,4,5,6,7,8,9,10,11"
      (by decide) (Or.inl ⟨ParseError.wrongFields, rfl⟩),
    rejected_line_is_skipped.2.1 (fun _ => F64.zero) "1,2,3,4,5,6,7,8,9,10,11" (by decide)⟩

/-! ## Lemmas: the phase offset -/

theorem baseTs_zero : baseTs 0 = 1483228800000 := by decide

theorem wrap64_shift_arg (t y : Int) :
    wrap64 (t - wrap64 (1483228800000 + wrap64 y))
      = wrap64 (wrap64 (t - wrap64 y) - 1483228800000) := by
  unfold wrap64; omega

theorem wrap64_shift_result (x y : Int) :
    wrap64 (x + wrap64 (1483228800000 + wrap64 y))
      = wrap64 (wrap64 (x + 1483228800000) + wrap64 y) := by
  unfold wrap64; omega

/-- The bucket open time for the offset `startMin`, from the one for the
offset `0`, in `int64` arithmetic. -/
theorem bucketOpen_shift (p startMin t : Int) :
    bucketOpen p (baseTs startMin) t
      = wrap64 (bucketOpen p (baseTs 0) (wrap64 (t - wrap64 (startMin * 60000)))
          + wrap64 (startMin * 60000)) := by
  rw [baseTs_zero]
  unfold bucketOpen baseTs
  rw [wrap64_shift_arg, wrap64_shift_result]

theorem bucketClose_shift (p o1 o2 y : Int) (h : o1 = wrap64 (o2 + wrap64 y)) :
    bucketClose p o1 = wrap64 (bucketClose p o2 + wrap64 y) := by
  rw [h]
  unfold bucketClose wrap64; omega

/-- C12: the phase offset shifts the bucket edges by `offset * 60000`.  In
`int64` arithmetic, for every interval, offset and time, the bucket open
(close) time for the offset `startMin` at `t` is the bucket open (close) time
for the offset `0` at `t - startMin * 60000`, plus `startMin * 60000`; and
whenever `t - startMin * 60000` and the shifted result are `int64` values,
the same holds with exact subtraction and addition. -/
theorem offset_shifts_bucket_edges (interval startMin t : Int) :
    bucketOpen (intervalMs interval) (baseTs startMin) t
      = wrap64 (bucketOpen (intervalMs interval) (baseTs 0)
          (wrap64 (t - wrap64 (startMin * 60000))) + wrap64 (startMin * 60000)) ∧
    bucketClose (intervalMs interval) (bucketOpen (intervalMs interval) (baseTs startMin) t)
      = wrap64 (bucketClose (intervalMs interval) (bucketOpen (intervalMs interval) (baseTs 0)
          (wrap64 (t - wrap64 (startMin * 60000)))) + wrap64 (startMin * 60000)) ∧
    (IsInt64 (t - startMin * 60000) →
      IsInt64 (bucketOpen (intervalMs interval) (baseTs 0) (t - startMin * 60000)
        + startMin * 60000) →
      bucketOpen (intervalMs interval) (baseTs startMin) t
        = bucketOpen (intervalMs interval) (baseTs 0) (t - startMin * 60000)
          + startMin * 60000) ∧
    (IsInt64 (t - startMin * 60000) →
      IsInt64 (bucketClose (intervalMs interval)
        (bucketOpen (intervalMs interval) (baseTs 0) (t - startMin * 60000))
        + startMin * 60000) →
      bucketClose (intervalMs interval) (bucketOpen (intervalMs interval) (baseTs startMin) t)
        = bucketClose (intervalMs interval)
            (bucketOpen (intervalMs interval) (baseTs 0) (t - startMin * 60000))
          + startMin * 60000) := by
  have hopen := bucketOpen_shift (intervalMs interval) startMin t
  have hclose := bucketClose_shift (intervalMs interval) _ _ (startMin * 60000) hopen
  have harg : IsInt64 (t - startMin * 60000) →
      wrap64 (t - wrap64 (startMin * 60000)) = t - startMin * 60000 := by
    intro h
    unfold IsInt64 at h
    unfold wrap64; omega
  have hres : ∀ o : Int, IsInt64 (o + startMin * 60000) →
      wrap64 (o + wrap64 (startMin * 60000)) = o + startMin * 60000 := by
    intro o h
    unfold IsInt64 at h
    unfold wrap64; omega
  refine ⟨hopen, hclose, ?_, ?_⟩
  · intro h1 h2
    rw [hopen, harg h1, hres _ h2]
  · intro h1 h2
    rw [hclose, harg h1, hres _ h2]

/-- C12 at `interval = 30`, `startMin = 7`, `t = 1483230000000`. -/
theorem offset_shifts_bucket_edges_witness :
    bucketOpen (intervalMs 30) (baseTs 7) 1483230000000
      = bucketOpen (intervalMs 30) (baseTs 0) (1483230000000 - 7 * 60000) + 7 * 60000 ∧
    bucketClose (intervalMs 30) (bucketOpen (intervalMs 30) (baseTs 7) 1483230000000)
      = bucketClose (intervalMs 30)
          (bucketOpen (intervalMs 30) (baseTs 0) (1483230000000 - 7 * 60000)) + 7 * 60000 :=
  ⟨(offset_shifts_bucket_edges 30 7 1483230000000).2.2.1 (by decide) (by decide),
    (offset_shifts_bucket_edges 30 7 1483230000000).2.2.2 (by decide) (by decide)⟩

/-! ## Lemmas: the count of records -/

theorem aggregateLoop_panicked (p b : Int) (hp : p ≠ 0) (l : List Kline) (st : LoopState) :
    (aggregateLoop p b l st).panicked = false := by
  induction l generalizing st with
  | nil => rfl
  | cons k ks ih =>
    simp only [aggregateLoop, if_neg hp]
    exact ih _

theorem written_numOfRecords_eq (interval startMin : Int) (hp : intervalMs interval ≠ 0)
    (l : List Kline) :
    (aggregate interval startMin l).written.map Kline.numOfRecords
      = (bucketRuns (intervalMs interval) (baseTs startMin) l).map List.length := by
  apply List.ext_getElem?
  intro i
  rw [List.getElem?_map, List.getElem?_map]
  cases hw : (aggregate interval startMin l).written[i]? with
  | none =>
    have hlen := written_length interval startMin hp l
    have h1 := List.getElem?_eq_none_iff.1 hw
    have h2 : (bucketRuns (intervalMs interval) (baseTs startMin) l)[i]? = none :=
      List.getElem?_eq_none_iff.2 (by omega)
    rw [h2]; rfl
  | some e =>
    obtain ⟨run, hrun, _, hnum⟩ := written_run_OpenTime hw
    rw [hrun]
    simp [hnum]

/-- When every line is shorter than the buffer of the scanner, the lines
read are all the lines of the input. -/
theorem validRecords_eq_acceptedRecords (pf : String → F64) (lines : List String)
    (hshort : ∀ line ∈ lines, line.utf8ByteSize < maxScanTokenSize) :
    validRecords pf lines = acceptedRecords pf lines := by
  have htake : lines.takeWhile (fun line => decide (line.utf8ByteSize < maxScanTokenSize))
      = lines := by
    rw [List.takeWhile_eq_self_iff]
    intro line hline
    exact decide_eq_true (hshort line hline)
  unfold validRecords acceptedRecords scanTokens
  rw [htake]

/-- C15 as stated fails for an input with a line that the scanner cannot
hold: the pass over a line of 70000 spaces followed by a bar runs to its end
and writes nothing, while `parseKline` accepts one line of the input. -/
theorem records_after_overlong_line_are_lost :
    (composePass (fun _ => F64.zero) 30 0
      [overlongLine, "1483228800000,1,2,0.5,1.5,10,1483228859999,0,3,0,0,0"]).panicked = false ∧
    ((composePass (fun _ => F64.zero) 30 0
      [overlongLine, "1483228800000,1,2,0.5,1.5,10,1483228859999,0,3,0,0,0"]).written.map
        Kline.numOfRecords).sum = 0 ∧
    (acceptedRecords (fun _ => F64.zero)
      [overlongLine, "1483228800000,1,2,0.5,1.5,10,1483228859999,0,3,0,0,0"]).length = 1 := by
  have hpass : composePass (fun _ => F64.zero) 30 0
      [overlongLine, "1483228800000,1,2,0.5,1.5,10,1483228859999,0,3,0,0,0"]
      = { written := [], panicked := false } := by
    have hv := validRecords_append_long (fun _ => F64.zero) []
      ["1483228800000,1,2,0.5,1.5,10,1483228859999,0,3,0,0,0"] overlongLine overlongLine_long
    rw [List.nil_append] at hv
    rw [composePass_eq_aggregate, hv]
    rfl
  refine ⟨by rw [hpass], by rw [hpass]; rfl, ?_⟩
  unfold acceptedRecords
  rw [List.map_cons, List.filterMap_cons, parseScanned_dropCR, parseScanned_overlongLine]
  decide

/-- C15, amended: unless the interval in milliseconds is zero the pass runs
to its end (the final `saveKline` included), and when the pass runs to its
end the counts of contributing records of the records written add up to the
number of lines read that `parseKline` accepts; the lines read are those
before the first line of 65536 bytes or more, so that for an input whose
lines are all shorter the sum is the number of lines of the input that
`parseKline` accepts. -/
theorem no_record_lost (pf : String → F64) (interval startMin : Int) (lines : List String) :
    (intervalMs interval ≠ 0 → (composePass pf interval startMin lines).panicked = false) ∧
    ((composePass pf interval startMin lines).panicked = false →
      ((composePass pf interval startMin lines).written.map Kline.numOfRecords).sum
        = (validRecords pf lines).length) ∧
    ((∀ line ∈ lines, line.utf8ByteSize < maxScanTokenSize) →
      (composePass pf interval startMin lines).panicked = false →
      ((composePass pf interval startMin lines).written.map Kline.numOfRecords).sum
        = (acceptedRecords pf lines).length) := by
  have hsum : (composePass pf interval startMin lines).panicked = false →
      ((composePass pf interval startMin lines).written.map Kline.numOfRecords).sum
        = (validRecords pf lines).length := by
    rw [composePass_eq_aggregate]
    intro hrun
    by_cases hp : intervalMs interval = 0
    · cases hv : validRecords pf lines with
      | nil => rfl
      | cons k ks =>
        rw [hv] at hrun
        simp [aggregate, aggregateLoop, hp] at hrun
    · rw [written_numOfRecords_eq interval startMin hp, ← List.length_flatten, bucketRuns_join]
  refine ⟨?_, hsum, ?_⟩
  · intro hp
    rw [composePass_eq_aggregate]
    exact aggregateLoop_panicked _ _ hp _ _
  · intro hshort hrun
    rw [hsum hrun, validRecords_eq_acceptedRecords pf lines hshort]

/-- C15, amended, on a pass over a bar, a blank line, a line of three fields
and two more bars, with `interval = 2`. -/
theorem no_record_lost_witness :
    intervalMs 2 ≠ 0 ∧
    (∀ line ∈ ["1483228800000,1,2,0.5,1.5,10,1483228859999,0,3,0,0,0", "", "1,2,3",
        "1483228860000,1,2,0.5,1.5,10,1483228919999,0,3,0,0,0",
        "1483228920000,1,2,0.5,1.5,10,1483228979999,0,3,0,0,0"],
      line.utf8ByteSize < maxScanTokenSize) ∧
    ((composePass (fun _ => F64.zero) 2 0
      ["1483228800000,1,2,0.5,1.5,10,1483228859999,0,3,0,0,0", "", "1,2,3",
        "1483228860000,1,2,0.5,1.5,10,1483228919999,0,3,0,0,0",
        "1483228920000,1,2,0.5,1.5,10,1483228979999,0,3,0,0,0"]).written.map
        Kline.numOfRecords).sum
      = (acceptedRecords (fun _ => F64.zero)
      ["1483228800000,1,2,0.5,1.5,10,1483228859999,0,3,0,0,0", "", "1,2,3",
        "1483228860000,1,2,0.5,1.5,10,1483228919999,0,3,0,0,0",
        "1483228920000,1,2,0.5,1.5,10,1483228979999,0,3,0,0,0"]).length :=
  ⟨by decide, by decide,
    (no_record_lost (fun _ => F64.zero) 2 0 _).2.2 (by decide)
      ((no_record_lost (fun _ => F64.zero) 2 0 _).1 (by decide))⟩

/-! ## Lemmas: well-formed bars -/

theorem F64.le_trans {x y z : F64} (h1 : F64.le x y = true) (h2 : F64.le y z = true) :
    F64.le x z = true := by
  simp only [F64.le, Bool.and_eq_true, Bool.not_eq_true', decide_eq_true_eq] at h1 h2 ⊢
  exact ⟨⟨h1.1.1, h2.1.2⟩, Int.le_trans h1.2 h2.2⟩

theorem F64.not_isNaN_of_le {x y : F64} (h : F64.le x y = true) :
    x.isNaN = false ∧ y.isNaN = false := by
  simp only [F64.le, Bool.and_eq_true, Bool.not_eq_true', decide_eq_true_eq] at h
  exact ⟨h.1.1, h.1.2⟩

/-- The merge of a run of well-formed bars, started from an accumulator
without records, is well formed. -/
theorem mergeRun_ohlcOrdered (acc first : Kline) (rest : List Kline) (hn : acc.numOfRecords = 0)
    (hwf : ∀ r ∈ first :: rest, ohlcOrdered r) : ohlcOrdered (mergeRun acc (first :: rest)) := by
  have hH := mergeRun_High acc first rest hn
  have hL := mergeRun_Low acc first rest hn
  have hC := (mergeRun_Close (first :: rest) acc (List.cons_ne_nil first rest)).1
  have hO := mergeRun_Open acc first rest hn
  obtain ⟨mh, hmh, hmhe⟩ := List.mem_map.1 hH.1
  obtain ⟨ml, hml, hmle⟩ := List.mem_map.1 hL.1
  have hhigh : ∀ r ∈ first :: rest,
      F64.le r.High (mergeRun acc (first :: rest)).High = true := by
    intro r hr
    exact F64.le_of_not_lt (F64.not_isNaN_of_le (hwf r hr).2.1).2
      (by rw [← hmhe]; exact (F64.not_isNaN_of_le (hwf mh hmh).2.1).2) (hH.2 r hr)
  have hlow : ∀ r ∈ first :: rest,
      F64.le (mergeRun acc (first :: rest)).Low r.Low = true := by
    intro r hr
    exact F64.le_of_not_lt (by rw [← hmle]; exact (F64.not_isNaN_of_le (hwf ml hml).1).1)
      (F64.not_isNaN_of_le (hwf r hr).1).1 (hL.2 r hr)
  have hfirst : first ∈ first :: rest := List.mem_cons_self _ _
  have hlast : (first :: rest).getLast (List.cons_ne_nil first rest) ∈ first :: rest :=
    List.getLast_mem _
  unfold ohlcOrdered
  rw [hO, hC]
  exact ⟨F64.le_trans (hlow first hfirst) (hwf first hfirst).1,
    F64.le_trans (hwf first hfirst).2.1 (hhigh first hfirst),
    F64.le_trans (hlow _ hlast) (hwf _ hlast).2.2.1,
    F64.le_trans (hwf _ hlast).2.2.2 (hhigh _ hlast)⟩

/-- C16: when every record of the stream satisfies `low <= open <= high` and
`low <= close <= high`, so does every record written by the pass. -/
theorem well_formed_is_preserved (interval startMin : Int) (records : List Kline)
    (hwf : ∀ r ∈ records, ohlcOrdered r) :
    ∀ e ∈ (aggregate interval startMin records).written, ohlcOrdered e := by
  intro e he
  obtain ⟨i, hi⟩ := List.mem_iff_getElem?.1 he
  obtain ⟨first, rest, acc, hrun, hmerge, hacc⟩ := written_run interval startMin records i e hi
  obtain ⟨hn, _⟩ := written_run_blank hacc
  rw [hmerge]
  refine mergeRun_ohlcOrdered acc first rest hn ?_
  intro r hr
  exact hwf r (mem_of_mem_bucketRuns (List.getElem?_mem hrun) hr)

/-- C16 on `sampleBars`. -/
theorem well_formed_is_preserved_witness :
    (∀ r ∈ sampleBars, ohlcOrdered r) ∧
    ∀ e ∈ (aggregate 2 0 sampleBars).written, ohlcOrdered e :=
  ⟨by decide, well_formed_is_preserved 2 0 sampleBars (by decide)⟩

/-! ## Lemmas: records before the base time -/

theorem baseTs_eq {startMin : Int} (h : IsInt64 (1483228800000 + startMin * 60000)) :
    baseTs startMin = 1483228800000 + startMin * 60000 := by
  unfold IsInt64 at h
  unfold baseTs wrap64
  omega

/-- Truncation of `x` to a multiple of `p > 0`: `x` minus a remainder in
`[0, p)` when `x ≥ 0`, `x` plus the remainder of `-x` when `x < 0`. -/
theorem truncTo_remainder {p x : Int} (hp : 0 < p) :
    (0 ≤ x → truncTo p x = x - x % p) ∧ (x < 0 → truncTo p x = x + (-x) % p) := by
  constructor
  · intro hx
    rw [truncTo_of_nonneg hp hx]
    have := Int.emod_add_ediv' x p
    omega
  · intro hx
    have h1 : truncTo p x = -(truncTo p (-x)) := by
      rw [truncTo_neg_arg, Int.neg_neg]
    rw [h1, truncTo_of_nonneg hp (by omega)]
    have := Int.emod_add_ediv' (-x) p
    omega

/-- Line 138 without overflow, for a positive interval `p`: before the base
time `b`, unless `b - t` is a multiple of `p`, the bucket open time is the
boundary `b - floor((b - t) / p) * p`, above `t`; in every case it is less
than `p` away from `t`. -/
theorem bucketOpen_near {p b t : Int} (hp : 0 < p) (hb : IsInt64 b) (ht : IsInt64 t)
    (hx : IsInt64 (t - b)) :
    (t < b → ¬ (p ∣ b - t) →
      bucketOpen p b t = b - (b - t) / p * p ∧ t < bucketOpen p b t) ∧
    (t - p < bucketOpen p b t ∧ bucketOpen p b t < t + p) := by
  rw [bucketOpen_eq_truncTo (Int.ne_of_gt hp) hb ht hx]
  obtain ⟨hnonneg, hneg⟩ := truncTo_remainder (x := t - b) hp
  have hu : -(t - b) = b - t := by omega
  rw [hu] at hneg
  have hr1 := Int.emod_nonneg (t - b) (Int.ne_of_gt hp)
  have hr2 := Int.emod_lt_of_pos (t - b) hp
  have hs1 := Int.emod_nonneg (b - t) (Int.ne_of_gt hp)
  have hs2 := Int.emod_lt_of_pos (b - t) hp
  constructor
  · intro hlt hndvd
    have hrem : (b - t) % p ≠ 0 := fun h0 => hndvd (Int.dvd_of_emod_eq_zero h0)
    have hdiv := Int.emod_add_ediv' (b - t) p
    rw [hneg (by omega)]
    constructor <;> omega
  · by_cases h0 : 0 ≤ t - b
    · rw [hnonneg h0]; omega
    · rw [hneg (by omega)]; omega

/-- C17 as stated fails when `t - base_ms` overflows: with `interval = 30`
and `startMin = 0`, the time `t = -2^63` is before the base time,
`base_ms - t` is not a multiple of `period_ms`, and line 138 gives
`9223372036854000000`, which is more than `period_ms` away from `t`. -/
theorem truncation_overflow :
    (1 : Int) ≤ 30 ∧ IsInt64 (-(2 ^ 63)) ∧ (-(2 ^ 63) : Int) < 1483228800000 + 0 * 60000 ∧
    ¬ ((30 : Int) * 60000 ∣ 1483228800000 + 0 * 60000 - -(2 ^ 63)) ∧
    bucketOpen (intervalMs 30) (baseTs 0) (-(2 ^ 63)) = 9223372036854000000 ∧
    ¬ ((9223372036854000000 : Int) - -(2 ^ 63) < 30 * 60000) := by
  decide

/-- C17, amended: for `interval ≥ 1` with `interval * 60000 < 2^63`, an
offset for which `base_ms` is an `int64`, and an `int64` time `t` for which
`t - base_ms` is an `int64`: when `t < base_ms` and `base_ms - t` is not a
multiple of `period_ms`, the bucket open time of line 138 is the boundary
`base_ms - floor((base_ms - t) / period_ms) * period_ms`, which is strictly
greater than `t` (and less than `t + period_ms`), so `t` is not in the
interval from the bucket open time to the bucket close time; and in every
case the bucket open time is less than `period_ms` away from `t`. -/
theorem truncation_before_base (interval startMin t : Int) (hi : 1 ≤ interval)
    (hfit : interval * 60000 < 2 ^ 63) (hb : IsInt64 (1483228800000 + startMin * 60000))
    (ht : IsInt64 t) (hx : IsInt64 (t - (1483228800000 + startMin * 60000))) :
    (t < 1483228800000 + startMin * 60000 →
      ¬ (interval * 60000 ∣ 1483228800000 + startMin * 60000 - t) →
      bucketOpen (intervalMs interval) (baseTs startMin) t
        = 1483228800000 + startMin * 60000
          - (1483228800000 + startMin * 60000 - t) / (interval * 60000) * (interval * 60000) ∧
      t < bucketOpen (intervalMs interval) (baseTs startMin) t ∧
      ¬ (bucketOpen (intervalMs interval) (baseTs startMin) t ≤ t ∧
        t ≤ bucketClose (intervalMs interval)
          (bucketOpen (intervalMs interval) (baseTs startMin) t))) ∧
    (t - interval * 60000 < bucketOpen (intervalMs interval) (baseTs startMin) t ∧
      bucketOpen (intervalMs interval) (baseTs startMin) t < t + interval * 60000) := by
  have hp : 0 < interval * 60000 := by omega
  have hpm : intervalMs interval = interval * 60000 := by
    unfold intervalMs; exact wrap64_of_isInt64 (by unfold IsInt64; omega)
  rw [hpm, baseTs_eq hb]
  obtain ⟨hbefore, hnear⟩ := bucketOpen_near hp hb ht hx
  refine ⟨?_, hnear⟩
  intro hlt hndvd
  obtain ⟨hform, hgt⟩ := hbefore hlt hndvd
  refine ⟨hform, hgt, ?_⟩
  intro h
  omega

set_option maxRecDepth 4000 in
/-- C17, amended, at `interval = 30`, `startMin = 0`, `t = 60000`: the
bucket opens at `1800000`. -/
theorem truncation_before_base_witness :
    bucketOpen (intervalMs 30) (baseTs 0) 60000 = 1800000 ∧
    (60000 : Int) < bucketOpen (intervalMs 30) (baseTs 0) 60000 ∧
    bucketOpen (intervalMs 30) (baseTs 0) 60000 < 60000 + 30 * 60000 :=
  ⟨by decide,
    ((truncation_before_base 30 0 60000 (by decide) (by decide) (by decide) (by decide)
      (by decide)).1 (by decide) (by decide)).2.1,
    (truncation_before_base 30 0 60000 (by decide) (by decide) (by decide) (by decide)
      (by decide)).2.2⟩

/-! ## The scenario -/

/-- C13 as stated is not what the program does: its base time is the
constant `1483228800000`, not `0`.  With `interval = 3` and `startMin = 0` the
bars opened at `0`, `60000` and `120000` are before the base time and are
written as two records, one for the bucket opened at `0` (one bar) and one
for the bucket opened at `180000` (two bars).  The loop of lines 125-174 run
with `baseTimestamp = 0` writes one record for the three bars, with the close
time `0`: the bucket opened at `0` is the one that line 140 does not open. -/
theorem scenario_at_time_zero :
    (aggregate 3 0 (scenarioBars 0 barAtZero barAtZero barAtZero)).written.map
        (fun k => (k.OpenTime, k.CloseTime, k.numOfRecords))
      = [(0, 0, 1), (180000, 359999, 2)] ∧
    (aggregateLoop 180000 0 (scenarioBars 0 barAtZero barAtZero barAtZero)
        LoopState.init).written.map (fun k => (k.OpenTime, k.CloseTime, k.numOfRecords))
      = [(0, 0, 3)] := by
  decide

set_option maxRecDepth 4000 in
theorem scenario_runs (x1 x2 x3 : Kline) :
    bucketRuns (intervalMs 3) (baseTs 0) (scenarioBars 1483228800000 x1 x2 x3)
      = [scenarioBars 1483228800000 x1 x2 x3] := by
  have h3 : bucketRuns (intervalMs 3) (baseTs 0)
      [scenarioBar (1483228800000 + 120000) ⟨0x4000000000000000⟩ ⟨0x4004000000000000⟩
        ⟨0x3FFCCCCCCCCCCCCD⟩ ⟨0x400199999999999A⟩ x3]
      = [[scenarioBar (1483228800000 + 120000) ⟨0x4000000000000000⟩ ⟨0x4004000000000000⟩
        ⟨0x3FFCCCCCCCCCCCCD⟩ ⟨0x400199999999999A⟩ x3]] :=
    bucketRuns_cons_nil _ _ _ rfl
  have h2 := bucketRuns_cons_same (intervalMs 3) (baseTs 0)
    (scenarioBar (1483228800000 + 60000) ⟨0x3FF8000000000000⟩ ⟨0x4008000000000000⟩
      ⟨0x3FF0000000000000⟩ ⟨0x4000000000000000⟩ x2) h3
    (show bucketOpen (intervalMs 3) (baseTs 0) (1483228800000 + 60000)
      = bucketOpen (intervalMs 3) (baseTs 0) (1483228800000 + 120000) by decide)
  exact bucketRuns_cons_same (intervalMs 3) (baseTs 0)
    (scenarioBar 1483228800000 ⟨0x3FF0000000000000⟩ ⟨0x4000000000000000⟩
      ⟨0x3FE0000000000000⟩ ⟨0x3FF8000000000000⟩ x1) h2
    (show bucketOpen (intervalMs 3) (baseTs 0) 1483228800000
      = bucketOpen (intervalMs 3) (baseTs 0) (1483228800000 + 60000) by decide)

set_option maxRecDepth 4000 in
/-- C13, amended: for the three bars of the scenario placed at the base
time of the program (open times `1483228800000`, `1483228860000` and
`1483228920000`), whatever their other fields, the pass with `interval = 3`
and `startMin = 0` writes exactly one record, with open time
`1483228800000`, open 1, high 3, low 0.5, close 2.2, volume 30, close time
`1483228979999` and the `int64` sum of the three trade counts. -/
theorem scenario_at_base_time (x1 x2 x3 : Kline) :
    ∃ e, (aggregate 3 0 (scenarioBars 1483228800000 x1 x2 x3)).written = [e] ∧
      e.OpenTime = 1483228800000 ∧ e.Open = ⟨0x3FF0000000000000⟩ ∧
      e.High = ⟨0x4008000000000000⟩ ∧ e.Low = ⟨0x3FE0000000000000⟩ ∧
      e.Close = ⟨0x400199999999999A⟩ ∧ e.Volume = ⟨0x403E000000000000⟩ ∧
      e.CloseTime = 1483228979999 ∧
      e.NumOfTrades = wrap64 (x1.NumOfTrades + x2.NumOfTrades + x3.NumOfTrades) ∧
      e.numOfRecords = 3 := by
  have hp : intervalMs 3 ≠ 0 := by decide
  have hw := aggregate_written 3 0 hp (scenarioBars 1483228800000 x1 x2 x3)
  rw [scenario_runs] at hw
  have h0 : ¬ bucketOpen (intervalMs 3) (baseTs 0)
      ((scenarioBars 1483228800000 x1 x2 x3).headD Kline.empty).OpenTime = 0 := by
    show ¬ bucketOpen (intervalMs 3) (baseTs 0) 1483228800000 = 0
    decide
  simp only [if_neg h0, List.map_nil] at hw
  refine ⟨_, hw, ?_⟩
  have hn : (freshBucket (intervalMs 3) (baseTs 0) 1483228800000).numOfRecords = 0 := rfl
  show _ ∧ _ ∧ _ ∧ _ ∧ _ ∧ _ ∧ _ ∧ _ ∧
    (mergeRun (freshBucket (intervalMs 3) (baseTs 0) 1483228800000)
      (scenarioBars 1483228800000 x1 x2 x3)).numOfRecords = 3
  refine ⟨?_, ?_, ?_, ?_, ?_, ?_, ?_, ?_, ?_⟩
  · show (mergeRun (freshBucket (intervalMs 3) (baseTs 0) 1483228800000) _).OpenTime = _
    rw [mergeRun_OpenTime]
    show bucketOpen (intervalMs 3) (baseTs 0) 1483228800000 = 1483228800000
    decide
  · exact mergeRun_Open _ _ _ hn
  · show (mergeRun (freshBucket (intervalMs 3) (baseTs 0) 1483228800000)
      (scenarioBars 1483228800000 x1 x2 x3)).High = _
    unfold scenarioBars
    rw [mergeRun_cons, mergeRun_cons, mergeRun_cons]
    show (mergeKline _ _).High = _
    rw [mergeKline_High, mergeKline_numOfRecords, mergeKline_High, mergeKline_numOfRecords,
      mergeKline_High, if_pos hn, hn]
    dsimp only [scenarioBar]
    decide
  · show (mergeRun (freshBucket (intervalMs 3) (baseTs 0) 1483228800000)
      (scenarioBars 1483228800000 x1 x2 x3)).Low = _
    unfold scenarioBars
    rw [mergeRun_cons, mergeRun_cons, mergeRun_cons]
    show (mergeKline _ _).Low = _
    rw [mergeKline_Low, mergeKline_numOfRecords, mergeKline_Low, mergeKline_numOfRecords,
      mergeKline_Low, if_pos hn, hn]
    dsimp only [scenarioBar]
    decide
  · exact (mergeRun_Close (scenarioBars 1483228800000 x1 x2 x3) _ (List.cons_ne_nil _ _)).1
  · show (mergeRun (freshBucket (intervalMs 3) (baseTs 0) 1483228800000) _).Volume = _
    rw [mergeRun_Volume]
    show ([F64.mk 0x4024000000000000, F64.mk 0x4024000000000000,
      F64.mk 0x4024000000000000].foldl F64.add F64.zero) = _
    decide
  · show (mergeRun (freshBucket (intervalMs 3) (baseTs 0) 1483228800000) _).CloseTime = _
    rw [mergeRun_CloseTime]
    show bucketClose (intervalMs 3) (bucketOpen (intervalMs 3) (baseTs 0) 1483228800000)
      = 1483228979999
    decide
  · show (mergeRun (freshBucket (intervalMs 3) (baseTs 0) 1483228800000) _).NumOfTrades = _
    rw [mergeRun_NumOfTrades]
    show ([x1.NumOfTrades, x2.NumOfTrades, x3.NumOfTrades].foldl
      (fun x y => wrap64 (x + y)) 0) = _
    rw [foldl_wrap64_add_zero]
    simp [Int.add_assoc]
  · rw [mergeRun_numOfRecords, hn]
    rfl

/-! ## Lemmas: formatting -/

theorem digitChar_isDecDigit (d : Nat) : isDecDigit (digitChar d) = true := by
  unfold digitChar
  split <;> decide

theorem digitChar_toNat {d : Nat} (h : d < 10) : (digitChar d).toNat = 48 + d := by
  interval_cases d <;> rfl

theorem fieldChar_of_isDecDigit {c : Char} (h : isDecDigit c = true) : fieldChar c = true := by
  simp only [isDecDigit, Bool.and_eq_true, decide_eq_true_eq] at h
  have h1 : c ≠ ',' := by
    intro hc
    rw [hc] at h
    exact absurd h.1 (by decide)
  have h2 : isSpace c = false := by
    simp only [isSpace, Bool.or_eq_false_iff, Bool.and_eq_false_iff, decide_eq_false_iff_not,
      beq_eq_false_iff_ne, ne_eq]
    omega
  simp [fieldChar, h1, h2]

theorem decDigits_isDecDigit (fuel n : Nat) : ∀ c ∈ decDigits fuel n, isDecDigit c = true := by
  induction fuel generalizing n with
  | zero => simp [decDigits]
  | succ fuel ih =>
    intro c hc
    unfold decDigits at hc
    split at hc
    · have : c = digitChar n := by simpa using hc
      rw [this]; exact digitChar_isDecDigit n
    · rcases List.mem_append.1 hc with h | h
      · exact ih _ c h
      · have : c = digitChar (n % 10) := by simpa using h
        rw [this]; exact digitChar_isDecDigit _

theorem decDigits_ne_nil (fuel n : Nat) : decDigits (fuel + 1) n ≠ [] := by
  unfold decDigits
  split <;> simp

theorem formatNat_fieldChar (n : Nat) : ∀ c ∈ formatNat n, fieldChar c = true :=
  fun c hc => fieldChar_of_isDecDigit (decDigits_isDecDigit _ _ c hc)

theorem formatInt_fieldChar (n : Int) : ∀ c ∈ formatInt n, fieldChar c = true := by
  intro c hc
  unfold formatInt at hc
  split at hc
  · rcases List.mem_cons.1 hc with h | h
    · rw [h]; decide
    · exact formatNat_fieldChar _ c h
  · exact formatNat_fieldChar _ c hc

theorem pad8_fieldChar (v : Nat) : ∀ c ∈ pad8 v, fieldChar c = true := by
  intro c hc
  simp only [pad8, List.mem_cons, List.mem_singleton, List.not_mem_nil, or_false] at hc
  rcases hc with h | h | h | h | h | h | h | h <;>
    (rw [h]; exact fieldChar_of_isDecDigit (digitChar_isDecDigit _))

theorem formatFloat8_fieldChar (x : F64) : ∀ c ∈ formatFloat8 x, fieldChar c = true := by
  intro c hc
  unfold formatFloat8 at hc
  split at hc
  · revert c; decide
  · split at hc
    · split at hc <;> (revert c; decide)
    · simp only [List.mem_append, List.mem_cons] at hc
      rcases hc with (h | h) | h | h
      · split at h
        · have : c = '-' := by simpa using h
          rw [this]; decide
        · simp at h
      · exact formatNat_fieldChar _ c h
      · rw [h]; decide
      · exact pad8_fieldChar _ c h

theorem convertIgnore_fieldChar (x : F64) : ∀ c ∈ convertIgnore x, fieldChar c = true := by
  intro c hc
  unfold convertIgnore at hc
  split at hc
  · have : c = '0' := by simpa using hc
    rw [this]; decide
  · exact formatFloat8_fieldChar x c hc

theorem formatFields_fieldChar (kline : Kline) :
    ∀ f ∈ formatFields kline, ∀ c ∈ f, fieldChar c = true := by
  intro f hf
  simp only [formatFields, List.mem_cons, List.mem_singleton, List.not_mem_nil, or_false] at hf
  rcases hf with h | h | h | h | h | h | h | h | h | h | h | h <;> rw [h]
  · exact formatInt_fieldChar _
  · exact formatFloat8_fieldChar _
  · exact formatFloat8_fieldChar _
  · exact formatFloat8_fieldChar _
  · exact formatFloat8_fieldChar _
  · exact formatFloat8_fieldChar _
  · exact formatInt_fieldChar _
  · exact formatFloat8_fieldChar _
  · exact formatInt_fieldChar _
  · exact formatFloat8_fieldChar _
  · exact formatFloat8_fieldChar _
  · exact convertIgnore_fieldChar _

theorem ne_comma_of_fieldChar {c : Char} (h : fieldChar c = true) : c ≠ ',' := by
  simp only [fieldChar, Bool.and_eq_true, bne_iff_ne, ne_eq] at h
  exact h.1

theorem not_isSpace_of_fieldChar {c : Char} (h : fieldChar c = true) : isSpace c = false := by
  simp only [fieldChar, Bool.and_eq_true, Bool.not_eq_true'] at h
  exact h.2

theorem splitComma_of_no_comma (f : List Char) (h : ∀ c ∈ f, c ≠ ',') : splitComma f = [f] := by
  induction f with
  | nil => rfl
  | cons c cs ih =>
    have hc : c ≠ ',' := h c (List.mem_cons_self _ _)
    have := ih (fun x hx => h x (List.mem_cons_of_mem _ hx))
    simp only [splitComma, if_neg hc, this]

theorem splitComma_append_comma (f rest : List Char) (h : ∀ c ∈ f, c ≠ ',') :
    splitComma (f ++ ',' :: rest) = f :: splitComma rest := by
  induction f with
  | nil => simp [splitComma]
  | cons c cs ih =>
    have hc : c ≠ ',' := h c (List.mem_cons_self _ _)
    have := ih (fun x hx => h x (List.mem_cons_of_mem _ hx))
    have hstep : splitComma (c :: (cs ++ ',' :: rest))
        = match splitComma (cs ++ ',' :: rest) with
          | [] => [[c]]
          | p :: ps => (c :: p) :: ps := by
      simp only [splitComma, if_neg hc]
    rw [List.cons_append, hstep, this]

/-- Splitting the pieces joined by commas gives the pieces back, when no
piece contains a comma. -/
theorem splitComma_joinComma (fs : List (List Char)) (hne : fs ≠ [])
    (h : ∀ f ∈ fs, ∀ c ∈ f, c ≠ ',') : splitComma (joinComma fs) = fs := by
  induction fs with
  | nil => exact absurd rfl hne
  | cons f rest ih =>
    cases rest with
    | nil =>
      exact splitComma_of_no_comma f (h f (List.mem_cons_self _ _))
    | cons g gs =>
      have := ih (List.cons_ne_nil _ _) (fun x hx => h x (List.mem_cons_of_mem _ hx))
      simp only [joinComma]
      rw [splitComma_append_comma f _ (h f (List.mem_cons_self _ _)), this]

/-! ## Lemmas: reading back a decimal numeral -/

/-- One step of the digit loop on a digit that keeps the value in range. -/
theorem ParseUintLoop_digit (d a : Nat) (cs : List Char) (hd : d < 10)
    (ha : a < 1844674407370955162) (hv : a * 10 + d < 2 ^ 64) :
    ParseUintLoop (digitChar d :: cs) a = ParseUintLoop cs (a * 10 + d) := by
  have hdig : 48 ≤ (digitChar d).toNat ∧ (digitChar d).toNat ≤ 57 := by
    rw [digitChar_toNat hd]; omega
  have hsub : (digitChar d).toNat - 48 = d := by rw [digitChar_toNat hd]; omega
  have h10 : a * 10 % 2 ^ 64 = a * 10 := Nat.mod_eq_of_lt (by omega)
  have h1 : (a * 10 + d) % 2 ^ 64 = a * 10 + d := Nat.mod_eq_of_lt hv
  have hcut : ¬ a ≥ 1844674407370955162 := by omega
  have hover : ¬ (a * 10 + d < a * 10 ∨ a * 10 + d > 2 ^ 64 - 1) := by omega
  simp only [ParseUintLoop, if_pos hdig, if_neg hcut, hsub, h10, h1, if_neg hover]

theorem ParseUintLoop_append (xs ys : List Char) (a : Nat) :
    ParseUintLoop (xs ++ ys) a
      = if (ParseUintLoop xs a).2 = none then ParseUintLoop ys (ParseUintLoop xs a).1
        else ParseUintLoop xs a := by
  induction xs generalizing a with
  | nil => simp [ParseUintLoop]
  | cons c cs ih =>
    simp only [List.cons_append, ParseUintLoop]
    split
    · split
      · simp
      · split
        · simp
        · exact ih _
    · simp

/-- The digit loop reads the decimal numeral of `m < 2^64` back as `m`. -/
theorem ParseUintLoop_decDigits (fuel m : Nat) (hfuel : m < 10 ^ fuel) (hm : m < 2 ^ 64) :
    ParseUintLoop (decDigits fuel m) 0 = (m, none) := by
  induction fuel generalizing m with
  | zero =>
    have : m = 0 := by simpa using hfuel
    subst this
    rfl
  | succ fuel ih =>
    unfold decDigits
    split
    · rename_i hlt
      rw [ParseUintLoop_digit m 0 [] hlt (by omega) (by omega)]
      simp [ParseUintLoop]
    · rename_i hge
      have hdiv : m / 10 < 10 ^ fuel := by
        apply Nat.div_lt_of_lt_mul
        rw [Nat.pow_succ] at hfuel
        omega
      rw [ParseUintLoop_append, ih (m / 10) hdiv (by omega)]
      simp only [if_true]
      rw [ParseUintLoop_digit (m % 10) (m / 10) [] (Nat.mod_lt _ (by omega)) (by omega) (by omega)]
      simp only [ParseUintLoop]
      congr 1
      omega

theorem lt_ten_pow_succ (m : Nat) : m < 10 ^ (m + 1) := by
  induction m with
  | zero => decide
  | succ k ih =>
    rw [Nat.pow_succ]
    omega

theorem ParseUint_formatNat (m : Nat) (hm : m < 2 ^ 64) : ParseUint (formatNat m) = (m, none) := by
  unfold ParseUint
  rw [if_neg (show formatNat m ≠ [] from decDigits_ne_nil m m)]
  exact ParseUintLoop_decDigits (m + 1) m (lt_ten_pow_succ m) hm

/-- The numeral of a natural number starts with a digit. -/
theorem formatNat_head (m : Nat) :
    ∃ c cs, formatNat m = c :: cs ∧ c ≠ '+' ∧ c ≠ '-' := by
  cases h : formatNat m with
  | nil => exact absurd h (decDigits_ne_nil m m)
  | cons c cs =>
    have hd : isDecDigit c = true :=
      decDigits_isDecDigit (m + 1) m c (by
        show c ∈ formatNat m
        rw [h]; exact List.mem_cons_self _ _)
    simp only [isDecDigit, Bool.and_eq_true, decide_eq_true_eq] at hd
    refine ⟨c, cs, rfl, ?_, ?_⟩
    · intro hc; rw [hc] at hd; exact absurd hd.1 (by decide)
    · intro hc; rw [hc] at hd; exact absurd hd.1 (by decide)

theorem ParseInt_of_minus (s : String) (cs : List Char) (m : Nat) (hs : s.data = '-' :: cs)
    (hu : ParseUint cs = (m, none)) (hm : ¬ m > 2 ^ 63) :
    ParseInt s = (wrap64 (-wrap64 (m : Int)), none) := by
  unfold ParseInt
  rw [hs]
  have hdigits : (if ('-' : Char) = '+' ∨ ('-' : Char) = '-' then cs else '-' :: cs) = cs :=
    if_pos (Or.inr rfl)
  show (if (ParseUint (if ('-' : Char) = '+' ∨ ('-' : Char) = '-' then cs else '-' :: cs)).2
      = some NumError.malformed then _ else _) = _
  rw [hdigits, hu]
  rw [if_neg (show ¬ (none : Option NumError) = some NumError.malformed by simp),
    if_neg (show ¬ (¬ ('-' : Char) = '-' ∧ m ≥ 2 ^ 63) from fun h => h.1 rfl),
    if_neg (show ¬ (('-' : Char) = '-' ∧ m > 2 ^ 63) from fun h => hm h.2)]
  show ((if ('-' : Char) = '-' then wrap64 (-wrap64 (m : Int)) else wrap64 (m : Int)), none) = _
  rw [if_pos rfl]

theorem ParseInt_of_digit (s : String) (c : Char) (cs : List Char) (m : Nat)
    (hs : s.data = c :: cs) (hplus : c ≠ '+') (hminus : c ≠ '-')
    (hu : ParseUint (c :: cs) = (m, none)) (hm : ¬ m ≥ 2 ^ 63) :
    ParseInt s = (wrap64 (m : Int), none) := by
  unfold ParseInt
  rw [hs]
  have hdigits : (if c = '+' ∨ c = '-' then cs else c :: cs) = c :: cs :=
    if_neg (fun h => h.elim hplus hminus)
  show (if (ParseUint (if c = '+' ∨ c = '-' then cs else c :: cs)).2
      = some NumError.malformed then _ else _) = _
  rw [hdigits, hu]
  rw [if_neg (show ¬ (none : Option NumError) = some NumError.malformed by simp),
    if_neg (show ¬ (¬ c = '-' ∧ m ≥ 2 ^ 63) from fun h => hm h.2),
    if_neg (show ¬ (c = '-' ∧ m > 2 ^ 63) from fun h => hminus h.1)]
  show ((if c = '-' then wrap64 (-wrap64 (m : Int)) else wrap64 (m : Int)), none) = _
  rw [if_neg hminus]

/-- `strconv.ParseInt` reads the `%d` rendering of an `int64` back, without
error. -/
theorem ParseInt_formatInt (n : Int) (hn : IsInt64 n) : ParseInt ⟨formatInt n⟩ = (n, none) := by
  unfold IsInt64 at hn
  have hm : n.natAbs < 2 ^ 64 := by omega
  have hu := ParseUint_formatNat n.natAbs hm
  by_cases hneg : n < 0
  · have hfmt : formatInt n = '-' :: formatNat n.natAbs := by
      unfold formatInt; rw [if_pos hneg]
    have hcast : (n.natAbs : Int) = -n := Int.ofNat_natAbs_of_nonpos (by omega)
    rw [ParseInt_of_minus ⟨formatInt n⟩ (formatNat n.natAbs) n.natAbs hfmt hu (by omega), hcast]
    congr 1
    unfold wrap64
    omega
  · have hfmt : formatInt n = formatNat n.natAbs := by
      unfold formatInt; rw [if_neg hneg]
    obtain ⟨c, cs, hcs, hplus, hminus⟩ := formatNat_head n.natAbs
    rw [hcs] at hu
    have hcast : (n.natAbs : Int) = n := Int.natAbs_of_nonneg (by omega)
    rw [ParseInt_of_digit ⟨formatInt n⟩ c cs n.natAbs (by rw [← hcs]; exact hfmt) hplus hminus hu
      (by omega), hcast]
    congr 1
    unfold wrap64
    omega

/-! ## Lemmas: the written line -/

theorem mem_joinComma (fs : List (List Char)) (c : Char) (hc : c ∈ joinComma fs) :
    c = ',' ∨ ∃ f ∈ fs, c ∈ f := by
  induction fs with
  | nil => simp [joinComma] at hc
  | cons f rest ih =>
    cases rest with
    | nil => exact Or.inr ⟨f, List.mem_cons_self _ _, by simpa [joinComma] using hc⟩
    | cons g gs =>
      simp only [joinComma, List.mem_append, List.mem_cons] at hc
      rcases hc with h | h | h
      · exact Or.inr ⟨f, List.mem_cons_self _ _, h⟩
      · exact Or.inl h
      · rcases ih h with h1 | ⟨x, hx, hcx⟩
        · exact Or.inl h1
        · exact Or.inr ⟨x, List.mem_cons_of_mem _ hx, hcx⟩

/-- The text of a record has no white space (so no newline) in it. -/
theorem klineText_not_isSpace (kline : Kline) :
    ∀ c ∈ (klineText kline).data, isSpace c = false := by
  intro c hc
  rcases mem_joinComma (formatFields kline) c hc with h | ⟨f, hf, hcf⟩
  · rw [h]; decide
  · exact not_isSpace_of_fieldChar (formatFields_fieldChar kline f hf c hcf)

theorem klineText_ne_nil (kline : Kline) : (klineText kline).data ≠ [] := by
  simp [klineText, formatFields, joinComma]

theorem Split_klineText (kline : Kline) :
    Split (klineText kline) = (formatFields kline).map String.mk := by
  unfold Split
  show (splitComma (joinComma (formatFields kline))).map String.mk = _
  rw [splitComma_joinComma (formatFields kline) (by simp [formatFields])
    (fun f hf c hc => ne_comma_of_fieldChar (formatFields_fieldChar kline f hf c hc))]

theorem dropWhile_isSpace_of_none (l : List Char) (h : ∀ c ∈ l, isSpace c = false) :
    l.dropWhile isSpace = l := by
  cases l with
  | nil => rfl
  | cons c cs =>
    rw [List.dropWhile_cons_of_neg]
    rw [h c (List.mem_cons_self _ _)]
    simp

/-- Trimming the written line gives the text of the record. -/
theorem TrimSpace_klineLine (kline : Kline) : TrimSpace (klineLine kline) = klineText kline := by
  have hns := klineText_not_isSpace kline
  have hne := klineText_ne_nil kline
  have hfront : ((klineText kline).data ++ [Char.ofNat 10]).dropWhile isSpace
      = (klineText kline).data ++ [Char.ofNat 10] := by
    cases hd : (klineText kline).data with
    | nil => exact absurd hd hne
    | cons c cs =>
      rw [hd] at hns
      rw [List.cons_append, List.dropWhile_cons_of_neg]
      rw [hns c (List.mem_cons_self _ _)]
      simp
  have hback : ((klineText kline).data ++ [Char.ofNat 10]).reverse.dropWhile isSpace
      = (klineText kline).data.reverse := by
    rw [List.reverse_append, List.reverse_singleton, List.singleton_append,
      List.dropWhile_cons_of_pos (by decide)]
    exact dropWhile_isSpace_of_none _ (fun c hc => hns c (List.mem_reverse.1 hc))
  unfold TrimSpace
  show String.mk ((((klineText kline).data ++ [Char.ofNat 10]).dropWhile isSpace).reverse.dropWhile
    isSpace).reverse = klineText kline
  rw [hfront, hback, List.reverse_reverse]

theorem formatFloat8_length (x : F64) : 3 ≤ (formatFloat8 x).length := by
  unfold formatFloat8
  split
  · decide
  · split
    · split <;> decide
    · simp only [List.length_append, List.length_cons, pad8, List.length_nil]
      omega

theorem fileText_saveKline (kline : Kline) (written : List Kline) :
    fileText (saveKline kline written) = saveKlineText kline (fileText written) := by
  unfold saveKline saveKlineText
  split
  · rfl
  · unfold fileText
    rw [List.foldl_append]
    rfl

/-- The records written by a pass have `int64` times and trade counts. -/
theorem written_isInt64 (interval startMin : Int) (records : List Kline) :
    ∀ e ∈ (aggregate interval startMin records).written,
      IsInt64 e.OpenTime ∧ IsInt64 e.CloseTime ∧ IsInt64 e.NumOfTrades := by
  intro e he
  obtain ⟨i, hi⟩ := List.mem_iff_getElem?.1 he
  obtain ⟨first, rest, acc, _, hmerge, hacc⟩ := written_run interval startMin records i e hi
  have htrades : IsInt64 e.NumOfTrades := by
    rw [hmerge, mergeRun_NumOfTrades, (written_run_blank hacc).2.2.2.1, foldl_wrap64_add_zero]
    exact wrap64_isInt64 _
  refine ⟨?_, ?_, htrades⟩
  · rw [hmerge, mergeRun_OpenTime]
    rcases hacc with h | ⟨_, _, h⟩
    · rw [h]; exact wrap64_isInt64 _
    · rw [h]; decide
  · rw [hmerge, mergeRun_CloseTime]
    rcases hacc with h | ⟨_, _, h⟩
    · rw [h]; exact wrap64_isInt64 _
    · rw [h]; decide

/-! ## The written line: the claims -/

/-- C14: for an accumulator with records, `saveKline` appends one line to the
file: the text of the record, then a newline, with no newline inside the
text; the text splits at its commas into exactly 12 fields, which are the
renderings of open time, open, high, low, close, volume, close time, quote
volume, trade count, taker buy base volume, taker buy quote volume and
ignore, in this order; an integer field is an optional minus sign followed by
decimal digits, which `strconv.ParseInt` reads back as the `int64` value;
the ignore field is `0` exactly when the ignore value equals zero, and is its
`%.8f` rendering otherwise. -/
theorem saveKline_line_format (kline : Kline) (fd : String) (hn : kline.numOfRecords ≠ 0) :
    saveKlineText kline fd = fd ++ klineLine kline ∧
    (∀ written : List Kline,
      fileText (saveKline kline written) = fileText written ++ klineLine kline) ∧
    (klineLine kline).data = (klineText kline).data ++ [Char.ofNat 10] ∧
    (∀ c ∈ (klineText kline).data, c ≠ Char.ofNat 10) ∧
    Split (klineText kline)
      = [⟨formatInt kline.OpenTime⟩, ⟨formatFloat8 kline.Open⟩, ⟨formatFloat8 kline.High⟩,
          ⟨formatFloat8 kline.Low⟩, ⟨formatFloat8 kline.Close⟩, ⟨formatFloat8 kline.Volume⟩,
          ⟨formatInt kline.CloseTime⟩, ⟨formatFloat8 kline.QuoteAssetVolume⟩,
          ⟨formatInt kline.NumOfTrades⟩, ⟨formatFloat8 kline.TakerBuyBaseAssetVolume⟩,
          ⟨formatFloat8 kline.TakerBuyQuoteAssetVolume⟩, ⟨convertIgnore kline.Ignore⟩] ∧
    (Split (klineText kline)).length = 12 ∧
    (∀ n : Int,
      formatInt n = (if n < 0 then ['-'] else []) ++ formatNat n.natAbs ∧
      (∀ c ∈ formatNat n.natAbs, isDecDigit c = true) ∧
      (IsInt64 n → ParseInt ⟨formatInt n⟩ = (n, none))) ∧
    (convertIgnore kline.Ignore = ['0'] ↔ F64.eq kline.Ignore F64.zero = true) ∧
    (F64.eq kline.Ignore F64.zero = false →
      convertIgnore kline.Ignore = formatFloat8 kline.Ignore) := by
  have hsplit := Split_klineText kline
  refine ⟨?_, ?_, rfl, ?_, hsplit, ?_, ?_, ?_, ?_⟩
  · unfold saveKlineText
    rw [if_neg hn]
  · intro written
    rw [fileText_saveKline]
    unfold saveKlineText
    rw [if_neg hn]
  · intro c hc hnl
    have := klineText_not_isSpace kline c hc
    rw [hnl] at this
    exact absurd this (by decide)
  · rw [hsplit]
    rfl
  · intro n
    refine ⟨?_, decDigits_isDecDigit _ _, ParseInt_formatInt n⟩
    unfold formatInt
    split <;> rfl
  · unfold convertIgnore
    constructor
    · intro h
      by_contra hne
      rw [if_neg hne] at h
      have hlen := formatFloat8_length kline.Ignore
      rw [h] at hlen
      exact absurd hlen (by decide)
    · intro h
      rw [if_pos h]
  · intro h
    unfold convertIgnore
    rw [if_neg (by rw [h]; simp)]

/-- C14 on `sampleFirstBucket`, whose ignore value is zero. -/
theorem saveKline_line_format_witness :
    sampleFirstBucket.numOfRecords ≠ 0 ∧
    saveKlineText sampleFirstBucket "" = "" ++ klineLine sampleFirstBucket ∧
    (Split (klineText sampleFirstBucket)).length = 12 ∧
    klineLine sampleFirstBucket
      = "1483228800000,1.00000000,3.00000000,0.50000000,2.00000000,20.00000000,1483228919999,0.00000000,7,0.00000000,0.00000000,0\n" :=
  ⟨by decide, (saveKline_line_format sampleFirstBucket "" (by decide)).1,
    (saveKline_line_format sampleFirstBucket "" (by decide)).2.2.2.2.2.1, by decide⟩

/-- C18: the text of a record that `saveKline` writes (the record has at
least one contributing record; its times and trade count are `int64` values)
splits into exactly 12 fields and is accepted by `parseKline`, also when the
written line, newline included, goes through the trimming of line 132; the
open time, close time and trade count parsed are those of the record. -/
theorem written_line_parses_back (pf : String → F64) (kline : Kline)
    (_hn : kline.numOfRecords ≠ 0) (ho : IsInt64 kline.OpenTime) (hc : IsInt64 kline.CloseTime)
    (ht : IsInt64 kline.NumOfTrades) :
    (Split (klineText kline)).length = 12 ∧
    ∃ parsed,
      parseKline pf (klineText kline) = Except.ok parsed ∧
      parseScanned pf (klineLine kline) = Except.ok parsed ∧
      parsed.OpenTime = kline.OpenTime ∧ parsed.CloseTime = kline.CloseTime ∧
      parsed.NumOfTrades = kline.NumOfTrades := by
  have hsplit : Split (klineText kline)
      = [⟨formatInt kline.OpenTime⟩, ⟨formatFloat8 kline.Open⟩, ⟨formatFloat8 kline.High⟩,
          ⟨formatFloat8 kline.Low⟩, ⟨formatFloat8 kline.Close⟩, ⟨formatFloat8 kline.Volume⟩,
          ⟨formatInt kline.CloseTime⟩, ⟨formatFloat8 kline.QuoteAssetVolume⟩,
          ⟨formatInt kline.NumOfTrades⟩, ⟨formatFloat8 kline.TakerBuyBaseAssetVolume⟩,
          ⟨formatFloat8 kline.TakerBuyQuoteAssetVolume⟩, ⟨convertIgnore kline.Ignore⟩] :=
    Split_klineText kline
  have hne : (klineText kline).length ≠ 0 := by
    intro h0
    exact klineText_ne_nil kline (List.length_eq_zero.1 h0)
  have hparse := parseKline_of_pieces pf (klineText kline) hne hsplit
  refine ⟨by rw [hsplit]; rfl, _, hparse, ?_, ?_, ?_, ?_⟩
  · unfold parseScanned
    rw [TrimSpace_klineLine]
    exact hparse
  · show parseInt64 ⟨formatInt kline.OpenTime⟩ = kline.OpenTime
    unfold parseInt64
    rw [ParseInt_formatInt _ ho]
  · show parseInt64 ⟨formatInt kline.CloseTime⟩ = kline.CloseTime
    unfold parseInt64
    rw [ParseInt_formatInt _ hc]
  · show parseInt64 ⟨formatInt kline.NumOfTrades⟩ = kline.NumOfTrades
    unfold parseInt64
    rw [ParseInt_formatInt _ ht]

/-- C18 on `sampleSecondBucket`. -/
theorem written_line_parses_back_witness :
    (Split (klineText sampleSecondBucket)).length = 12 ∧
    ∃ parsed,
      parseKline (fun _ => F64.zero) (klineText sampleSecondBucket) = Except.ok parsed ∧
      parsed.OpenTime = 1483228920000 ∧ parsed.CloseTime = 1483229039999 ∧
      parsed.NumOfTrades = 5 :=
  match written_line_parses_back (fun _ => F64.zero) sampleSecondBucket (by decide) (by decide)
    (by decide) (by decide) with
  | ⟨h12, parsed, h1, _, h3, h4, h5⟩ => ⟨h12, parsed, h1, h3, h4, h5⟩

/-! ## The records of a bucket: the claims -/

/-- The run from which a record is written is, for a stream in
non-decreasing `open_time` order without overflow in line 138, the list of
the records of the stream assigned to the bucket of that record. -/
theorem run_eq_recordsOfBucket {interval startMin : Int} {records : List Kline}
    (hrange : ∀ r ∈ records, IsInt64 r.OpenTime ∧ IsInt64 (r.OpenTime - baseTs startMin))
    (hsorted : records.Pairwise (fun r1 r2 => r1.OpenTime ≤ r2.OpenTime))
    {i : Nat} {e : Kline} (hi : (aggregate interval startMin records).written[i]? = some e)
    {run : List Kline}
    (hrun : (bucketRuns (intervalMs interval) (baseTs startMin) records)[i]? = some run) :
    recordsOfBucket interval startMin records e.OpenTime = run := by
  have hp : intervalMs interval ≠ 0 := by
    intro hp
    rw [aggregate_written_zero interval startMin hp] at hi
    simp at hi
  obtain ⟨run2, hrun2, hot, _⟩ := written_run_OpenTime hi
  rw [hrun] at hrun2
  injection hrun2 with hrun2
  have h := run_eq_filter interval startMin records hp hrange hsorted run (List.getElem?_mem hrun)
  unfold recordsOfBucket
  rw [hot, ← hrun2]
  exact h

/-- C2 as stated fails when `open_time - base_ms` overflows: with
`interval = 30` and `startMin = 0` the stream `wrappedBars` is in
non-decreasing order, its first and third records fall in the bucket opened
at `9223372036854000000`, and the first record written for that bucket has
the close 1.5 of the first record, while the last record of the bucket
closes at 2. -/
theorem ohlc_of_bucket_written_twice :
    wrappedBars.Pairwise (fun r1 r2 => r1.OpenTime ≤ r2.OpenTime) ∧
    (aggregate 30 0 wrappedBars).written.map (fun k => (k.OpenTime, k.Close.bits))
      = [(9223372036854000000, 0x3FF8000000000000), (1483228800000, 0x3FF8000000000000),
         (9223372036854000000, 0x4000000000000000)] ∧
    (recordsOfBucket 30 0 wrappedBars 9223372036854000000).map
        (fun k => (k.OpenTime, k.Close.bits))
      = [(-(2 ^ 63), 0x3FF8000000000000), (9223372036854000000, 0x4000000000000000)] := by
  decide

/-- C2, amended: when, for every record, `open_time` and
`open_time - base_ms` are `int64` values (the subtraction of line 138 does
not overflow), every record written by a pass over a stream in
non-decreasing `open_time` order is built from all the records of the stream
assigned to its bucket: its open is the open of the first of them, its close
and ignore are those of the last, its high is one of their highs that none
of their highs exceeds and its low one of their lows that none of their lows
is below (for Go's `>` and `<`); when none of the highs (lows) is NaN this is
the greatest high (least low) for Go's `<=`. -/
theorem emitted_ohlc (interval startMin : Int) (records : List Kline)
    (hrange : ∀ r ∈ records, IsInt64 r.OpenTime ∧ IsInt64 (r.OpenTime - baseTs startMin))
    (hsorted : records.Pairwise (fun r1 r2 => r1.OpenTime ≤ r2.OpenTime))
    (e : Kline) (he : e ∈ (aggregate interval startMin records).written) :
    ∃ first rest,
      recordsOfBucket interval startMin records e.OpenTime = first :: rest ∧
      e.Open = first.Open ∧
      e.Close = ((first :: rest).getLast (List.cons_ne_nil first rest)).Close ∧
      e.Ignore = ((first :: rest).getLast (List.cons_ne_nil first rest)).Ignore ∧
      e.High ∈ (first :: rest).map Kline.High ∧
      (∀ r ∈ first :: rest, F64.gt r.High e.High = false) ∧
      e.Low ∈ (first :: rest).map Kline.Low ∧
      (∀ r ∈ first :: rest, F64.lt r.Low e.Low = false) ∧
      ((∀ r ∈ first :: rest, r.High.isNaN = false) →
        ∀ r ∈ first :: rest, F64.le r.High e.High = true) ∧
      ((∀ r ∈ first :: rest, r.Low.isNaN = false) →
        ∀ r ∈ first :: rest, F64.le e.Low r.Low = true) := by
  obtain ⟨i, hi⟩ := List.mem_iff_getElem?.1 he
  obtain ⟨first, rest, hrun, _, h⟩ := run_ohlc interval startMin records i e hi
  exact ⟨first, rest, run_eq_recordsOfBucket hrange hsorted hi hrun, h⟩

/-- C2, amended, on `sampleBars` with `interval = 2`: the first record
written is built from the two bars of its bucket. -/
theorem emitted_ohlc_witness :
    (∀ r ∈ sampleBars, IsInt64 r.OpenTime ∧ IsInt64 (r.OpenTime - baseTs 0)) ∧
    sampleBars.Pairwise (fun r1 r2 => r1.OpenTime ≤ r2.OpenTime) ∧
    sampleFirstBucket ∈ (aggregate 2 0 sampleBars).written ∧
    ∃ first rest,
      recordsOfBucket 2 0 sampleBars sampleFirstBucket.OpenTime = first :: rest ∧
      sampleFirstBucket.Open = first.Open ∧
      sampleFirstBucket.Close
        = ((first :: rest).getLast (List.cons_ne_nil first rest)).Close ∧
      sampleFirstBucket.High ∈ (first :: rest).map Kline.High :=
  ⟨by decide, by decide, by decide,
    match emitted_ohlc 2 0 sampleBars (by decide) (by decide) sampleFirstBucket (by decide) with
    | ⟨first, rest, h⟩ => ⟨first, rest, h.1, h.2.1, h.2.2.1, h.2.2.2.2.1⟩⟩

/-- C3 as stated fails when `open_time - base_ms` overflows: with
`interval = 30` and `startMin = 0` the stream `wrappedBars` is in
non-decreasing order, its first and third records fall in the bucket opened
at `9223372036854000000`, and each of the two records written for that
bucket has the volume 10 and 3 trades of one record, while the volumes of
the records of the bucket add up to 20 and their trade counts to 6. -/
theorem sums_of_bucket_written_twice :
    wrappedBars.Pairwise (fun r1 r2 => r1.OpenTime ≤ r2.OpenTime) ∧
    (aggregate 30 0 wrappedBars).written.map
        (fun k => (k.OpenTime, k.Volume.bits, k.NumOfTrades))
      = [(9223372036854000000, 0x4024000000000000, 3), (1483228800000, 0x4024000000000000, 3),
         (9223372036854000000, 0x4024000000000000, 3)] ∧
    (sumF64 ((recordsOfBucket 30 0 wrappedBars 9223372036854000000).map Kline.Volume)).bits
      = 0x4034000000000000 ∧
    ((recordsOfBucket 30 0 wrappedBars 9223372036854000000).map Kline.NumOfTrades).sum = 6 := by
  decide

/-- C3, amended: when, for every record, `open_time` and
`open_time - base_ms` are `int64` values (the subtraction of line 138 does
not overflow), every record written by a pass over a stream in
non-decreasing `open_time` order carries the sums over all the records of
the stream assigned to its bucket, and over them only: volume, quote volume
and the two taker volumes are the `float64` sums in arrival order starting
from zero, and the trade count is the sum of the trade counts reduced to
`int64`, which is also the sum taken with `int64` additions from zero. -/
theorem emitted_sums (interval startMin : Int) (records : List Kline)
    (hrange : ∀ r ∈ records, IsInt64 r.OpenTime ∧ IsInt64 (r.OpenTime - baseTs startMin))
    (hsorted : records.Pairwise (fun r1 r2 => r1.OpenTime ≤ r2.OpenTime))
    (e : Kline) (he : e ∈ (aggregate interval startMin records).written) :
    e.Volume = sumF64 ((recordsOfBucket interval startMin records e.OpenTime).map Kline.Volume) ∧
    e.QuoteAssetVolume
      = sumF64 ((recordsOfBucket interval startMin records e.OpenTime).map
          Kline.QuoteAssetVolume) ∧
    e.NumOfTrades
      = wrap64 ((recordsOfBucket interval startMin records e.OpenTime).map
          Kline.NumOfTrades).sum ∧
    e.NumOfTrades
      = ((recordsOfBucket interval startMin records e.OpenTime).map Kline.NumOfTrades).foldl
          (fun x y => wrap64 (x + y)) 0 ∧
    e.TakerBuyBaseAssetVolume
      = sumF64 ((recordsOfBucket interval startMin records e.OpenTime).map
          Kline.TakerBuyBaseAssetVolume) ∧
    e.TakerBuyQuoteAssetVolume
      = sumF64 ((recordsOfBucket interval startMin records e.OpenTime).map
          Kline.TakerBuyQuoteAssetVolume) := by
  obtain ⟨i, hi⟩ := List.mem_iff_getElem?.1 he
  obtain ⟨run, hrun, h⟩ := run_sums interval startMin records i e hi
  rw [run_eq_recordsOfBucket hrange hsorted hi hrun]
  exact h

/-- C3, amended, on `sampleBars` with `interval = 2`: the first record
written carries the sums over the two bars of its bucket. -/
theorem emitted_sums_witness :
    (∀ r ∈ sampleBars, IsInt64 r.OpenTime ∧ IsInt64 (r.OpenTime - baseTs 0)) ∧
    sampleBars.Pairwise (fun r1 r2 => r1.OpenTime ≤ r2.OpenTime) ∧
    sampleFirstBucket ∈ (aggregate 2 0 sampleBars).written ∧
    (recordsOfBucket 2 0 sampleBars sampleFirstBucket.OpenTime).length = 2 ∧
    sampleFirstBucket.Volume
      = sumF64 ((recordsOfBucket 2 0 sampleBars sampleFirstBucket.OpenTime).map Kline.Volume) ∧
    sampleFirstBucket.NumOfTrades
      = wrap64 ((recordsOfBucket 2 0 sampleBars sampleFirstBucket.OpenTime).map
          Kline.NumOfTrades).sum :=
  ⟨by decide, by decide, by decide, by decide,
    (emitted_sums 2 0 sampleBars (by decide) (by decide) sampleFirstBucket (by decide)).1,
    (emitted_sums 2 0 sampleBars (by decide) (by decide) sampleFirstBucket (by decide)).2.2.1⟩

end ComposeKlines
